import Mathlib

/-!
thermal-recorder: motion detection and recording trigger

A shallow embedding of the Go package `motion` (`frameloop.go`, `motion.go`,
`motionprocessor.go`) and of the `recorder.Recorder` interface, followed by
theorems about the embedded code.

Conventions of the embedding.

* Go `int` is `Int`; Go's truncating `%` and `/` are `Int.tmod` and `Int.tdiv`.
  Indices and counters stay far below `2^63`, so no wrap-around is modelled for
  them.  `uint16` conversions are explicit `% 65536`.
* A `*lepton3.Frame` handed out by a `FrameLoop` is a pointer into the loop's
  own storage.  The loop allocates its `size` frames once, in `NewFrameLoop`,
  and never changes the pointer array `frames` afterwards, so the pointer
  `fl.frames[i]` is represented by the slot number `i`, and the field `frames`
  of the model holds the *contents* of the slots.  A nil pointer is `none`.
* The mutex of `FrameLoop` is not modelled: every function here is one
  sequential call.
* Functions that mutate their receiver return the new receiver.
-/

namespace motion

/-! ## frameloop.go -/

/-- Go's `a % b` on `int` (truncated remainder).  For `b = 0` Go panics; the
loops considered have `size ≥ 1`. -/
def goMod (a b : Int) : Int := Int.tmod a b

/-- Go's builtin `copy(dst, src)`: overwrites the first `min (len dst) (len src)`
elements of `dst` with those of `src`; the result is the new value of `dst`. -/
def copySlice {β : Type} (dst src : List β) : List β :=
  src.take dst.length ++ dst.drop src.length

/-- `const NO_OLDEST_SET = -1`. -/
def NO_OLDEST_SET : Int := -1

/-- `type FrameLoop struct`.  `frames` holds the contents of the slots (the
pointer to slot `i` is the number `i`); `orderedFrames` is the pointer buffer
that `getFullHistory` fills. -/
structure FrameLoop (α : Type) where
  size : Int
  currentIndex : Int
  frames : List α
  orderedFrames : List (Option Nat)
  bufferFull : Bool
  oldest : Int

namespace FrameLoop

variable {α : Type}

/-- `func NewFrameLoop(size int) *FrameLoop`.  `zero` is the value of
`new(lepton3.Frame)`.  The struct literal does not mention `oldest`, which
therefore has Go's zero value `0`.  (`make` panics for a negative `size`.) -/
def NewFrameLoop (zero : α) (size : Int) : FrameLoop α :=
  { size := size
    currentIndex := 0
    frames := List.replicate size.toNat zero
    orderedFrames := List.replicate size.toNat none
    bufferFull := false
    oldest := 0 }

/-- `func (fl *FrameLoop) nextIndexAfter(index int) int`. -/
def nextIndexAfter (fl : FrameLoop α) (index : Int) : Int :=
  goMod (index + 1) fl.size

/-- `func (fl *FrameLoop) Current() *lepton3.Frame`: the pointer
`fl.frames[fl.currentIndex]`. -/
def Current (fl : FrameLoop α) : Nat :=
  fl.currentIndex.toNat

/-- `func (fl *FrameLoop) Move() *lepton3.Frame`: the loop after the call.  The
returned pointer is `Current` of the result. -/
def Move (fl : FrameLoop α) : FrameLoop α :=
  let fl1 := { fl with currentIndex := fl.nextIndexAfter fl.currentIndex }
  let fl2 := if fl1.currentIndex = 0 then { fl1 with bufferFull := true } else fl1
  if fl2.currentIndex = fl2.oldest then { fl2 with oldest := NO_OLDEST_SET } else fl2

/-- The pointer array `fl.frames`, as slot numbers. -/
def framePtrs (fl : FrameLoop α) : List (Option Nat) :=
  (List.range fl.frames.length).map some

/-- `func (fl *FrameLoop) getFullHistory() []*lepton3.Frame`: the returned slice
and the loop after the call (`orderedFrames` is overwritten). -/
def getFullHistory (fl : FrameLoop α) : List (Option Nat) × FrameLoop α :=
  if fl.currentIndex = fl.size - 1 then
    let o := copySlice fl.orderedFrames fl.framePtrs
    (o, { fl with orderedFrames := o })
  else
    let nextIndex := (fl.nextIndexAfter fl.currentIndex).toNat
    if !fl.bufferFull then
      let o := copySlice fl.orderedFrames (fl.framePtrs.take nextIndex)
      (o.take nextIndex, { fl with orderedFrames := o })
    else
      let o1 := copySlice fl.orderedFrames (fl.framePtrs.drop nextIndex)
      let k := (fl.size - (nextIndex : Int)).toNat
      let o2 := o1.take k ++ copySlice (o1.drop k) (fl.framePtrs.take nextIndex)
      (o2, { fl with orderedFrames := o2 })

/-- `func (fl *FrameLoop) GetHistory() []*lepton3.Frame`: the returned slice and
the loop after the call; `none` is the run-time panic of the slice expression
`fullHistory[len(fullHistory)-historyLength:]` when its bound is out of range. -/
def GetHistory (fl : FrameLoop α) : Option (List (Option Nat) × FrameLoop α) :=
  let r := fl.getFullHistory
  let fullHistory := r.1
  let fl1 := r.2
  if fl1.oldest = NO_OLDEST_SET then
    some (fullHistory, fl1)
  else
    let historyLength := goMod (fl1.currentIndex - fl1.oldest + fl1.size) fl1.size + 1
    let lo := (fullHistory.length : Int) - historyLength
    if lo < 0 ∨ (fullHistory.length : Int) < lo then none
    else some (fullHistory.drop lo.toNat, fl1)

/-- `func (fl *FrameLoop) Oldest() *lepton3.Frame`: the pointer returned. -/
def Oldest (fl : FrameLoop α) : Nat :=
  if fl.oldest ≠ NO_OLDEST_SET then fl.oldest.toNat
  else (fl.nextIndexAfter fl.currentIndex).toNat

/-- `func (fl *FrameLoop) SetAsOldest() *lepton3.Frame`: the loop after the
call.  The returned pointer is `Current` of the result. -/
def SetAsOldest (fl : FrameLoop α) : FrameLoop α :=
  { fl with oldest := fl.currentIndex }

/-- The pointer of the slot before the current one, the source of the copy in
`func (fl *FrameLoop) CopyRecent(f *lepton3.Frame) *lepton3.Frame`. -/
def previousIndex (fl : FrameLoop α) : Int :=
  goMod (fl.currentIndex - 1 + fl.size) fl.size


/-- The representation invariant of a loop of capacity `N`, which holds in
every state that `NewFrameLoop`, `Move`, `SetAsOldest` and `GetHistory` can
produce. -/
structure WF (fl : FrameLoop α) (N : Nat) : Prop where
  pos : 1 ≤ N
  size_eq : fl.size = N
  frames_len : fl.frames.length = N
  ordered_len : fl.orderedFrames.length = N
  cur_nonneg : 0 ≤ fl.currentIndex
  cur_lt : fl.currentIndex < N
  oldest_range : fl.oldest = -1 ∨ (0 ≤ fl.oldest ∧ fl.oldest < N)
  oldest_le : fl.bufferFull = false → fl.oldest ≠ -1 → fl.oldest ≤ fl.currentIndex

/-- The `L` slots that were current last, oldest first, in a loop of capacity
`N` whose current slot is `c`: slot `c` is last, and each element is the slot
before its successor modulo `N`. -/
def lastSlots (N c L : Nat) : List (Option Nat) :=
  (List.range L).map (fun i => some ((c + 1 + N - L + i) % N))

/-- The number of frames `GetHistory` returns, read off the fields. -/
def histLen (fl : FrameLoop α) : Nat :=
  if fl.oldest = NO_OLDEST_SET then
    (if fl.currentIndex = fl.size - 1 ∨ fl.bufferFull = true then fl.size.toNat
     else fl.currentIndex.toNat + 1)
  else ((fl.currentIndex - fl.oldest + fl.size) % fl.size + 1).toNat

/-- The states a loop of capacity `N` can be in: built by `NewFrameLoop`, then
any sequence of `Move`, `SetAsOldest` and `GetHistory` calls and of writes
through the pointers the loop hands out. -/
inductive Reachable (zero : α) (N : Nat) : FrameLoop α → Prop
  | new : Reachable zero N (NewFrameLoop zero (N : Int))
  | move {fl : FrameLoop α} : Reachable zero N fl → Reachable zero N fl.Move
  | setAsOldest {fl : FrameLoop α} : Reachable zero N fl → Reachable zero N fl.SetAsOldest
  | getHistory {fl : FrameLoop α} : Reachable zero N fl → Reachable zero N fl.getFullHistory.2
  | write {fl : FrameLoop α} (i : Nat) (v : α) :
      Reachable zero N fl → Reachable zero N { fl with frames := fl.frames.set i v }

end FrameLoop

/-! ## motion.go -/

/-- `lepton3.Frame`, a `[FrameRows][FrameCols]uint16` array; pixel `f[y][x]` is
`f y x`.  The package `lepton3` is not among the sources, so the two dimensions
are parameters. -/
abbrev Frame (rows cols : Nat) : Type := Fin rows → Fin cols → Nat

/-- The value of `new(lepton3.Frame)` and of `ZERO_FRAME`: every pixel is 0. -/
def zeroFrame (rows cols : Nat) : Frame rows cols := fun _ _ => 0

/-- Modelled from the spec: the enumeration `DetectionState ∈ {OK, NoData,
TooManyPoints}` of `MotionState`, whose declaration is not among the sources;
`OK` is the zero value. -/
inductive DetectionState where
  | OK
  | NoData
  | TooManyPoints
deriving DecidableEq, Repr

/-- Modelled from the spec: `MotionState`, a boolean mask of `ROWS × COLS`
plus a `DetectionState`; its declaration is not among the sources. -/
structure MotionState (rows cols : Nat) where
  Mask : Fin rows → Fin cols → Bool
  DetectionState : DetectionState

/-- Modelled from the spec: `outMask.Zero()`, which resets the mask and the
state to all-zero before each detection call. -/
def MotionState.Zero {rows cols : Nat} (_m : MotionState rows cols) : MotionState rows cols :=
  { Mask := fun _ _ => false, DetectionState := DetectionState.OK }

/-- Modelled from the spec: `MotionConfig`, whose declaration is not among the
sources; the fields are those that `NewMotionDetector` and `NewMotionProcessor`
read. -/
structure MotionConfig where
  TempThresh : Nat
  DeltaThresh : Nat
  CountThresh : Int
  NonzeroMaxPercent : Int
  FrameCompareGap : Int
  UseOneDiffOnly : Bool
  TriggerFrames : Int
  Verbose : Bool
  WarmerOnly : Bool

/-- `type motionDetector struct`. -/
structure motionDetector (rows cols : Nat) where
  flooredFrames : FrameLoop (Frame rows cols)
  diffFrames : FrameLoop (Frame rows cols)
  firstDiff : Bool
  useOneDiff : Bool
  tempThresh : Nat
  deltaThresh : Nat
  countThresh : Int
  nonzeroLimit : Int
  framesGap : Nat
  verbose : Bool
  warmerOnly : Bool

/-- `func NewMotionDetector(args MotionConfig) *motionDetector`. -/
def NewMotionDetector (rows cols : Nat) (args : MotionConfig) : motionDetector rows cols :=
  let totalPixels : Int := (rows : Int) * (cols : Int)
  { flooredFrames := FrameLoop.NewFrameLoop (zeroFrame rows cols) (args.FrameCompareGap + 1)
    diffFrames := FrameLoop.NewFrameLoop (zeroFrame rows cols) 2
    firstDiff := false
    useOneDiff := args.UseOneDiffOnly
    framesGap := (args.FrameCompareGap % 18446744073709551616).toNat
    deltaThresh := args.DeltaThresh
    countThresh := args.CountThresh
    tempThresh := args.TempThresh
    nonzeroLimit := Int.tdiv (totalPixels * args.NonzeroMaxPercent) 100
    verbose := args.Verbose
    warmerOnly := args.WarmerOnly }

/-- `func absDiff(a, b uint16) uint16`. -/
def absDiff (a b : Nat) : Nat :=
  let d : Int := (a : Int) - (b : Int)
  if d < 0 then ((-d) % 65536).toNat else (d % 65536).toNat

/-- `func warmerDiff(a, b uint16) uint16`. -/
def warmerDiff (a b : Nat) : Nat :=
  let d : Int := (a : Int) - (b : Int)
  if d < 0 then 0 else (d % 65536).toNat

/-- `func absDiffFrames(a, b, out *lepton3.Frame) *lepton3.Frame`: the contents
of `out` after the call (the two loops assign every pixel). -/
def absDiffFrames {rows cols : Nat} (a b : Frame rows cols) : Frame rows cols :=
  fun y x => absDiff (a y x) (b y x)

/-- `func warmerDiffFrames(a, b, out *lepton3.Frame) *lepton3.Frame`: the
contents of `out` after the call (the two loops assign every pixel). -/
def warmerDiffFrames {rows cols : Nat} (a b : Frame rows cols) : Frame rows cols :=
  fun y x => warmerDiff (a y x) (b y x)

/-- The running values of a pixel-counting loop: `nonzeroCount`, `deltaCount`
and the mask of `outMask`. -/
structure PixelCount (rows cols : Nat) where
  nonzeroCount : Int
  deltaCount : Int
  Mask : Fin rows → Fin cols → Bool

/-- The assignment `outMask.Mask[y][x] = true`. -/
def setMask {rows cols : Nat} (m : Fin rows → Fin cols → Bool) (y : Fin rows) (x : Fin cols) :
    Fin rows → Fin cols → Bool :=
  Function.update m y (Function.update (m y) x true)

namespace motionDetector

variable {rows cols : Nat}

/-- `func (d *motionDetector) setFloor(f, out *lepton3.Frame) *lepton3.Frame`:
the contents of `out` after the call (the two loops assign every pixel). -/
def setFloor (d : motionDetector rows cols) (f : Frame rows cols) : Frame rows cols :=
  fun y x =>
    let v := f y x
    if v < d.tempThresh then d.tempThresh else v

/-- The body of the two loops of `CountPixelsTwoCompare` at pixel `(y, x)`. -/
def twoCompareStep (d : motionDetector rows cols) (f1 f2 : Frame rows cols)
    (y : Fin rows) (acc : PixelCount rows cols) (x : Fin cols) : PixelCount rows cols :=
  let v1 := f1 y x
  let v2 := f2 y x
  if v1 > 0 ∨ v2 > 0 then
    let acc1 := { acc with nonzeroCount := acc.nonzeroCount + 1 }
    if v1 > d.deltaThresh ∧ v2 > d.deltaThresh then
      { acc1 with Mask := setMask acc1.Mask y x, deltaCount := acc1.deltaCount + 1 }
    else acc1
  else acc

/-- `func (d *motionDetector) CountPixelsTwoCompare(f1, f2 *lepton3.Frame,
outMask *MotionState) (nonZeros, deltas int)`: the two counts and the mask
after the call. -/
def CountPixelsTwoCompare (d : motionDetector rows cols) (f1 f2 : Frame rows cols)
    (outMask : MotionState rows cols) : PixelCount rows cols :=
  (List.finRange rows).foldl
    (fun acc y => (List.finRange cols).foldl (twoCompareStep d f1 f2 y) acc)
    { nonzeroCount := 0, deltaCount := 0, Mask := outMask.Mask }

/-- The body of the two loops of `CountPixels` at pixel `(y, x)`. -/
def oneCompareStep (d : motionDetector rows cols) (f1 : Frame rows cols)
    (y : Fin rows) (acc : PixelCount rows cols) (x : Fin cols) : PixelCount rows cols :=
  let v1 := f1 y x
  if v1 > 0 then
    let acc1 := { acc with nonzeroCount := acc.nonzeroCount + 1 }
    if v1 > d.deltaThresh then
      { acc1 with Mask := setMask acc1.Mask y x, deltaCount := acc1.deltaCount + 1 }
    else acc1
  else acc

/-- `func (d *motionDetector) CountPixels(f1 *lepton3.Frame, outMask
*MotionState) (nonZeros, deltas int)`: the two counts and the mask after the
call. -/
def CountPixels (d : motionDetector rows cols) (f1 : Frame rows cols)
    (outMask : MotionState rows cols) : PixelCount rows cols :=
  (List.finRange rows).foldl
    (fun acc y => (List.finRange cols).foldl (oneCompareStep d f1 y) acc)
    { nonzeroCount := 0, deltaCount := 0, Mask := outMask.Mask }

/-- What a call of `Detect` leaves behind: the verdict, the caller's
`outMask`, and the detector. -/
structure Result (rows cols : Nat) where
  movement : Bool
  outMask : MotionState rows cols
  detector : motionDetector rows cols

/-- `func (d *motionDetector) hasMotion(f1, f2 *lepton3.Frame, outMask
*MotionState) bool`.  `f1` and `f2` are the frames pointed to (`f2 = none` for
the nil pointer); `none` as result is the nil dereference of `f2[y][x]` in
`CountPixelsTwoCompare`. -/
def hasMotion (d : motionDetector rows cols) (f1 : Frame rows cols)
    (f2 : Option (Frame rows cols)) (outMask : MotionState rows cols) :
    Option (Result rows cols) :=
  let counted : Option (PixelCount rows cols) :=
    if d.useOneDiff then some (d.CountPixels f1 outMask)
    else f2.map (fun g => d.CountPixelsTwoCompare f1 g outMask)
  counted.map (fun c =>
    let outMask1 := { outMask with Mask := c.Mask }
    if c.nonzeroCount > d.nonzeroLimit then
      { movement := false
        outMask := { outMask1 with DetectionState := DetectionState.TooManyPoints }
        detector := { d with flooredFrames := d.flooredFrames.SetAsOldest, firstDiff := false } }
    else
      { movement := decide (c.deltaCount ≥ d.countThresh)
        outMask := outMask1
        detector := d })

/-- The frame a pointer of the loop points to. -/
def deref (fl : FrameLoop (Frame rows cols)) (p : Nat) : Frame rows cols :=
  fl.frames.getD p (zeroFrame rows cols)

/-- The loop `flooredFrames` after `d.setFloor(frame, processedFrame)` with
`processedFrame := d.flooredFrames.Current()`. -/
def floored (d : motionDetector rows cols) (frame : Frame rows cols) :
    FrameLoop (Frame rows cols) :=
  { d.flooredFrames with
    frames := d.flooredFrames.frames.set d.flooredFrames.Current (d.setFloor frame) }

/-- The frame `processedFrame` points to once `setFloor` has written it. -/
def processedFrame (d : motionDetector rows cols) (frame : Frame rows cols) : Frame rows cols :=
  deref (d.floored frame) d.flooredFrames.Current

/-- The frame `compareFrame := d.flooredFrames.Oldest()` points to, read after
`setFloor`. -/
def compareFrame (d : motionDetector rows cols) (frame : Frame rows cols) : Frame rows cols :=
  deref (d.floored frame) (d.floored frame).Oldest

/-- The frame that `warmerDiffFrames` or `absDiffFrames` writes to
`diffFrame := d.diffFrames.Current()`. -/
def diffFrame (d : motionDetector rows cols) (frame : Frame rows cols) : Frame rows cols :=
  if d.warmerOnly then warmerDiffFrames (d.processedFrame frame) (d.compareFrame frame)
  else absDiffFrames (d.processedFrame frame) (d.compareFrame frame)

/-- The loop `diffFrames` after the diff has been written and
`prevDiffFrame := d.diffFrames.Move()` has run. -/
def diffsMoved (d : motionDetector rows cols) (frame : Frame rows cols) :
    FrameLoop (Frame rows cols) :=
  FrameLoop.Move
    { d.diffFrames with
      frames := d.diffFrames.frames.set d.diffFrames.Current (d.diffFrame frame) }

/-- The frame `prevDiffFrame` points to. -/
def prevDiffFrame (d : motionDetector rows cols) (frame : Frame rows cols) : Frame rows cols :=
  deref (d.diffsMoved frame) (d.diffsMoved frame).Current

/-- The deferred `d.flooredFrames.Move()`, run when `pixelsChanged` returns. -/
def deferredMove (r : Result rows cols) : Result rows cols :=
  { r with detector := { r.detector with flooredFrames := r.detector.flooredFrames.Move } }

/-- `func (d *motionDetector) pixelsChanged(frame *lepton3.Frame, outMask
*MotionState) (bool, *MotionState)`. -/
def pixelsChanged (d : motionDetector rows cols) (frame : Frame rows cols)
    (outMask : MotionState rows cols) : Option (Result rows cols) :=
  let outMask := outMask.Zero
  let d1 := { d with flooredFrames := d.floored frame, diffFrames := d.diffsMoved frame }
  if !d1.firstDiff then
    some (deferredMove
      { movement := false
        outMask := { outMask with DetectionState := DetectionState.NoData }
        detector := { d1 with firstDiff := true } })
  else
    let r :=
      if d1.useOneDiff then d1.hasMotion (d.diffFrame frame) none outMask
      else d1.hasMotion (d.diffFrame frame) (some (d.prevDiffFrame frame)) outMask
    r.map deferredMove

/-- `func (d *motionDetector) Detect(frame *lepton3.Frame, outMask
*MotionState) bool`. -/
def Detect (d : motionDetector rows cols) (frame : Frame rows cols)
    (outMask : MotionState rows cols) : Option (Result rows cols) :=
  d.pixelsChanged frame outMask

end motionDetector

/-! ## recorder.go and motionprocessor.go -/

/-- Modelled from the spec: `lepton3.FramesHz`, the frame rate, a constant of
the package `lepton3`, which is not among the sources; the spec has
`fps = 9`. -/
def FramesHz : Int := 9

/-- A call that `Process` makes on one of its collaborators: the four methods
of `recorder.Recorder`, the three of `RecordingListener`, and `log.Printf`.
`WriteFrame` carries the pointer passed and the frame it points to at that
moment; `StopRecording` carries the value `mp.framesWritten` has when it is
called; `Log` carries the task text and `mp.totalFrames`. -/
inductive Event (α : Type) where
  | MotionDetected
  | RecordingStarted
  | RecordingEnded
  | CheckCanRecord
  | StartRecording
  | WriteFrame (frame : Option Nat) (data : Option α)
  | StopRecording (framesWritten : Int)
  | Log (task : String) (totalFrames : Int)

/-- What the collaborators answer during one `Process` call: the verdict of
`mp.motionDetector.Detect(frame)`, `mp.window.Active()`, and for each method of
`recorder.Recorder` whether it returns a nil error (`preWriteOk ii` for the
`WriteFrame` of `recordPreTriggerFrames` at index `ii`, `writeOk` for the
`WriteFrame` of the current frame). -/
structure Env where
  motion : Bool
  windowActive : Bool
  checkCanRecordOk : Bool
  startRecordingOk : Bool
  preWriteOk : Nat → Bool
  writeOk : Bool
  stopRecordingOk : Bool

/-- `type MotionProcessor struct`.  `motionDetector`, `window` and `recorder`
are collaborators whose answers come from `Env`; `hasListener` is
`mp.listener != nil`; `conf` is not read after construction. -/
structure MotionProcessor (α : Type) where
  minFrames : Int
  maxFrames : Int
  framesWritten : Int
  frameLoop : FrameLoop α
  isRecording : Bool
  totalFrames : Int
  writeUntil : Int
  lastLogFrame : Int
  hasListener : Bool
  triggerFrames : Int
  triggered : Int

/-- Modelled from the spec: `recorder.RecorderConfig`, whose declaration is
not among the sources; the fields are those that `NewMotionProcessor` reads to
size the processor (`minSecs`, `maxSecs`, `previewSecs`). -/
structure RecorderConfig where
  MinSecs : Int
  MaxSecs : Int
  PreviewSecs : Int

namespace MotionProcessor

variable {α : Type}

/-- `func NewMotionProcessor(motionConf *MotionConfig, recorderConf
*recorder.RecorderConfig, listener RecordingListener, recorder
recorder.Recorder) *MotionProcessor`; `hasListener` is `listener != nil`, and
the fields the literal does not mention have Go's zero value. -/
def NewMotionProcessor (zero : α) (motionConf : MotionConfig) (recorderConf : RecorderConfig)
    (hasListener : Bool) : MotionProcessor α :=
  { minFrames := recorderConf.MinSecs * FramesHz
    maxFrames := recorderConf.MaxSecs * FramesHz
    framesWritten := 0
    frameLoop :=
      FrameLoop.NewFrameLoop zero (recorderConf.PreviewSecs * FramesHz + motionConf.TriggerFrames)
    isRecording := false
    totalFrames := 0
    writeUntil := 0
    lastLogFrame := 0
    hasListener := hasListener
    triggerFrames := motionConf.TriggerFrames
    triggered := 0 }

/-- `func min(a, b int) int`. -/
def min (a b : Int) : Int :=
  if a < b then a else b

/-- `func (mp *MotionProcessor) canStartWriting() error`: the calls made and
whether the error is nil. -/
def canStartWriting (_mp : MotionProcessor α) (env : Env) : List (Event α) × Bool :=
  if !env.windowActive then ([], false)
  else ([Event.CheckCanRecord], env.checkCanRecordOk)

/-- `func (mp *MotionProcessor) occasionallyWriteError(task string, err error)`. -/
def occasionallyWriteError (mp : MotionProcessor α) (task : String) :
    MotionProcessor α × List (Event α) :=
  let shouldLogMotion := decide (mp.lastLogFrame = 0)
  if shouldLogMotion then
    ({ mp with lastLogFrame := mp.totalFrames }, [Event.Log task mp.totalFrames])
  else (mp, [])

/-- The loop of `recordPreTriggerFrames` from index `ii` on, over the frames
still to be written: the `WriteFrame` calls made and whether the function
returns a nil error.  A failing `WriteFrame` returns at once. -/
def writePreTrigger (env : Env) (fl : FrameLoop α) : List (Option Nat) → Nat → List (Event α) × Bool
  | [], _ => ([], true)
  | frame :: rest, ii =>
    let ev : Event α := Event.WriteFrame frame (frame.bind (fun p => fl.frames[p]?))
    if env.preWriteOk ii then
      let r := writePreTrigger env fl rest (ii + 1)
      (ev :: r.1, r.2)
    else ([ev], false)

/-- `func (mp *MotionProcessor) recordPreTriggerFrames() error`: the processor
after the call, the calls made and whether the error is nil; `none` is a panic
of `GetHistory`.  The loop runs over all frames of the history but the last. -/
def recordPreTriggerFrames (mp : MotionProcessor α) (env : Env) :
    Option (MotionProcessor α × List (Event α) × Bool) :=
  mp.frameLoop.GetHistory.map (fun h =>
    let frames := h.1
    let r := writePreTrigger env h.2 frames.dropLast 0
    ({ mp with frameLoop := h.2 }, r.1, r.2))

/-- `func (mp *MotionProcessor) startRecording() error`. -/
def startRecording (mp : MotionProcessor α) (env : Env) :
    Option (MotionProcessor α × List (Event α) × Bool) :=
  if !env.startRecordingOk then some (mp, [Event.StartRecording], false)
  else
    let mp1 := { mp with isRecording := true }
    let ev : List (Event α) :=
      Event.StartRecording :: (if mp1.hasListener then [Event.RecordingStarted] else [])
    (mp1.recordPreTriggerFrames env).map (fun r => (r.1, ev ++ r.2.1, r.2.2))

/-- `func (mp *MotionProcessor) stopRecording() error`. -/
def stopRecording (mp : MotionProcessor α) (env : Env) :
    MotionProcessor α × List (Event α) × Bool :=
  let ev : List (Event α) :=
    (if mp.hasListener then [Event.RecordingEnded] else []) ++
      [Event.StopRecording mp.framesWritten]
  ({ mp with
      framesWritten := 0
      writeUntil := 0
      isRecording := false
      triggered := 0
      frameLoop := mp.frameLoop.SetAsOldest }, ev, env.stopRecordingOk)

/-- The first part of `internalProcess`: `mp.totalFrames++` and the
`if mp.motionDetector.Detect(frame) { ... } else { ... }` statement, with the
verdict of `Detect` taken from `env.motion`. -/
def detectBranch (mp : MotionProcessor α) (env : Env) : Option (MotionProcessor α × List (Event α)) :=
  let mp := { mp with totalFrames := mp.totalFrames + 1 }
  if env.motion then
    let ev0 : List (Event α) := if mp.hasListener then [Event.MotionDetected] else []
    let mp := { mp with triggered := mp.triggered + 1 }
    if mp.isRecording then
      some ({ mp with writeUntil := min (mp.framesWritten + mp.minFrames) mp.maxFrames }, ev0)
    else if mp.triggered < mp.triggerFrames then
      some (mp, ev0)
    else
      let c := mp.canStartWriting env
      if !c.2 then
        let r := mp.occasionallyWriteError "Recording not started"
        some (r.1, ev0 ++ c.1 ++ r.2)
      else
        (mp.startRecording env).map (fun s =>
          if !s.2.2 then
            let r := s.1.occasionallyWriteError "Can't start recording file"
            (r.1, ev0 ++ c.1 ++ s.2.1 ++ r.2)
          else
            ({ s.1 with writeUntil := s.1.minFrames }, ev0 ++ c.1 ++ s.2.1))
  else
    some ({ mp with triggered := 0 }, [])

/-- `func (mp *MotionProcessor) internalProcess(frame *lepton3.Frame)`: the
processor after the call and the calls made, in order; `none` is a panic.
`frame` is the pointer passed. -/
def internalProcess (mp : MotionProcessor α) (env : Env) (frame : Nat) :
    Option (MotionProcessor α × List (Event α)) :=
  (mp.detectBranch env).map (fun r =>
    let mp := r.1
    let ev1 := r.2
    -- If recording, write the frame.
    let w : MotionProcessor α × List (Event α) :=
      if mp.isRecording then
        ({ mp with framesWritten := mp.framesWritten + 1 },
          [Event.WriteFrame (some frame) mp.frameLoop.frames[frame]?] ++
            (if env.writeOk then [] else [Event.Log "Failed to write to CPTV file" mp.totalFrames]))
      else (mp, [])
    let mp := { w.1 with frameLoop := w.1.frameLoop.Move }
    if mp.isRecording ∧ mp.framesWritten ≥ mp.writeUntil then
      let s := mp.stopRecording env
      (s.1, ev1 ++ w.2 ++ s.2.1 ++
        (if s.2.2 then [] else [Event.Log "Failed to stop recording CPTV file" mp.totalFrames]))
    else (mp, ev1 ++ w.2))

/-- The write `frame.Copy(srcFrame)` of `ProcessFrame`, and `rawFrame.ToFrame(frame)`
of `Process`, into `frame := mp.frameLoop.Current()`. -/
def writeCurrent (mp : MotionProcessor α) (srcFrame : α) : MotionProcessor α :=
  { mp with
    frameLoop :=
      { mp.frameLoop with frames := mp.frameLoop.frames.set mp.frameLoop.Current srcFrame } }

/-- `func (mp *MotionProcessor) ProcessFrame(srcFrame *lepton3.Frame)`:
`frame.Copy(srcFrame)` into the current slot, then `internalProcess(frame)`.
`Process(rawFrame)` is the same with `rawFrame.ToFrame(frame)` as the write. -/
def ProcessFrame (mp : MotionProcessor α) (env : Env) (srcFrame : α) :
    Option (MotionProcessor α × List (Event α)) :=
  (mp.writeCurrent srcFrame).internalProcess env mp.frameLoop.Current

end MotionProcessor

/-! ## Counts and runs used to state the properties -/

/-- The number of pixels `(y, x)` of a `rows × cols` frame at which `p` holds. -/
def pixelCount (rows cols : Nat) (p : Fin rows → Fin cols → Prop)
    [∀ y x, Decidable (p y x)] : Nat :=
  (Finset.univ.filter (fun q : Fin rows × Fin cols => p q.1 q.2)).card

/-- The number of pixels at which either diff is `> 0`; in one-diff mode, at
which the current diff is `> 0`. -/
def nonzeroPixels {rows cols : Nat} (useOneDiff : Bool) (cur prev : Frame rows cols) : Nat :=
  if useOneDiff then pixelCount rows cols (fun y x => 0 < cur y x)
  else pixelCount rows cols (fun y x => 0 < cur y x ∨ 0 < prev y x)

/-- The number of pixels at which both the current and the previous diff
exceed `deltaThresh`; in one-diff mode, at which the current diff does. -/
def deltaPixels {rows cols : Nat} (useOneDiff : Bool) (deltaThresh : Nat)
    (cur prev : Frame rows cols) : Nat :=
  if useOneDiff then pixelCount rows cols (fun y x => deltaThresh < cur y x)
  else pixelCount rows cols (fun y x => deltaThresh < cur y x ∧ deltaThresh < prev y x)

/-- The detector fed the frames of a list in order, one `Detect` call each
(every call is handed `outMask`): the detector after the last call and, per
call, the verdict and the `DetectionState` reported. -/
def detectAll {rows cols : Nat} (d : motionDetector rows cols) (outMask : MotionState rows cols) :
    List (Frame rows cols) → Option (motionDetector rows cols × List (Bool × DetectionState))
  | [] => some (d, [])
  | f :: fs =>
    (d.Detect f outMask).bind (fun r =>
      (detectAll r.detector outMask fs).map
        (fun p => (p.1, (r.movement, r.outMask.DetectionState) :: p.2)))

/-- The `DetectionState` reported by each call when the detector is fed the
frames of a list in order. -/
def detectionStates {rows cols : Nat} (d : motionDetector rows cols)
    (outMask : MotionState rows cols) (fs : List (Frame rows cols)) : List DetectionState :=
  ((detectAll d outMask fs).map (fun p => p.2.map Prod.snd)).getD []

/-- What is known of a detector with `FrameCompareGap + 1 = N` that has made
`hist.length` calls, on the frames `hist`, with the reports `outs`: slot
`j mod N` of `flooredFrames` holds the floored frame of call `j` (counted from
0) for the last `N` calls, and the oldest marker, when set, is at the slot of
a call `m` that either is the first call or reported `TooManyPoints`. -/
structure DetInv {rows cols : Nat} (N : Nat) (t : Nat) (d : motionDetector rows cols)
    (hist : List (Frame rows cols)) (outs : List (Bool × DetectionState)) : Prop where
  wf : d.flooredFrames.WF N
  temp : d.tempThresh = t
  cur : d.flooredFrames.currentIndex = ((hist.length % N : Nat) : Int)
  outs_len : outs.length = hist.length
  slots : ∀ j f, hist[j]? = some f → hist.length ≤ j + N →
    motionDetector.deref d.flooredFrames (j % N) = d.setFloor f
  pin : d.flooredFrames.oldest = -1 ∨
    ∃ m : Nat, d.flooredFrames.oldest = ((m % N : Nat) : Int) ∧ m ≤ hist.length ∧
      hist.length < m + N ∧
      (m = 0 ∨ ∃ b, outs[m]? = some (b, DetectionState.TooManyPoints))

/-- The processor fed a list of frames, one `ProcessFrame` call each, with the
collaborators' answers for that call: per call, the processor after it and the
calls it made.  `none` is a panic. -/
def processAll {α : Type} (mp : MotionProcessor α) :
    List (Env × α) → Option (List (MotionProcessor α × List (Event α)))
  | [] => some []
  | x :: rest =>
    (mp.ProcessFrame x.1 x.2).bind (fun r => (processAll r.1 rest).map (fun t => r :: t))

/-- The processor as call number `k` (counted from 0) of a run finds it. -/
def stateBefore {α : Type} (mp : MotionProcessor α)
    (tr : List (MotionProcessor α × List (Event α))) : Nat → MotionProcessor α
  | 0 => mp
  | k + 1 => (tr[k]?.map Prod.fst).getD mp

namespace Event

variable {α : Type}

/-- Is the call `recorder.CheckCanRecord()`? -/
def isCheckCanRecord : Event α → Bool
  | CheckCanRecord => true
  | _ => false

/-- Is the call `recorder.StartRecording()`? -/
def isStartRecording : Event α → Bool
  | StartRecording => true
  | _ => false

/-- Is the call `recorder.WriteFrame(frame)`? -/
def isWriteFrame : Event α → Bool
  | WriteFrame _ _ => true
  | _ => false

/-- The pointer and the frame of a `WriteFrame` call. -/
def written : Event α → Option (Option Nat × Option α)
  | WriteFrame p d => some (p, d)
  | _ => none

/-- The value of `framesWritten` at a `StopRecording` call. -/
def stoppedAt : Event α → Option Int
  | StopRecording n => some n
  | _ => none

end Event

/-- Collaborators that never fail, with the window active; `motion` is the
detector's verdict. -/
def Env.allOk (motion : Bool) : Env :=
  { motion := motion
    windowActive := true
    checkCanRecordOk := true
    startRecordingOk := true
    preWriteOk := fun _ => true
    writeOk := true
    stopRecordingOk := true }

/-- The configuration of scenario S4: `minSecs = 5`, `maxSecs = 10`, with
`PreviewSecs` of pre-roll. -/
def s4Config (PreviewSecs : Int) : RecorderConfig :=
  { MinSecs := 5, MaxSecs := 10, PreviewSecs := PreviewSecs }

/-- A recorder whose `WriteFrame` fails on the pre-trigger frames and that is
otherwise sound, with the window active and motion detected. -/
def Env.preWriteFails : Env :=
  { Env.allOk true with preWriteOk := fun _ => false }

/-- All calls of a run, in order. -/
def allEvents {α : Type} (tr : List (MotionProcessor α × List (Event α))) : List (Event α) :=
  (tr.map Prod.snd).flatten

/-- The fields of the processor that drive the recording state machine. -/
structure Ctl where
  isRecording : Bool
  framesWritten : Int
  writeUntil : Int
  triggered : Int
deriving DecidableEq

/-- The state-machine fields of a fresh or stopped processor. -/
def Ctl.idle : Ctl :=
  { isRecording := false, framesWritten := 0, writeUntil := 0, triggered := 0 }

/-- The state-machine fields of a processor. -/
def MotionProcessor.ctl {α : Type} (mp : MotionProcessor α) : Ctl :=
  { isRecording := mp.isRecording
    framesWritten := mp.framesWritten
    writeUntil := mp.writeUntil
    triggered := mp.triggered }

/-- The effect of `internalProcess` on the state-machine fields on a
motion-positive frame when no collaborator fails, with the number of
`StartRecording` calls and the values of `framesWritten` at the
`StopRecording` calls. -/
def ctlStep (minFrames maxFrames triggerFrames : Int) (c : Ctl) : Ctl × Nat × List Int :=
  let triggered := c.triggered + 1
  let d : Bool × Int × Nat :=
    if c.isRecording then (true, MotionProcessor.min (c.framesWritten + minFrames) maxFrames, 0)
    else if triggered < triggerFrames then (false, c.writeUntil, 0)
    else (true, minFrames, 1)
  let framesWritten := if d.1 then c.framesWritten + 1 else c.framesWritten
  if d.1 = true ∧ framesWritten ≥ d.2.1 then
    ({ isRecording := false, framesWritten := 0, writeUntil := 0, triggered := 0 },
      d.2.2, [framesWritten])
  else
    ({ isRecording := d.1, framesWritten := framesWritten, writeUntil := d.2.1,
       triggered := triggered }, d.2.2, [])

/-- `n` steps of `ctlStep`: the final fields, the number of `StartRecording`
calls and the values of `framesWritten` at the `StopRecording` calls. -/
def ctlRun (minFrames maxFrames triggerFrames : Int) : Nat → Ctl → Ctl × Nat × List Int
  | 0, c => (c, 0, [])
  | n + 1, c =>
    let s := ctlStep minFrames maxFrames triggerFrames c
    let r := ctlRun minFrames maxFrames triggerFrames n s.1
    (r.1, s.2.1 + r.2.1, s.2.2 ++ r.2.2)

/-- Collaborators that never fail and motion detected, outside the recording
window. -/
def Env.windowClosed : Env :=
  { Env.allOk true with windowActive := false }

/-! ## Invariants of the recording state machine -/

namespace MotionProcessor

variable {α : Type}

/-- The fields that the `if` statement of `internalProcess` leaves alone or
sets in one way only. -/
structure DecideFacts (mp : MotionProcessor α) (env : Env) (N : Nat)
    (r : MotionProcessor α × List (Event α)) : Prop where
  wf : r.1.frameLoop.WF N
  cur : r.1.frameLoop.currentIndex = mp.frameLoop.currentIndex
  frames : r.1.frameLoop.frames = mp.frameLoop.frames
  trig : r.1.triggerFrames = mp.triggerFrames
  minF : r.1.minFrames = mp.minFrames
  maxF : r.1.maxFrames = mp.maxFrames
  fw : r.1.framesWritten = mp.framesWritten
  lis : r.1.hasListener = mp.hasListener
  triggered : r.1.triggered = (if env.motion then mp.triggered + 1 else 0)
  keep : mp.isRecording = true → r.1.isRecording = true
  start : (0 < r.2.countP Event.isStartRecording ∨ (mp.isRecording = false ∧ r.1.isRecording = true)) →
    env.motion = true ∧ mp.isRecording = false ∧ mp.triggerFrames ≤ mp.triggered + 1

/-- What one `internalProcess` call does to the fields, for any answers of
the collaborators. -/
structure StepFacts (mp : MotionProcessor α) (env : Env) (N : Nat)
    (r : MotionProcessor α × List (Event α)) : Prop where
  wf : r.1.frameLoop.WF N
  trig : r.1.triggerFrames = mp.triggerFrames
  minF : r.1.minFrames = mp.minFrames
  maxF : r.1.maxFrames = mp.maxFrames
  lis : r.1.hasListener = mp.hasListener
  triggered : r.1.triggered = 0 ∨ (env.motion = true ∧ r.1.triggered = mp.triggered + 1)
  reset : env.motion = false → r.1.triggered = 0
  start : (0 < r.2.countP Event.isStartRecording ∨ (mp.isRecording = false ∧ r.1.isRecording = true)) →
    env.motion = true ∧ mp.isRecording = false ∧ mp.triggerFrames ≤ mp.triggered + 1

/-- The invariant behind the trigger count: `triggered` never exceeds the
number of motion-positive frames that end the history. -/
structure TrigInv (N : Nat) (T : Int) (mp : MotionProcessor α) (hist : List (Env × α)) :
    Prop where
  wf : mp.frameLoop.WF N
  trig : mp.triggerFrames = T
  nonneg : 0 ≤ mp.triggered
  le_len : mp.triggered ≤ hist.length
  motion : ∀ j : Nat, j < hist.length → (hist.length : Int) - mp.triggered ≤ j →
    ∃ x, hist[j]? = some x ∧ x.1.motion = true

end MotionProcessor

/-- The inputs of a run with the answer of the `WriteFrame` call that writes
the current frame replaced, on call number `k + i`, by `w (k + i)`; all other
answers are kept. -/
def setWriteOk {α : Type} (w : Nat → Bool) : Nat → List (Env × α) → List (Env × α)
  | _, [] => []
  | k, x :: rest => ({ x.1 with writeOk := w k }, x.2) :: setWriteOk w (k + 1) rest

/-- Per call of a run, the processor after the call and the values of
`framesWritten` at its `StopRecording` calls. -/
def statesAndStops {α : Type} (tr : List (MotionProcessor α × List (Event α))) :
    List (MotionProcessor α × List Int) :=
  tr.map (fun r => (r.1, r.2.filterMap Event.stoppedAt))


/-! ## The pixel loops of motion.go over a store of frames -/

/-- The frames in memory: the frame each pointer points to.  Two pointers
that are equal name the same frame. -/
abbrev Store (rows cols : Nat) : Type := Nat → Frame rows cols

/-- The assignment `out[y][x] = v` through the pointer `out`. -/
def Store.assign {rows cols : Nat} (m : Store rows cols) (out : Nat) (y : Fin rows)
    (x : Fin cols) (v : Nat) : Store rows cols :=
  Function.update m out (Function.update (m out) y (Function.update (m out y) x v))

/-- `func absDiffFrames(a, b, out *lepton3.Frame) *lepton3.Frame` as the two
loops run: the store after the call; `a`, `b` and `out` are the pointers. -/
def absDiffFramesLoop {rows cols : Nat} (m : Store rows cols) (a b out : Nat) :
    Store rows cols :=
  (List.finRange rows).foldl
    (fun m y => (List.finRange cols).foldl
      (fun m x => m.assign out y x (absDiff (m a y x) (m b y x))) m) m

/-- `func warmerDiffFrames(a, b, out *lepton3.Frame) *lepton3.Frame` as the
two loops run: the store after the call; `a`, `b` and `out` are the
pointers. -/
def warmerDiffFramesLoop {rows cols : Nat} (m : Store rows cols) (a b out : Nat) :
    Store rows cols :=
  (List.finRange rows).foldl
    (fun m y => (List.finRange cols).foldl
      (fun m x => m.assign out y x (warmerDiff (m a y x) (m b y x))) m) m

/-- `func (d *motionDetector) setFloor(f, out *lepton3.Frame) *lepton3.Frame`
as the two loops run: the store after the call; `f` and `out` are the
pointers. -/
def motionDetector.setFloorLoop {rows cols : Nat} (d : motionDetector rows cols)
    (m : Store rows cols) (f out : Nat) : Store rows cols :=
  (List.finRange rows).foldl
    (fun m y => (List.finRange cols).foldl
      (fun m x =>
        let v := m f y x
        if v < d.tempThresh then m.assign out y x d.tempThresh else m.assign out y x v) m) m


namespace FrameLoop

variable {α : Type}

/-- One step of a client of the loop: the frame `v` is written through the
pointer `Current()`, then `Move()` is called. -/
def writeMove (fl : FrameLoop α) (v : α) : FrameLoop α :=
  Move { fl with frames := fl.frames.set fl.Current v }

/-- The steps `writeMove` for the frames `ws`, in order. -/
def steps (fl : FrameLoop α) (ws : List α) : FrameLoop α :=
  ws.foldl writeMove fl

/-- The loops reachable from `NewFrameLoop(N)` with `m` calls of `Move` among
the calls made: `Move`, `SetAsOldest`, `GetHistory` (which rewrites
`orderedFrames`) and writes through pointers; `Current`, `Oldest` and
`CopyRecent` leave the loop as it is. -/
inductive ReachableIn (zero : α) (N : Nat) : Nat → FrameLoop α → Prop
  | new : ReachableIn zero N 0 (NewFrameLoop zero (N : Int))
  | move {m : Nat} {fl : FrameLoop α} : ReachableIn zero N m fl → ReachableIn zero N (m + 1) fl.Move
  | setAsOldest {m : Nat} {fl : FrameLoop α} :
      ReachableIn zero N m fl → ReachableIn zero N m fl.SetAsOldest
  | getHistory {m : Nat} {fl : FrameLoop α} :
      ReachableIn zero N m fl → ReachableIn zero N m fl.getFullHistory.2
  | write {m : Nat} {fl : FrameLoop α} (i : Nat) (v : α) :
      ReachableIn zero N m fl → ReachableIn zero N m { fl with frames := fl.frames.set i v }

/-- The index expression `s[i]` on a slice of length `len` does not panic. -/
def indexOK (i : Int) (len : Nat) : Prop := 0 ≤ i ∧ i < len

/-- The slice expression `s[lo:hi]` on a slice of capacity `cap` does not
panic. -/
def sliceOK (lo hi : Int) (cap : Nat) : Prop := 0 ≤ lo ∧ lo ≤ hi ∧ hi ≤ cap

/-- `Current` indexes in range: `fl.frames[fl.currentIndex]`. -/
def CurrentOK (fl : FrameLoop α) : Prop :=
  indexOK fl.currentIndex fl.frames.length

/-- `Move` divides by a nonzero `size` and then indexes in range. -/
def MoveOK (fl : FrameLoop α) : Prop :=
  fl.size ≠ 0 ∧ indexOK fl.Move.currentIndex fl.Move.frames.length

/-- `CopyRecent` divides by a nonzero `size` and indexes in range:
`fl.frames[previousIndex]`. -/
def CopyRecentOK (fl : FrameLoop α) : Prop :=
  fl.size ≠ 0 ∧ indexOK fl.previousIndex fl.frames.length

/-- `Oldest` indexes in range: `fl.frames[fl.oldest]`, or
`fl.frames[fl.nextIndexAfter(fl.currentIndex)]`. -/
def OldestOK (fl : FrameLoop α) : Prop :=
  if fl.oldest ≠ NO_OLDEST_SET then indexOK fl.oldest fl.frames.length
  else fl.size ≠ 0 ∧ indexOK (fl.nextIndexAfter fl.currentIndex) fl.frames.length

/-- The slice expressions of `getFullHistory` are in range:
`fl.frames[:nextIndex]` and `fl.orderedFrames[:nextIndex]` while the buffer is
not full, `fl.frames[nextIndex:]`, `fl.orderedFrames[fl.size-nextIndex:]` and
`fl.frames[:nextIndex]` when it is. -/
def getFullHistoryOK (fl : FrameLoop α) : Prop :=
  if fl.currentIndex = fl.size - 1 then True
  else
    fl.size ≠ 0 ∧
    (if !fl.bufferFull then
      sliceOK 0 (fl.nextIndexAfter fl.currentIndex) fl.frames.length ∧
      sliceOK 0 (fl.nextIndexAfter fl.currentIndex) fl.orderedFrames.length
    else
      sliceOK (fl.nextIndexAfter fl.currentIndex) fl.frames.length fl.frames.length ∧
      sliceOK (fl.size - fl.nextIndexAfter fl.currentIndex) fl.orderedFrames.length
        fl.orderedFrames.length ∧
      sliceOK 0 (fl.nextIndexAfter fl.currentIndex) fl.frames.length)

/-- The slice expression `fullHistory[len(fullHistory)-historyLength:]` of
`GetHistory` is in range, `size` being nonzero. -/
def GetHistoryOK (fl : FrameLoop α) : Prop :=
  fl.getFullHistoryOK ∧
  (if fl.getFullHistory.2.oldest = NO_OLDEST_SET then True
   else
    fl.size ≠ 0 ∧
    sliceOK
      ((fl.getFullHistory.1.length : Int) -
        (goMod (fl.currentIndex - fl.oldest + fl.size) fl.size + 1))
      fl.getFullHistory.1.length fl.getFullHistory.1.length)

end FrameLoop


/-! ## Runs of a fresh detector that never reports `TooManyPoints` -/

/-- The diff frame that call `k` (counted from 0) of a fresh detector with
`FrameCompareGap = g` computes as long as no call has reported
`TooManyPoints`: the floored frame `k` against the floored frame `k - g`
(against the floored frame 0 when `k ≤ g`). -/
def expectedDiff {rows cols : Nat} (args : MotionConfig) (g : Nat)
    (frames : List (Frame rows cols)) (k : Nat) : Frame rows cols :=
  if args.WarmerOnly then
    warmerDiffFrames
      ((NewMotionDetector rows cols args).setFloor (frames.getD k (zeroFrame rows cols)))
      ((NewMotionDetector rows cols args).setFloor (frames.getD (k - g) (zeroFrame rows cols)))
  else
    absDiffFrames
      ((NewMotionDetector rows cols args).setFloor (frames.getD k (zeroFrame rows cols)))
      ((NewMotionDetector rows cols args).setFloor (frames.getD (k - g) (zeroFrame rows cols)))

/-- The report of call `k` (counted from 0) in such a run: warm-up on the
first call, then the count of the delta pixels of the diffs of calls `k` and
`k - 1` against `CountThresh`. -/
def expectedReport {rows cols : Nat} (args : MotionConfig) (g : Nat)
    (frames : List (Frame rows cols)) (k : Nat) : Bool × DetectionState :=
  if k = 0 then (false, DetectionState.NoData)
  else
    (decide (args.CountThresh ≤
        (deltaPixels args.UseOneDiffOnly args.DeltaThresh (expectedDiff args g frames k)
          (expectedDiff args g frames (k - 1)) : Int)),
      DetectionState.OK)

/-- What is known of a fresh detector with `FrameCompareGap = g` after `k`
calls on the first `k` frames of `frames`, none of which reported
`TooManyPoints`: the slots of `flooredFrames` hold the floored frames of the
last `g + 1` calls, the pin of `NewFrameLoop` at slot 0 stands for the first
`g + 1` calls, and the slot of `diffFrames` that is not current holds the diff
of the last call. -/
structure QuietInv {rows cols : Nat} (args : MotionConfig) (g : Nat)
    (frames : List (Frame rows cols)) (k : Nat) (d : motionDetector rows cols) : Prop where
  wf : d.flooredFrames.WF (g + 1)
  cur : d.flooredFrames.currentIndex = ((k % (g + 1) : Nat) : Int)
  pinned : k < g + 1 → d.flooredFrames.oldest = 0
  cleared : g + 1 ≤ k → d.flooredFrames.oldest = -1
  slots : ∀ j f, frames[j]? = some f → j < k → k ≤ j + (g + 1) →
    motionDetector.deref d.flooredFrames (j % (g + 1)) = d.setFloor f
  dwf : d.diffFrames.WF 2
  dcur : d.diffFrames.currentIndex = ((k % 2 : Nat) : Int)
  dprev : 1 ≤ k → motionDetector.deref d.diffFrames ((k + 1) % 2) = expectedDiff args g frames (k - 1)
  first : d.firstDiff = decide (1 ≤ k)
  useOneDiff : d.useOneDiff = args.UseOneDiffOnly
  tempThresh : d.tempThresh = args.TempThresh
  deltaThresh : d.deltaThresh = args.DeltaThresh
  countThresh : d.countThresh = args.CountThresh
  nonzeroLimit : d.nonzeroLimit = (NewMotionDetector rows cols args).nonzeroLimit
  warmerOnly : d.warmerOnly = args.WarmerOnly

/-- Is the call `listener.RecordingStarted()`? -/
def Event.isRecordingStarted {α : Type} : Event α → Bool
  | Event.RecordingStarted => true
  | _ => false

/-- The processor with the detector `d` as its `motionDetector`, fed a list of
frames, one `ProcessFrame` call each: `internalProcess` hands the frame to
`d.Detect` and takes its verdict, the other collaborators answer as the `Env`
of the call says.  Per call, the processor after it and the calls it made;
`none` is a panic. -/
def processWithDetector {rows cols : Nat} (d : motionDetector rows cols)
    (outMask : MotionState rows cols) (mp : MotionProcessor (Frame rows cols)) :
    List (Env × Frame rows cols) →
      Option (List (MotionProcessor (Frame rows cols) × List (Event (Frame rows cols))))
  | [] => some []
  | x :: rest =>
    (d.Detect x.2 outMask).bind (fun v =>
      (mp.ProcessFrame { x.1 with motion := v.movement } x.2).bind (fun r =>
        (processWithDetector v.detector outMask r.1 rest).map (fun t => r :: t)))

/-- The report of every call of a run in which no call sees motion: `NoData`
on the first call, `OK` on the others. -/
def noMotionReports (n : Nat) : List (Bool × DetectionState) :=
  (List.range n).map (fun k => (false, if k = 0 then DetectionState.NoData else DetectionState.OK))


/-- The frame number of a log entry of `occasionallyWriteError` as
`internalProcess` calls it: a gating failure ("Recording not started") or a
failure to start ("Can't start recording file"). -/
def Event.startErrorLog {α : Type} : Event α → Option Int
  | Event.Log task n =>
    if task = "Recording not started" ∨ task = "Can't start recording file" then some n
    else none
  | _ => none

/-- A frame on which the processor tries to start a recording and fails:
motion is detected, the processor is not recording, `triggered` reaches
`triggerFrames`, and `canStartWriting` (the window, `CheckCanRecord`) or
`startRecording` (`StartRecording`, or a pre-trigger `WriteFrame`) returns an
error. -/
def MotionProcessor.startFails {α : Type} (mp : MotionProcessor α) (env : Env) : Prop :=
  env.motion = true ∧ mp.isRecording = false ∧ mp.triggerFrames ≤ mp.triggered + 1 ∧
    ((mp.canStartWriting env).2 = false ∨
      (mp.startRecording env).map (fun s => s.2.2) = some false)

instance MotionProcessor.decidableStartFails {α : Type} (mp : MotionProcessor α) (env : Env) :
    Decidable (mp.startFails env) := by
  unfold MotionProcessor.startFails
  infer_instance

/-- What a call does to the log frame counter. -/
structure LogFacts {α : Type} (mp : MotionProcessor α) (env : Env)
    (r : MotionProcessor α × List (Event α)) : Prop where
  total : r.1.totalFrames = mp.totalFrames + 1
  keep : mp.lastLogFrame ≠ 0 →
    r.1.lastLogFrame = mp.lastLogFrame ∧ r.2.filterMap Event.startErrorLog = []
  first : mp.lastLogFrame = 0 →
    (r.1.lastLogFrame = 0 ∧ r.2.filterMap Event.startErrorLog = []) ∨
    (r.1.lastLogFrame = mp.totalFrames + 1 ∧
      r.2.filterMap Event.startErrorLog = [mp.totalFrames + 1])
  logged : mp.lastLogFrame = 0 → mp.startFails env →
    r.1.lastLogFrame = mp.totalFrames + 1 ∧
      r.2.filterMap Event.startErrorLog = [mp.totalFrames + 1]
  quiet : mp.lastLogFrame = 0 → ¬ mp.startFails env →
    r.1.lastLogFrame = 0 ∧ r.2.filterMap Event.startErrorLog = []

/-- No call before call `k` (counted from 0) of the run was a failed start. -/
def noStartFailureBefore {α : Type} (mp : MotionProcessor α) (inputs : List (Env × α))
    (tr : List (MotionProcessor α × List (Event α))) (k : Nat) : Prop :=
  ∀ j y, j < k → inputs[j]? = some y → ¬ (stateBefore mp tr j).startFails y.1


/-- The frames passed to `WriteFrame` by the calls of a run, in order. -/
def writtenFrames {α : Type} (evs : List (Event α)) : List (Option α) :=
  (evs.filterMap Event.written).map Prod.snd

/-- What is known of the processor after `k` calls of a run on `inputs`, with
`w` a bound above the numbers (counted from 0) of the frames written so far:
slot `j mod N` of the frame loop holds frame `j` for the last `N` frames, and
outside a recording the history of the loop starts at a frame `p ≥ w` (at the
slot pinned as oldest, or, the pin being cleared, `N` frames after `w` at the
least). -/
structure WriteInv {α : Type} (inputs : List (Env × α)) (N : Nat) (mp : MotionProcessor α)
    (k w : Nat) : Prop where
  wf : mp.frameLoop.WF N
  cur : mp.frameLoop.currentIndex = ((k % N : Nat) : Int)
  full : mp.frameLoop.bufferFull = true ↔ N ≤ k
  slots : ∀ j, j < k → k ≤ j + N → mp.frameLoop.frames[j % N]? = inputs[j]?.map Prod.snd
  wle : w ≤ k
  pin : mp.isRecording = false →
    (mp.frameLoop.oldest = -1 ∧ w + N ≤ k) ∨
    ∃ p : Nat, mp.frameLoop.oldest = ((p % N : Nat) : Int) ∧ w ≤ p ∧ p ≤ k ∧ k < p + N


/-- Does the call of a run that left `r` call `StopRecording`? -/
def stopsRecording {α : Type} (r : MotionProcessor α × List (Event α)) : Bool :=
  !(r.2.filterMap Event.stoppedAt).isEmpty

/-- The count `framesAvailable` continued: `a` frames are available at the
call that left the head of the list. -/
def framesAvailableFrom {α : Type} :
    Nat → List (MotionProcessor α × List (Event α)) → Nat → Nat
  | a, _, 0 => a
  | a, [], _ + 1 => a
  | a, r :: tr, i + 1 => framesAvailableFrom (if stopsRecording r then 1 else a + 1) tr i

/-- The frames available in the history at call `k` (counted from 0) of a
run: the number of frames captured since the processor was made or, when an
earlier call has called `StopRecording`, since the last such call, the frame
of call `k` included. -/
def framesAvailable {α : Type} (tr : List (MotionProcessor α × List (Event α))) (k : Nat) :
    Nat :=
  framesAvailableFrom 1 tr k

/-- What is known of the processor after `k` calls of a run on `inputs`, `a`
frames being available in the history at call `k`: the loop holds the last
`N` frames, and its marker `oldest` is at the slot of the first available
frame, or cleared when more than `N` frames are available. -/
structure HistInv {α : Type} (inputs : List (Env × α)) (N : Nat) (mp : MotionProcessor α)
    (k a : Nat) : Prop where
  base : WriteInv inputs N mp k 0
  a_pos : 1 ≤ a
  a_le : a ≤ k + 1
  pin : (mp.frameLoop.oldest = -1 ∧ N + 1 ≤ a) ∨
    (mp.frameLoop.oldest = (((k + 1 - a) % N : Nat) : Int) ∧ a ≤ N)


/-! ## Concrete inputs -/

/-- A configuration for frames of one pixel: floor 10, delta 5, one motion
pixel needed, half of the pixels allowed to be nonzero, comparison gap 1. -/
def exampleConfig : MotionConfig :=
  { TempThresh := 10
    DeltaThresh := 5
    CountThresh := 1
    NonzeroMaxPercent := 50
    FrameCompareGap := 1
    UseOneDiffOnly := false
    TriggerFrames := 2
    Verbose := false
    WarmerOnly := false }

/-- The same with a single motion-positive frame enough to trigger. -/
def oneFrameConfig : MotionConfig :=
  { exampleConfig with TriggerFrames := 1 }

/-- The one-pixel frame of value `v`. -/
def uniformFrame (v : Nat) : Frame 1 1 := fun _ _ => v

/-- The empty mask handed to `Detect`. -/
def emptyMask : MotionState 1 1 :=
  { Mask := fun _ _ => false, DetectionState := DetectionState.OK }

/-- A detector past warm-up whose `flooredFrames` has moved once, so that the
baseline slot is not the current one. -/
def warmDetector : motionDetector 1 1 :=
  { NewMotionDetector 1 1 exampleConfig with
    firstDiff := true
    flooredFrames := (FrameLoop.NewFrameLoop (zeroFrame 1 1) 2).Move }

/-- A recorder configuration with no minimum length, `maxSecs = 1` and no
pre-roll: a recording stops on the frame on which it starts. -/
def shortConfig : RecorderConfig :=
  { MinSecs := 0, MaxSecs := 1, PreviewSecs := 0 }

/-- A recorder whose `StopRecording` fails and that is otherwise sound, with
the window active and motion detected. -/
def Env.stopFails : Env :=
  { Env.allOk true with stopRecordingOk := false }


/-- A store of one-pixel frames: 3500 behind pointer 0, 4000 behind every
other pointer. -/
def coolerStore : Store 1 1 :=
  fun p _ _ => if p = 0 then 3500 else 4000


/-- The configuration of scenario S2 for frames of `120 × 160` pixels, with
the floor at 2900 and half of the pixels allowed to be nonzero (a limit of
9600 pixels). -/
def s2Config : MotionConfig :=
  { TempThresh := 2900
    DeltaThresh := 100
    CountThresh := 20
    NonzeroMaxPercent := 50
    FrameCompareGap := 1
    UseOneDiffOnly := false
    TriggerFrames := 2
    Verbose := false
    WarmerOnly := false }

/-- The uniform frame of value 3000. -/
def s2Background : Frame 120 160 := fun _ _ => 3000

/-- The same frame with a `5 × 5` patch at 3500, at rows 10 to 14 and columns
20 to 24. -/
def s2Patch : Frame 120 160 :=
  fun y x => if 10 ≤ y.val ∧ y.val < 15 ∧ 20 ≤ x.val ∧ x.val < 25 then 3500 else 3000

/-- The frames of scenario S2: ten background frames, then thirty frames with
the patch. -/
def s2Frames : List (Frame 120 160) :=
  List.replicate 10 s2Background ++ List.replicate 30 s2Patch

/-- The empty mask handed to `Detect` in scenario S2. -/
def s2Mask : MotionState 120 160 :=
  { Mask := fun _ _ => false, DetectionState := DetectionState.OK }


/-- Collaborators that never fail, with the window active and no motion
detected. -/
def Env.quiet : Env := Env.allOk false


/-- A recorder configuration with no minimum length, `maxSecs = 1` and one
second of pre-roll. -/
def prerollConfig : RecorderConfig :=
  { MinSecs := 0, MaxSecs := 1, PreviewSecs := 1 }

/-- A run of four numbered frames: motion, two frames without motion, motion
again; the window is active and the recorder never fails. -/
def twoRecordings : List (Env × Nat) :=
  [(Env.allOk true, 10), (Env.allOk false, 11), (Env.allOk false, 12), (Env.allOk true, 13)]


/-- The configuration `exampleConfig` with every pixel allowed to be nonzero. -/
def permissiveConfig : MotionConfig :=
  { exampleConfig with NonzeroMaxPercent := 100 }

/-- The same in one-diff mode. -/
def oneDiffConfig : MotionConfig :=
  { permissiveConfig with UseOneDiffOnly := true }


/-- A run of three numbered frames: a frame without motion, then two frames
with motion; the window is active and the recorder never fails. -/
def lateMotion : List (Env × Nat) :=
  [(Env.allOk false, 20), (Env.allOk true, 21), (Env.allOk true, 22)]


/-! ## Theorems -/

namespace FrameLoop

variable {α : Type}

theorem goMod_of_lt {a b : Int} (h0 : 0 ≤ a) (h1 : a < b) : goMod a b = a :=
  Int.tmod_eq_of_lt h0 h1

theorem goMod_eq_emod {a b : Int} (h0 : 0 ≤ a) (h1 : 0 ≤ b) : goMod a b = a % b :=
  Int.tmod_eq_emod h0 h1

theorem copySlice_same_length {β : Type} (dst src : List β) (h : src.length = dst.length) :
    copySlice dst src = src := by
  unfold copySlice
  rw [List.take_of_length_le (le_of_eq h), List.drop_of_length_le (le_of_eq h.symm)]
  simp

theorem copySlice_short {β : Type} (dst src : List β) (h : src.length ≤ dst.length) :
    copySlice dst src = src ++ dst.drop src.length := by
  unfold copySlice
  rw [List.take_of_length_le h]

theorem nextIndexAfter_cur {fl : FrameLoop α} {N : Nat} (h : fl.WF N) :
    fl.nextIndexAfter fl.currentIndex =
      if fl.currentIndex + 1 = N then 0 else fl.currentIndex + 1 := by
  unfold nextIndexAfter
  rw [h.size_eq]
  have h0 := h.cur_nonneg
  have h1 := h.cur_lt
  split
  · next e => rw [e]; exact Int.tmod_self
  · next e => exact goMod_of_lt (by omega) (by omega)

theorem lastSlots_length (N c L : Nat) : (lastSlots N c L).length = L := by
  simp [lastSlots]

theorem lastSlots_getElem? (N c L i : Nat) (hi : i < L) :
    (lastSlots N c L)[i]? = some (some ((c + 1 + N - L + i) % N)) := by
  simp [lastSlots, List.getElem?_map, List.getElem?_range hi]

theorem lastSlots_drop (N c L L2 : Nat) (h1 : L2 ≤ L) (h2 : L ≤ c + 1 + N) :
    (lastSlots N c L).drop (L - L2) = lastSlots N c L2 := by
  apply List.ext_getElem?
  intro i
  rw [List.getElem?_drop]
  by_cases hi : i < L2
  · rw [lastSlots_getElem? N c L _ (by omega), lastSlots_getElem? N c L2 _ hi]
    congr 3
    omega
  · rw [List.getElem?_eq_none (by rw [lastSlots_length]; omega),
      List.getElem?_eq_none (by rw [lastSlots_length]; omega)]

theorem getFullHistory_snd (fl : FrameLoop α) :
    fl.getFullHistory.2 = { fl with orderedFrames := fl.getFullHistory.2.orderedFrames } := by
  unfold getFullHistory
  split
  · rfl
  · split <;> rfl

theorem framePtrs_getElem? (fl : FrameLoop α) (i : Nat) (hi : i < fl.frames.length) :
    fl.framePtrs[i]? = some (some i) := by
  simp [framePtrs, List.getElem?_map, List.getElem?_range hi]

theorem framePtrs_length (fl : FrameLoop α) : fl.framePtrs.length = fl.frames.length := by
  simp [framePtrs]

theorem rotate_ptrs (fl : FrameLoop α) (N n : Nat) (hN : fl.frames.length = N) (hn : n ≤ N)
    (h0 : 0 < n) :
    fl.framePtrs.drop n ++ fl.framePtrs.take n = lastSlots N (n - 1) N := by
  apply List.ext_getElem?
  intro i
  have hl := framePtrs_length fl
  by_cases hi : i < N
  · rw [lastSlots_getElem? N _ N i hi]
    by_cases hi2 : i < N - n
    · rw [List.getElem?_append_left (by rw [List.length_drop]; omega), List.getElem?_drop,
        framePtrs_getElem? fl _ (by omega)]
      congr 2
      rw [Nat.mod_eq_of_lt (by omega)]
      omega
    · rw [List.getElem?_append_right (by rw [List.length_drop]; omega), List.length_drop,
        List.getElem?_take_of_lt (by omega), framePtrs_getElem? fl _ (by omega)]
      congr 2
      have : n - 1 + 1 + N - N + i = (i - (N - n)) + N := by omega
      rw [hl, hN, this, Nat.add_mod_right, Nat.mod_eq_of_lt (by omega)]
  · rw [List.getElem?_eq_none (by simp [hl, hN]; omega),
      List.getElem?_eq_none (by rw [lastSlots_length]; omega)]

theorem take_ptrs (fl : FrameLoop α) (N n : Nat) (hN : fl.frames.length = N) (hn : n ≤ N)
    (h0 : 0 < n) :
    fl.framePtrs.take n = lastSlots N (n - 1) n := by
  apply List.ext_getElem?
  intro i
  have hl := framePtrs_length fl
  by_cases hi : i < n
  · rw [lastSlots_getElem? N _ n i hi, List.getElem?_take_of_lt hi,
      framePtrs_getElem? fl _ (by omega)]
    congr 2
    have : n - 1 + 1 + N - n + i = i + N := by omega
    rw [this, Nat.add_mod_right, Nat.mod_eq_of_lt (by omega)]
  · rw [List.getElem?_eq_none (by simp [hl, hN]; omega),
      List.getElem?_eq_none (by rw [lastSlots_length]; omega)]

/-- The length of the full history, read off the fields. -/
theorem getFullHistory_eq {fl : FrameLoop α} {N : Nat} (h : fl.WF N) :
    fl.getFullHistory.1 = lastSlots N fl.currentIndex.toNat
        (if fl.currentIndex = fl.size - 1 ∨ fl.bufferFull = true then N
         else fl.currentIndex.toNat + 1) ∧
      fl.getFullHistory.2.orderedFrames.length = N := by
  obtain ⟨c, hc⟩ := Int.eq_ofNat_of_zero_le h.cur_nonneg
  have hlt := h.cur_lt
  have hpos := h.pos
  have hfl := h.frames_len
  have hol := h.ordered_len
  have hpl := framePtrs_length fl
  have hnext := nextIndexAfter_cur h
  unfold getFullHistory
  rw [hnext, h.size_eq, hc] at *
  simp only [Int.toNat_ofNat]
  by_cases h1 : (c : Int) = (N : Int) - 1
  · have hcN : c + 1 = N := by omega
    simp only [h1, true_or, if_true]
    rw [copySlice_same_length _ _ (by omega)]
    refine ⟨?_, by omega⟩
    have := rotate_ptrs fl N N hfl le_rfl (by omega)
    rw [List.drop_of_length_le (by omega), List.take_of_length_le (by omega),
      List.nil_append] at this
    rw [this]
    congr 1
    omega
  · have hcN : c + 1 < N := by omega
    have hne : ¬ ((c : Int) + 1 = N) := by omega
    simp only [h1, if_false, false_or, hne]
    have htn : ((c : Int) + 1).toNat = c + 1 := by omega
    rw [htn]
    cases hb : fl.bufferFull
    · simp only [Bool.not_false, if_true, Bool.false_eq_true, if_false]
      rw [copySlice_short _ _ (by rw [List.length_take]; omega)]
      refine ⟨?_, ?_⟩
      · rw [List.take_left' (by rw [List.length_take]; omega)]
        exact take_ptrs fl N (c + 1) hfl (by omega) (by omega)
      · simp only [List.length_append, List.length_take, List.length_drop]
        omega
    · simp only [Bool.not_true, if_true, Bool.false_eq_true, if_false]
      have hk : ((N : Int) - ((c + 1 : Nat) : Int)).toNat = N - (c + 1) := by omega
      rw [hk, copySlice_short _ _ (by rw [List.length_drop]; omega)]
      have hd : (List.drop (c + 1) fl.framePtrs).length = N - (c + 1) := by
        rw [List.length_drop]; omega
      rw [List.take_left' hd, List.drop_left' hd, copySlice_same_length _ _ (by
        simp only [List.length_take, List.length_drop]; omega)]
      have := rotate_ptrs fl N (c + 1) hfl (by omega) (by omega)
      refine ⟨this, ?_⟩
      rw [this, lastSlots_length]

theorem WF_NewFrameLoop (zero : α) (N : Nat) (hN : 1 ≤ N) :
    (NewFrameLoop zero (N : Int)).WF N where
  pos := hN
  size_eq := rfl
  frames_len := by simp [NewFrameLoop]
  ordered_len := by simp [NewFrameLoop]
  cur_nonneg := by simp [NewFrameLoop]
  cur_lt := by simp [NewFrameLoop]; omega
  oldest_range := by simp [NewFrameLoop]; omega
  oldest_le := by simp [NewFrameLoop]

theorem Move_eq {fl : FrameLoop α} {N : Nat} (h : fl.WF N) :
    fl.Move =
      { fl with
        currentIndex := if fl.currentIndex + 1 = N then 0 else fl.currentIndex + 1
        bufferFull := if fl.currentIndex + 1 = N then true else fl.bufferFull
        oldest := if (if fl.currentIndex + 1 = (N : Int) then 0 else fl.currentIndex + 1)
            = fl.oldest then -1 else fl.oldest } := by
  have h0 := h.cur_nonneg
  unfold Move
  simp only [nextIndexAfter_cur h, NO_OLDEST_SET]
  by_cases e : fl.currentIndex + 1 = N
  · simp only [e, if_true]
    split <;> rfl
  · have : ¬ (fl.currentIndex + 1 = 0) := by omega
    simp only [e, if_false, this]
    split <;> rfl

theorem WF_Move {fl : FrameLoop α} {N : Nat} (h : fl.WF N) : fl.Move.WF N := by
  have h0 := h.cur_nonneg
  have h1 := h.cur_lt
  have h2 := h.oldest_range
  have h3 := h.oldest_le
  rw [Move_eq h]
  refine ⟨h.pos, h.size_eq, h.frames_len, h.ordered_len, ?_, ?_, ?_, ?_⟩
  · simp only; split <;> omega
  · simp only; split <;> omega
  · simp only
    split_ifs <;> first | (left; rfl) | exact h2
  · simp only
    intro hb ho
    by_cases e : fl.currentIndex + 1 = N
    · simp [e] at hb
    · simp only [e, if_false] at hb ho ⊢
      split at ho
      · exact absurd rfl ho
      · have := h3 hb ho
        split
        · omega
        · omega

theorem WF_SetAsOldest {fl : FrameLoop α} {N : Nat} (h : fl.WF N) : fl.SetAsOldest.WF N := by
  have h0 := h.cur_nonneg
  have h1 := h.cur_lt
  refine ⟨h.pos, h.size_eq, h.frames_len, h.ordered_len, h0, h1, ?_, ?_⟩
  · right; exact ⟨h0, h1⟩
  · intro _ _; exact le_refl _

theorem histLen_bounds {fl : FrameLoop α} {N : Nat} (h : fl.WF N) :
    1 ≤ fl.histLen ∧
    fl.histLen ≤ (if fl.currentIndex = fl.size - 1 ∨ fl.bufferFull = true then N
         else fl.currentIndex.toNat + 1) ∧
    (fl.oldest ≠ -1 → (fl.histLen : Int) =
      (if fl.oldest ≤ fl.currentIndex then fl.currentIndex - fl.oldest + 1
       else fl.currentIndex - fl.oldest + N + 1) ∧
      goMod (fl.currentIndex - fl.oldest + fl.size) fl.size + 1 = fl.histLen) := by
  have h0 := h.cur_nonneg
  have h1 := h.cur_lt
  have h2 := h.oldest_range
  have h3 := h.oldest_le
  have hp := h.pos
  unfold histLen
  rw [h.size_eq]
  simp only [NO_OLDEST_SET]
  by_cases ho : fl.oldest = -1
  · simp only [ho, if_true]
    refine ⟨?_, ?_, fun hh => absurd rfl hh⟩
    · split <;> omega
    · simp
  · simp only [ho, if_false]
    have h2 : 0 ≤ fl.oldest ∧ fl.oldest < N := by omega
    have key : (fl.currentIndex - fl.oldest + (N : Int)) % (N : Int) =
        (if fl.oldest ≤ fl.currentIndex then fl.currentIndex - fl.oldest
         else fl.currentIndex - fl.oldest + N) := by
      split
      · rw [Int.add_emod_self]
        exact Int.emod_eq_of_lt (by omega) (by omega)
      · exact Int.emod_eq_of_lt (by omega) (by omega)
    have key2 : goMod (fl.currentIndex - fl.oldest + (N : Int)) (N : Int) =
        (fl.currentIndex - fl.oldest + (N : Int)) % (N : Int) :=
      goMod_eq_emod (by omega) (by omega)
    rw [key2, key]
    refine ⟨?_, ?_, fun _ => ⟨?_, ?_⟩⟩
    · split <;> omega
    · by_cases hb : fl.bufferFull = true
      · simp only [hb, or_true, if_true]
        split <;> omega
      · have hb2 : fl.bufferFull = false := by simpa using hb
        have := h3 hb2 ho
        simp only [this, if_true, hb, or_false]
        split <;> omega
    · split <;> omega
    · split <;> omega

/-- In every well-formed state `GetHistory` returns, without a panic, the
`histLen` slots that end at the current one, and changes nothing but the
scratch buffer `orderedFrames`. -/
theorem GetHistory_eq {fl : FrameLoop α} {N : Nat} (h : fl.WF N) :
    fl.GetHistory = some (lastSlots N fl.currentIndex.toNat fl.histLen, fl.getFullHistory.2) := by
  obtain ⟨hfull, hlen⟩ := getFullHistory_eq h
  obtain ⟨hl1, hl2, hl3⟩ := histLen_bounds h
  have hsnd := getFullHistory_snd fl
  have h0 := h.cur_nonneg
  have h1 := h.cur_lt
  have ho' : fl.getFullHistory.2.oldest = fl.oldest := by rw [hsnd]
  have hc' : fl.getFullHistory.2.currentIndex = fl.currentIndex := by rw [hsnd]
  have hs' : fl.getFullHistory.2.size = fl.size := by rw [hsnd]
  unfold GetHistory
  simp only [ho', hc', hs', NO_OLDEST_SET]
  by_cases ho : fl.oldest = -1
  · simp only [ho, if_true]
    rw [hfull]
    congr 2
    unfold histLen
    simp only [NO_OLDEST_SET, ho, if_true, h.size_eq, Int.toNat_ofNat]
  · simp only [ho, if_false]
    obtain ⟨_, hg⟩ := hl3 ho
    rw [hg, hfull, lastSlots_length]
    set F := (if fl.currentIndex = fl.size - 1 ∨ fl.bufferFull = true then N
         else fl.currentIndex.toNat + 1) with hF
    have hFN : F ≤ N := by rw [hF]; split <;> omega
    have hneg : ¬ ((F : Int) - (fl.histLen : Int) < 0 ∨ (F : Int) < (F : Int) - (fl.histLen : Int)) := by
      omega
    simp only [hneg, if_false]
    have : ((F : Int) - (fl.histLen : Int)).toNat = F - fl.histLen := by omega
    rw [this, lastSlots_drop N _ F fl.histLen hl2 (by omega)]

theorem WF_getFullHistory {fl : FrameLoop α} {N : Nat} (h : fl.WF N) :
    fl.getFullHistory.2.WF N := by
  obtain ⟨_, hlen⟩ := getFullHistory_eq h
  rw [getFullHistory_snd]
  exact ⟨h.pos, h.size_eq, h.frames_len, hlen, h.cur_nonneg, h.cur_lt, h.oldest_range,
    h.oldest_le⟩

theorem WF_of_Reachable {zero : α} {N : Nat} (hN : 1 ≤ N) {fl : FrameLoop α}
    (h : Reachable zero N fl) : fl.WF N := by
  induction h with
  | new => exact WF_NewFrameLoop zero N hN
  | move _ ih => exact WF_Move ih
  | setAsOldest _ ih => exact WF_SetAsOldest ih
  | getHistory _ ih => exact WF_getFullHistory ih
  | write i v _ ih =>
    exact ⟨ih.pos, ih.size_eq, by simp [ih.frames_len], ih.ordered_len, ih.cur_nonneg,
      ih.cur_lt, ih.oldest_range, ih.oldest_le⟩

theorem succ_mod_cases (k N : Nat) (hN : 0 < N) :
    (k % N + 1 = N ∧ (k + 1) % N = 0) ∨ (k % N + 1 < N ∧ (k + 1) % N = k % N + 1) := by
  have hlt := Nat.mod_lt k hN
  have e : (k + 1) % N = (k % N + 1) % N := (Nat.mod_add_mod k N 1).symm
  by_cases h : k % N + 1 = N
  · left
    refine ⟨h, ?_⟩
    rw [e, h, Nat.mod_self]
  · right
    have : k % N + 1 < N := by omega
    exact ⟨this, by rw [e, Nat.mod_eq_of_lt this]⟩

/-- The fields of a fresh loop of capacity `N` after `k` calls of `Move`. -/
theorem iterate_Move_new (zero : α) (N : Nat) (hN : 1 ≤ N) (k : Nat) :
    (Move^[k] (NewFrameLoop zero (N : Int))).WF N ∧
    (Move^[k] (NewFrameLoop zero (N : Int))).currentIndex = ((k % N : Nat) : Int) ∧
    (Move^[k] (NewFrameLoop zero (N : Int))).bufferFull = decide (N ≤ k) ∧
    (Move^[k] (NewFrameLoop zero (N : Int))).oldest = (if k < N then 0 else -1) := by
  induction k with
  | zero =>
    refine ⟨WF_NewFrameLoop zero N hN, ?_, ?_, ?_⟩
    · simp [NewFrameLoop]
    · simp [NewFrameLoop]; omega
    · simp [NewFrameLoop]; omega
  | succ k ih =>
    obtain ⟨hwf, hc, hb, ho⟩ := ih
    rw [Function.iterate_succ_apply']
    refine ⟨WF_Move hwf, ?_, ?_, ?_⟩
    all_goals rw [Move_eq hwf]
    all_goals simp only [hc, hb, ho]
    all_goals rcases succ_mod_cases k N (by omega) with ⟨h1, h2⟩ | ⟨h1, h2⟩
    · have : ((k % N : Nat) : Int) + 1 = N := by omega
      rw [if_pos this, h2]
      rfl
    · have : ¬ (((k % N : Nat) : Int) + 1 = N) := by omega
      rw [if_neg this, h2]
      push_cast
      rfl
    · have : ((k % N : Nat) : Int) + 1 = N := by omega
      have hk : N ≤ k + 1 := by
        have := Nat.mod_le k N
        omega
      rw [if_pos this]
      exact (decide_eq_true hk).symm
    · have : ¬ (((k % N : Nat) : Int) + 1 = N) := by omega
      have hk : N ≤ k ↔ N ≤ k + 1 := by
        constructor
        · intro h; omega
        · intro h
          by_contra hlt
          have : k % N = k := Nat.mod_eq_of_lt (by omega)
          omega
      rw [if_neg this]
      exact decide_eq_decide.mpr hk
    · have : ((k % N : Nat) : Int) + 1 = N := by omega
      simp only [this, if_true]
      have hk : N ≤ k + 1 := by
        have := Nat.mod_le k N
        omega
      by_cases hkN : k < N
      · have : ¬ (k + 1 < N) := by omega
        simp [hkN, this]
      · have : ¬ (k + 1 < N) := by omega
        simp [hkN, this]
    · have : ¬ (((k % N : Nat) : Int) + 1 = N) := by omega
      simp only [this, if_false]
      by_cases hkN : k < N
      · have hm : k % N = k := Nat.mod_eq_of_lt hkN
        have : k + 1 < N := by omega
        simp only [hkN, this, if_true, hm]
        have : ¬ ((k : Int) + 1 = 0) := by omega
        simp [this]
      · have : ¬ (k + 1 < N) := by omega
        simp only [hkN, this, if_false]
        have : ¬ (((k % N : Nat) : Int) + 1 = -1) := by omega
        simp [this]

/-- C1.  A loop of capacity `N ≥ 1` built by `NewFrameLoop` and moved `k` times,
with no `SetAsOldest`, returns from `GetHistory` a sequence of `min (k+1) N`
slots in capture order, oldest first: the last one is the current slot, and
element `i` is the slot that was current `length - 1 - i` moves earlier. -/
theorem GetHistory_after_moves (zero : α) (N k : Nat) (hN : 1 ≤ N) :
    ∃ hist fl2, (Move^[k] (NewFrameLoop zero (N : Int))).GetHistory = some (hist, fl2) ∧
      hist.length = min (k + 1) N ∧
      hist.getLast? = some (some (Move^[k] (NewFrameLoop zero (N : Int))).Current) ∧
      ∀ i, i < hist.length →
        hist[i]? = some (some
          (Move^[k - (hist.length - 1 - i)] (NewFrameLoop zero (N : Int))).Current) := by
  obtain ⟨hwf, hc, hb, ho⟩ := iterate_Move_new zero N hN k
  have hL : (Move^[k] (NewFrameLoop zero (N : Int))).histLen = min (k + 1) N := by
    obtain ⟨_, hl2, hl3⟩ := histLen_bounds hwf
    by_cases hk : k < N
    · have hm : k % N = k := Nat.mod_eq_of_lt hk
      simp only [hk, if_true] at ho
      have := (hl3 (by rw [ho]; omega)).1
      rw [ho, hc, hm] at this
      simp only [sub_zero] at this
      have h0 : (0 : Int) ≤ (k : Int) := by omega
      simp only [h0, if_true] at this
      omega
    · simp only [hk, if_false] at ho
      have hb2 : (Move^[k] (NewFrameLoop zero (N : Int))).bufferFull = true := by
        rw [hb]; simp; omega
      unfold histLen
      simp only [NO_OLDEST_SET, ho, if_true, hb2, or_true, hwf.size_eq, Int.toNat_ofNat]
      omega
  refine ⟨_, _, GetHistory_eq hwf, ?_, ?_, ?_⟩
  · rw [lastSlots_length, hL]
  · rw [List.getLast?_eq_getElem?, lastSlots_length, hL,
      lastSlots_getElem? _ _ _ _ (by omega)]
    unfold Current
    rw [hc]
    simp only [Int.toNat_ofNat]
    congr 2
    have hlt := Nat.mod_lt k (show 0 < N by omega)
    have : k % N + 1 + N - min (k + 1) N + (min (k + 1) N - 1) = k % N + N := by omega
    rw [this, Nat.add_mod_right, Nat.mod_mod]
  · intro i hi
    rw [lastSlots_length, hL] at hi
    rw [lastSlots_length, hL, lastSlots_getElem? _ _ _ _ hi]
    obtain ⟨_, hc2, _, _⟩ := iterate_Move_new zero N hN (k - (min (k + 1) N - 1 - i))
    unfold Current
    rw [hc, hc2]
    simp only [Int.toNat_ofNat]
    congr 2
    have e1 : k % N + 1 + N - min (k + 1) N + i = k % N + (1 + N - min (k + 1) N + i) := by
      omega
    have e2 : k + (1 + N - min (k + 1) N + i) = (k - (min (k + 1) N - 1 - i)) + N := by
      omega
    rw [e1, Nat.mod_add_mod, e2, Nat.add_mod_right]

/-- The fields of a well-formed loop that was pinned at its current slot and
then moved `j < N` times. -/
theorem iterate_Move_pinned {s : FrameLoop α} {N : Nat} (hs : s.WF N) (j : Nat) (hj : j < N) :
    (Move^[j] s.SetAsOldest).WF N ∧
    (Move^[j] s.SetAsOldest).oldest = s.currentIndex ∧
    (Move^[j] s.SetAsOldest).currentIndex =
      (if s.currentIndex + j < N then s.currentIndex + j else s.currentIndex + j - N) := by
  have h0 := hs.cur_nonneg
  have h1 := hs.cur_lt
  induction j with
  | zero =>
    refine ⟨WF_SetAsOldest hs, rfl, ?_⟩
    have : s.currentIndex + ((0 : Nat) : Int) < N := by omega
    rw [if_pos this]
    simp [SetAsOldest]
  | succ j ih =>
    obtain ⟨hwf, ho, hc⟩ := ih (by omega)
    rw [Function.iterate_succ_apply']
    refine ⟨WF_Move hwf, ?_, ?_⟩
    all_goals rw [Move_eq hwf]
    all_goals simp only [hc, ho]
    all_goals push_cast
    all_goals split_ifs
    all_goals omega

/-- C2.  In any state reachable from `NewFrameLoop` (capacity `N ≥ 1`), after
`SetAsOldest` and then `j < N` calls of `Move`, `GetHistory` returns exactly
`(currentIndex - oldest + N) mod N + 1 = j + 1` frames: the first is the pinned
slot, the last is the current slot, and each element is followed by the next
slot modulo `N`. -/
theorem GetHistory_after_pin (zero : α) (N : Nat) (hN : 1 ≤ N) (s : FrameLoop α)
    (hs : Reachable zero N s) (j : Nat) (hj : j < N) :
    ∃ hist fl2, (Move^[j] s.SetAsOldest).GetHistory = some (hist, fl2) ∧
      hist.length = j + 1 ∧
      goMod ((Move^[j] s.SetAsOldest).currentIndex - (Move^[j] s.SetAsOldest).oldest
          + (Move^[j] s.SetAsOldest).size) (Move^[j] s.SetAsOldest).size + 1 = (j : Int) + 1 ∧
      (Move^[j] s.SetAsOldest).oldest = s.currentIndex ∧
      hist.head? = some (some s.Current) ∧
      hist.getLast? = some (some (Move^[j] s.SetAsOldest).Current) ∧
      ∀ i, i + 1 < hist.length →
        ∃ a b, hist[i]? = some (some a) ∧ hist[i + 1]? = some (some b) ∧ b = (a + 1) % N := by
  have hs := WF_of_Reachable hN hs
  obtain ⟨hwf, ho, hc⟩ := iterate_Move_pinned hs j hj
  obtain ⟨c0, hc0⟩ := Int.eq_ofNat_of_zero_le hs.cur_nonneg
  have h1 := hs.cur_lt
  obtain ⟨_, _, hl3⟩ := histLen_bounds hwf
  obtain ⟨hlen, hg⟩ := hl3 (by rw [ho]; omega)
  have hL : (Move^[j] s.SetAsOldest).histLen = j + 1 := by
    rw [ho, hc] at hlen
    split_ifs at hlen <;> omega
  refine ⟨_, _, GetHistory_eq hwf, ?_, ?_, ho, ?_, ?_, ?_⟩
  · rw [lastSlots_length, hL]
  · rw [hg, hL]; push_cast; rfl
  · rw [List.head?_eq_getElem?, hL, lastSlots_getElem? _ _ _ _ (by omega)]
    unfold Current
    congr 2
    rw [hc, hc0]
    split_ifs with hlt
    · have e : ((c0 : Int) + (j : Int)).toNat + 1 + N - (j + 1) + 0 = c0 + N := by omega
      rw [e, Nat.add_mod_right, Int.toNat_ofNat, Nat.mod_eq_of_lt (by omega)]
    · have e : ((c0 : Int) + (j : Int) - (N : Int)).toNat + 1 + N - (j + 1) + 0 = c0 := by omega
      rw [e, Int.toNat_ofNat, Nat.mod_eq_of_lt (by omega)]
  · rw [List.getLast?_eq_getElem?, lastSlots_length, hL,
      lastSlots_getElem? _ _ _ _ (by omega)]
    unfold Current
    congr 2
    have hcl := hwf.cur_lt
    have hcn := hwf.cur_nonneg
    have e : (Move^[j] s.SetAsOldest).currentIndex.toNat + 1 + N - (j + 1) + (j + 1 - 1) =
        (Move^[j] s.SetAsOldest).currentIndex.toNat + N := by omega
    rw [e, Nat.add_mod_right, Nat.mod_eq_of_lt (by omega)]
  · intro i hi
    rw [lastSlots_length, hL] at hi
    refine ⟨_, _, lastSlots_getElem? _ _ _ _ (by rw [hL]; omega),
      lastSlots_getElem? _ _ _ _ (by rw [hL]; omega), ?_⟩
    rw [Nat.mod_add_mod]
    rfl
end FrameLoop

/-! ### Pixel counting -/

theorem sum_ite_eq_countP {β : Type} (l : List β) (p : β → Prop) [DecidablePred p] :
    (l.map (fun x => if p x then 1 else 0)).sum = l.countP (fun x => decide (p x)) := by
  induction l with
  | nil => rfl
  | cons a l ih =>
    rw [List.map_cons, List.sum_cons, ih, List.countP_cons]
    by_cases h : p a <;> simp [h, Nat.add_comm]

theorem pixelCount_eq_sum (rows cols : Nat) (p : Fin rows → Fin cols → Prop)
    [∀ y x, Decidable (p y x)] :
    pixelCount rows cols p =
      ((List.finRange rows).map
        (fun y => (List.finRange cols).countP (fun x => decide (p y x)))).sum := by
  unfold pixelCount
  rw [Finset.card_filter, Fintype.sum_prod_type, Fin.sum_univ_def]
  congr 1
  apply List.map_congr_left
  intro y _
  rw [Fin.sum_univ_def]
  exact sum_ite_eq_countP _ _

/-- A loop body that counts: it adds one to `nonzeroCount` where `p` holds and
one to `deltaCount` where `q` holds. -/
theorem foldl_counts {rows cols : Nat} {β : Type} (step : PixelCount rows cols → β → PixelCount rows cols)
    (p q : β → Prop) [DecidablePred p] [DecidablePred q]
    (hp : ∀ acc x, (step acc x).nonzeroCount = acc.nonzeroCount + (if p x then 1 else 0))
    (hq : ∀ acc x, (step acc x).deltaCount = acc.deltaCount + (if q x then 1 else 0))
    (l : List β) (acc : PixelCount rows cols) :
    (l.foldl step acc).nonzeroCount = acc.nonzeroCount + (l.countP (fun x => decide (p x)) : Nat) ∧
    (l.foldl step acc).deltaCount = acc.deltaCount + (l.countP (fun x => decide (q x)) : Nat) := by
  induction l generalizing acc with
  | nil => simp
  | cons a l ih =>
    rw [List.foldl_cons]
    obtain ⟨h1, h2⟩ := ih (step acc a)
    rw [h1, h2, hp, hq, List.countP_cons, List.countP_cons]
    constructor
    · by_cases h : p a <;> simp [h, add_assoc, add_comm]
    · by_cases h : q a <;> simp [h, add_assoc, add_comm]

theorem foldl_rows_counts {rows cols : Nat}
    (step : Fin rows → PixelCount rows cols → Fin cols → PixelCount rows cols)
    (p q : Fin rows → Fin cols → Prop) [∀ y x, Decidable (p y x)] [∀ y x, Decidable (q y x)]
    (hp : ∀ y acc x, (step y acc x).nonzeroCount = acc.nonzeroCount + (if p y x then 1 else 0))
    (hq : ∀ y acc x, (step y acc x).deltaCount = acc.deltaCount + (if q y x then 1 else 0))
    (l : List (Fin rows)) (acc : PixelCount rows cols) :
    (l.foldl (fun a y => (List.finRange cols).foldl (step y) a) acc).nonzeroCount =
      acc.nonzeroCount +
        ((l.map (fun y => (List.finRange cols).countP (fun x => decide (p y x)))).sum : Nat) ∧
    (l.foldl (fun a y => (List.finRange cols).foldl (step y) a) acc).deltaCount =
      acc.deltaCount +
        ((l.map (fun y => (List.finRange cols).countP (fun x => decide (q y x)))).sum : Nat) := by
  induction l generalizing acc with
  | nil => simp
  | cons y l ih =>
    rw [List.foldl_cons]
    obtain ⟨h1, h2⟩ := ih ((List.finRange cols).foldl (step y) acc)
    obtain ⟨g1, g2⟩ := foldl_counts (step y) (p y) (q y) (hp y) (hq y) (List.finRange cols) acc
    rw [h1, h2, g1, g2]
    simp only [List.map_cons, List.sum_cons, Nat.cast_add]
    constructor <;> omega

namespace motionDetector

variable {rows cols : Nat}

/-- The counts `CountPixels` returns are the numbers of pixels that are `> 0`
and that exceed `deltaThresh`. -/
theorem CountPixels_counts (d : motionDetector rows cols) (f1 : Frame rows cols)
    (outMask : MotionState rows cols) :
    (d.CountPixels f1 outMask).nonzeroCount = pixelCount rows cols (fun y x => 0 < f1 y x) ∧
    (d.CountPixels f1 outMask).deltaCount =
      pixelCount rows cols (fun y x => d.deltaThresh < f1 y x) := by
  have := foldl_rows_counts (oneCompareStep d f1) (fun y x => 0 < f1 y x)
    (fun y x => d.deltaThresh < f1 y x)
    (by
      intro y acc x
      unfold oneCompareStep
      by_cases h : f1 y x > 0
      · by_cases h2 : f1 y x > d.deltaThresh <;> simp [h, h2]
      · simp [h])
    (by
      intro y acc x
      unfold oneCompareStep
      by_cases h : f1 y x > 0
      · by_cases h2 : f1 y x > d.deltaThresh <;> simp [h, h2]
      · have h2 : ¬ d.deltaThresh < f1 y x := by omega
        simp [h, h2])
    (List.finRange rows) { nonzeroCount := 0, deltaCount := 0, Mask := outMask.Mask }
  unfold CountPixels
  rw [this.1, this.2, pixelCount_eq_sum, pixelCount_eq_sum]
  simp

/-- The counts `CountPixelsTwoCompare` returns are the numbers of pixels at
which either frame is `> 0` and at which both exceed `deltaThresh`. -/
theorem CountPixelsTwoCompare_counts (d : motionDetector rows cols) (f1 f2 : Frame rows cols)
    (outMask : MotionState rows cols) :
    (d.CountPixelsTwoCompare f1 f2 outMask).nonzeroCount =
      pixelCount rows cols (fun y x => 0 < f1 y x ∨ 0 < f2 y x) ∧
    (d.CountPixelsTwoCompare f1 f2 outMask).deltaCount =
      pixelCount rows cols (fun y x => d.deltaThresh < f1 y x ∧ d.deltaThresh < f2 y x) := by
  have := foldl_rows_counts (twoCompareStep d f1 f2) (fun y x => 0 < f1 y x ∨ 0 < f2 y x)
    (fun y x => d.deltaThresh < f1 y x ∧ d.deltaThresh < f2 y x)
    (by
      intro y acc x
      unfold twoCompareStep
      by_cases h : f1 y x > 0 ∨ f2 y x > 0
      · by_cases h2 : f1 y x > d.deltaThresh ∧ f2 y x > d.deltaThresh <;> simp [h, h2]
      · simp [h])
    (by
      intro y acc x
      unfold twoCompareStep
      by_cases h : f1 y x > 0 ∨ f2 y x > 0
      · by_cases h2 : f1 y x > d.deltaThresh ∧ f2 y x > d.deltaThresh <;> simp [h, h2]
      · have h2 : ¬ (d.deltaThresh < f1 y x ∧ d.deltaThresh < f2 y x) := by omega
        simp [h, h2])
    (List.finRange rows) { nonzeroCount := 0, deltaCount := 0, Mask := outMask.Mask }
  unfold CountPixelsTwoCompare
  rw [this.1, this.2, pixelCount_eq_sum, pixelCount_eq_sum]
  simp

end motionDetector

namespace motionDetector

variable {rows cols : Nat}

/-- What `hasMotion` does when it is called the way `pixelsChanged` calls it:
with a nil `f2` in one-diff mode and with the previous diff otherwise. -/
theorem hasMotion_spec (d : motionDetector rows cols) (f1 f2 : Frame rows cols)
    (m : MotionState rows cols) :
    ∃ r, (if d.useOneDiff then d.hasMotion f1 none m else d.hasMotion f1 (some f2) m) = some r ∧
      (d.nonzeroLimit < (nonzeroPixels d.useOneDiff f1 f2 : Int) →
        r.movement = false ∧ r.outMask.DetectionState = DetectionState.TooManyPoints ∧
        r.detector = { d with flooredFrames := d.flooredFrames.SetAsOldest, firstDiff := false }) ∧
      (¬ d.nonzeroLimit < (nonzeroPixels d.useOneDiff f1 f2 : Int) →
        r.movement = decide (d.countThresh ≤ (deltaPixels d.useOneDiff d.deltaThresh f1 f2 : Int)) ∧
        r.outMask.DetectionState = m.DetectionState ∧ r.detector = d) := by
  obtain ⟨a1, a2⟩ := CountPixels_counts d f1 m
  obtain ⟨b1, b2⟩ := CountPixelsTwoCompare_counts d f1 f2 m
  cases hu : d.useOneDiff
  · simp only [Bool.false_eq_true, if_false, hasMotion, hu, Option.map_some', nonzeroPixels,
      deltaPixels, b1, b2, gt_iff_lt, ge_iff_le]
    refine ⟨_, rfl, ?_, ?_⟩
    · intro h
      simp only [h, if_true, and_self]
    · intro h
      simp only [h, if_false, and_self]
  · simp only [if_true, hasMotion, hu, Option.map_some', nonzeroPixels,
      deltaPixels, a1, a2, gt_iff_lt, ge_iff_le]
    refine ⟨_, rfl, ?_, ?_⟩
    · intro h
      simp only [h, if_true, and_self]
    · intro h
      simp only [h, if_false, and_self]

/-- C3.  `Detect` returns true exactly when the detector had already produced
a diff since its last reset (`firstDiff` true on entry), `nonzeroCount ≤
nonzeroLimit` and `deltaCount ≥ countThresh`, where `nonzeroCount` is the number
of pixels at which either diff is `> 0` and `deltaCount` the number at which
both diffs exceed `deltaThresh` (in one-diff mode: the current diff alone).
When `firstDiff` was false on entry it returns false with `DetectionState =
NoData` and sets `firstDiff`. -/
theorem Detect_iff (d : motionDetector rows cols) (frame : Frame rows cols)
    (outMask : MotionState rows cols) :
    ∃ r, d.Detect frame outMask = some r ∧
      (r.movement = true ↔
        (d.firstDiff = true ∧
          (nonzeroPixels d.useOneDiff (d.diffFrame frame) (d.prevDiffFrame frame) : Int)
            ≤ d.nonzeroLimit ∧
          d.countThresh ≤
            (deltaPixels d.useOneDiff d.deltaThresh (d.diffFrame frame) (d.prevDiffFrame frame) : Int))) ∧
      (d.firstDiff = false →
        r.movement = false ∧ r.outMask.DetectionState = DetectionState.NoData ∧
        r.detector.firstDiff = true) := by
  unfold Detect pixelsChanged
  cases hf : d.firstDiff
  · simp only [Bool.not_false, if_true]
    refine ⟨_, rfl, ?_, ?_⟩
    · simp [deferredMove]
    · intro _
      simp [deferredMove]
  · simp only [Bool.not_true, Bool.false_eq_true, if_false]
    obtain ⟨r, hr, h1, h2⟩ := hasMotion_spec
      { d with flooredFrames := d.floored frame, diffFrames := d.diffsMoved frame }
      (d.diffFrame frame) (d.prevDiffFrame frame) outMask.Zero
    simp only [hf] at hr h1 h2
    rw [hr]
    refine ⟨_, rfl, ?_, ?_⟩
    · simp only [Option.map_some', deferredMove, true_and]
      by_cases hn : d.nonzeroLimit <
          (nonzeroPixels d.useOneDiff (d.diffFrame frame) (d.prevDiffFrame frame) : Int)
      · obtain ⟨e1, _, _⟩ := h1 hn
        rw [e1]
        constructor
        · intro h; exact absurd h (by simp)
        · intro h; omega
      · obtain ⟨e1, _, _⟩ := h2 hn
        rw [e1, decide_eq_true_iff]
        constructor
        · intro h; exact ⟨by omega, h⟩
        · intro h; exact h.2
    · intro h; exact absurd h (by simp)

end motionDetector

/-! ### Recalibration suppression -/

theorem pixelCount_mono (rows cols : Nat) (p q : Fin rows → Fin cols → Prop)
    [∀ y x, Decidable (p y x)] [∀ y x, Decidable (q y x)] (h : ∀ y x, p y x → q y x) :
    pixelCount rows cols p ≤ pixelCount rows cols q := by
  unfold pixelCount
  apply Finset.card_le_card
  intro a ha
  rw [Finset.mem_filter] at ha ⊢
  exact ⟨ha.1, h _ _ ha.2⟩

theorem pixelCount_false (rows cols : Nat) (p : Fin rows → Fin cols → Prop)
    [∀ y x, Decidable (p y x)] (h : ∀ y x, ¬ p y x) : pixelCount rows cols p = 0 := by
  unfold pixelCount
  rw [Finset.card_eq_zero, Finset.filter_eq_empty_iff]
  intro a _
  exact h _ _

theorem absDiff_self (a : Nat) : absDiff a a = 0 := by
  simp [absDiff]

theorem warmerDiff_self (a : Nat) : warmerDiff a a = 0 := by
  simp [warmerDiff]

namespace motionDetector

variable {rows cols : Nat}

theorem deref_set_self (fl : FrameLoop (Frame rows cols)) (c : Nat) (v : Frame rows cols)
    (h : c < fl.frames.length) : deref { fl with frames := fl.frames.set c v } c = v := by
  unfold deref
  rw [List.getD_eq_getElem?_getD]
  simp only
  rw [List.getElem?_set_self h]
  rfl

theorem deref_set_ne (fl : FrameLoop (Frame rows cols)) (c p : Nat) (v : Frame rows cols)
    (h : c ≠ p) : deref { fl with frames := fl.frames.set c v } p = deref fl p := by
  unfold deref
  rw [List.getD_eq_getElem?_getD, List.getD_eq_getElem?_getD]
  simp only
  rw [List.getElem?_set_ne h]

theorem floored_WF {d : motionDetector rows cols} {N : Nat} (hwf : d.flooredFrames.WF N)
    (frame : Frame rows cols) : (d.floored frame).WF N :=
  ⟨hwf.pos, hwf.size_eq, by simp [floored, hwf.frames_len], hwf.ordered_len, hwf.cur_nonneg,
    hwf.cur_lt, hwf.oldest_range, hwf.oldest_le⟩

theorem Current_lt {fl : FrameLoop (Frame rows cols)} {N : Nat} (hwf : fl.WF N) :
    fl.Current < fl.frames.length := by
  have h0 := hwf.cur_nonneg
  have h1 := hwf.cur_lt
  have h2 := hwf.frames_len
  unfold FrameLoop.Current
  omega

/-- After `setFloor` the current slot of `flooredFrames` holds the floored
frame. -/
theorem processedFrame_eq {d : motionDetector rows cols} {N : Nat} (hwf : d.flooredFrames.WF N)
    (frame : Frame rows cols) : d.processedFrame frame = d.setFloor frame := by
  unfold processedFrame floored
  exact deref_set_self _ _ _ (Current_lt hwf)

/-- In a loop of capacity 1 the frame is differenced against itself. -/
theorem diffFrame_of_size_one {d : motionDetector rows cols} (hwf : d.flooredFrames.WF 1)
    (frame : Frame rows cols) : d.diffFrame frame = zeroFrame rows cols := by
  have h0 := hwf.cur_nonneg
  have h1 := hwf.cur_lt
  have h2 := hwf.oldest_range
  have hc : d.flooredFrames.currentIndex = 0 := by omega
  have hO : (d.floored frame).Oldest = d.flooredFrames.Current := by
    unfold FrameLoop.Oldest FrameLoop.Current floored
    simp only [NO_OLDEST_SET, hc]
    split
    · next h => omega
    · unfold FrameLoop.nextIndexAfter
      rw [hwf.size_eq]
      rfl
  unfold diffFrame compareFrame
  rw [hO]
  funext y x
  unfold processedFrame
  split
  · exact warmerDiff_self _
  · exact absDiff_self _

/-- A call with `firstDiff` false only warms the detector up. -/
theorem Detect_warmup (d : motionDetector rows cols) (hf : d.firstDiff = false)
    (frame : Frame rows cols) (outMask : MotionState rows cols) :
    ∃ r, d.Detect frame outMask = some r ∧ r.movement = false ∧
      r.outMask.DetectionState = DetectionState.NoData ∧ r.detector.firstDiff = true ∧
      r.detector.flooredFrames = (d.floored frame).Move := by
  unfold Detect pixelsChanged
  simp only [hf, Bool.not_false, if_true]
  exact ⟨_, rfl, rfl, rfl, rfl, rfl⟩

/-- C4.  For a detector past warm-up (`firstDiff` true, `nonzeroLimit` the
`NonzeroMaxPercent`% of the pixels), a frame whose difference from the baseline
exceeds `deltaThresh` on more than `NonzeroMaxPercent`% of the `rows × cols`
pixels makes `Detect` return false with `DetectionState = TooManyPoints`, sets
`firstDiff` to false and pins the slot holding the floored frame as oldest of
`flooredFrames`; the next `Detect` call then returns false with
`DetectionState = NoData` and is compared against that pinned frame. -/
theorem Detect_recalibration (d : motionDetector rows cols) (N : Nat)
    (hwf : d.flooredFrames.WF N) (NonzeroMaxPercent : Int) (hP : 0 ≤ NonzeroMaxPercent)
    (hlim : d.nonzeroLimit = Int.tdiv ((rows : Int) * (cols : Int) * NonzeroMaxPercent) 100)
    (hfirst : d.firstDiff = true) (frame : Frame rows cols) (outMask : MotionState rows cols)
    (hmany : (rows : Int) * (cols : Int) * NonzeroMaxPercent <
      100 * (pixelCount rows cols (fun y x => d.deltaThresh < d.diffFrame frame y x) : Int)) :
    ∃ r, d.Detect frame outMask = some r ∧
      r.movement = false ∧
      r.outMask.DetectionState = DetectionState.TooManyPoints ∧
      r.detector.firstDiff = false ∧
      r.detector.flooredFrames.oldest = d.flooredFrames.currentIndex ∧
      r.detector.flooredFrames.Oldest = d.flooredFrames.Current ∧
      deref r.detector.flooredFrames r.detector.flooredFrames.Oldest = d.setFloor frame ∧
      ∀ (frame2 : Frame rows cols) (outMask2 : MotionState rows cols),
        ∃ r2, r.detector.Detect frame2 outMask2 = some r2 ∧
          r2.movement = false ∧
          r2.outMask.DetectionState = DetectionState.NoData ∧
          r.detector.compareFrame frame2 = d.setFloor frame := by
  have h0 := hwf.cur_nonneg
  have h1 := hwf.cur_lt
  have hpos := hwf.pos
  -- a loop of capacity 1 cannot see such a frame
  have hN : 2 ≤ N := by
    by_contra hlt
    have hN1 : N = 1 := by omega
    subst hN1
    rw [diffFrame_of_size_one hwf] at hmany
    rw [pixelCount_false rows cols _ (by intro y x; simp [zeroFrame])] at hmany
    have : 0 ≤ (rows : Int) * (cols : Int) * NonzeroMaxPercent :=
      Int.mul_nonneg (Int.mul_nonneg (by omega) (by omega)) hP
    omega
  -- the nonzero count is over the limit
  have hnz : d.nonzeroLimit <
      (nonzeroPixels d.useOneDiff (d.diffFrame frame) (d.prevDiffFrame frame) : Int) := by
    have hle : pixelCount rows cols (fun y x => d.deltaThresh < d.diffFrame frame y x) ≤
        nonzeroPixels d.useOneDiff (d.diffFrame frame) (d.prevDiffFrame frame) := by
      unfold nonzeroPixels
      split
      · exact pixelCount_mono _ _ _ _ (fun y x h => by omega)
      · exact pixelCount_mono _ _ _ _ (fun y x h => Or.inl (by omega))
    have hnn : 0 ≤ (rows : Int) * (cols : Int) * NonzeroMaxPercent :=
      Int.mul_nonneg (Int.mul_nonneg (by omega) (by omega)) hP
    rw [hlim, Int.tdiv_eq_ediv hnn (by norm_num)]
    omega
  obtain ⟨r, hr, hA, _⟩ := hasMotion_spec
    { d with flooredFrames := d.floored frame, diffFrames := d.diffsMoved frame }
    (d.diffFrame frame) (d.prevDiffFrame frame) outMask.Zero
  obtain ⟨e1, e2, e3⟩ := hA hnz
  simp only at hr e3
  have hfw := floored_WF hwf frame
  have hsw := FrameLoop.WF_SetAsOldest hfw
  have hmv := FrameLoop.Move_eq hsw
  have hcur : (d.floored frame).SetAsOldest.currentIndex = d.flooredFrames.currentIndex := rfl
  have hold : (d.floored frame).SetAsOldest.oldest = d.flooredFrames.currentIndex := rfl
  have hfr : (d.floored frame).SetAsOldest.frames =
      d.flooredFrames.frames.set d.flooredFrames.Current (d.setFloor frame) := rfl
  -- the fields of `flooredFrames` when `Detect` returns
  have hO : (d.floored frame).SetAsOldest.Move.oldest = d.flooredFrames.currentIndex := by
    rw [hmv]
    simp only [hcur, hold]
    split_ifs <;> omega
  have hC : (d.floored frame).SetAsOldest.Move.currentIndex ≠ d.flooredFrames.currentIndex := by
    rw [hmv]
    simp only [hcur]
    split_ifs <;> omega
  have hF : (d.floored frame).SetAsOldest.Move.frames =
      d.flooredFrames.frames.set d.flooredFrames.Current (d.setFloor frame) := by
    rw [hmv]
    exact hfr
  have hMw := FrameLoop.WF_Move hsw
  have hOp : (d.floored frame).SetAsOldest.Move.Oldest = d.flooredFrames.Current := by
    unfold FrameLoop.Oldest FrameLoop.Current
    rw [hO]
    simp only [NO_OLDEST_SET]
    split
    · rfl
    · next h => exact absurd (show d.flooredFrames.currentIndex ≠ -1 by omega) h
  have hderef : deref (d.floored frame).SetAsOldest.Move d.flooredFrames.Current =
      d.setFloor frame := by
    unfold deref
    rw [hF, List.getD_eq_getElem?_getD, List.getElem?_set_self (Current_lt hwf)]
    rfl
  refine ⟨deferredMove r, ?_, ?_, ?_, ?_, ?_, ?_, ?_, ?_⟩
  · unfold Detect pixelsChanged
    simp only [hfirst, Bool.not_true, Bool.false_eq_true, if_false]
    simp only [hfirst] at hr
    rw [hr]
    rfl
  · exact e1
  · exact e2
  · simp only [deferredMove, e3]
  · simp only [deferredMove, e3]
    exact hO
  · simp only [deferredMove, e3]
    exact hOp
  · simp only [deferredMove, e3]
    rw [hOp]
    exact hderef
  · intro frame2 outMask2
    have hff : (deferredMove r).detector.firstDiff = false := by
      simp only [deferredMove, e3]
    have hfl : (deferredMove r).detector.flooredFrames = (d.floored frame).SetAsOldest.Move := by
      simp only [deferredMove, e3]
    have htt : (deferredMove r).detector.tempThresh = d.tempThresh := by
      simp only [deferredMove, e3]
    obtain ⟨r2, hr2, hm2, hs2, _, _⟩ := Detect_warmup _ hff frame2 outMask2
    refine ⟨r2, hr2, hm2, hs2, ?_⟩
    · unfold compareFrame
      have hOld2 : ((deferredMove r).detector.floored frame2).Oldest = d.flooredFrames.Current := by
        rw [← hOp, ← hfl]
        rfl
      rw [hOld2]
      unfold floored
      rw [deref_set_ne, hfl]
      · exact hderef
      · rw [hfl]
        unfold FrameLoop.Current
        have := hMw.cur_nonneg
        omega

end motionDetector

/-! ### The comparison baseline -/

theorem mod_ne_of_lt {j k N : Nat} (h1 : j < k) (h2 : k < j + N) : j % N ≠ k % N := by
  intro h
  have hd : N ∣ k - j := (Nat.modEq_iff_dvd' (le_of_lt h1)).mp h
  have := Nat.le_of_dvd (by omega) hd
  omega

namespace FrameLoop

variable {α : Type}

theorem Move_currentIndex_mod {fl : FrameLoop α} {N k : Nat} (h : fl.WF N)
    (hc : fl.currentIndex = ((k % N : Nat) : Int)) :
    fl.Move.currentIndex = (((k + 1) % N : Nat) : Int) := by
  rw [Move_eq h]
  simp only [hc]
  rcases succ_mod_cases k N h.pos with ⟨h1, h2⟩ | ⟨h1, h2⟩
  · have : ((k % N : Nat) : Int) + 1 = N := by omega
    rw [if_pos this, h2]
    rfl
  · have : ¬ (((k % N : Nat) : Int) + 1 = N) := by omega
    rw [if_neg this, h2]
    push_cast
    rfl

theorem Move_oldest {fl : FrameLoop α} {N : Nat} (h : fl.WF N) :
    fl.Move.oldest = if fl.Move.currentIndex = fl.oldest then -1 else fl.oldest := by
  rw [Move_eq h]

theorem Move_frames {fl : FrameLoop α} {N : Nat} (h : fl.WF N) :
    fl.Move.frames = fl.frames := by
  rw [Move_eq h]

end FrameLoop

namespace motionDetector

variable {rows cols : Nat}

/-- The two ways a `Detect` call can leave `flooredFrames`: moved, or pinned at
the slot just written and moved, the latter exactly when it reports
`TooManyPoints`. -/
theorem Detect_cases (d : motionDetector rows cols) (frame : Frame rows cols)
    (outMask : MotionState rows cols) :
    ∃ r, d.Detect frame outMask = some r ∧ r.detector.tempThresh = d.tempThresh ∧
      ((r.outMask.DetectionState ≠ DetectionState.TooManyPoints ∧
          r.detector.flooredFrames = (d.floored frame).Move) ∨
        (r.outMask.DetectionState = DetectionState.TooManyPoints ∧
          r.detector.flooredFrames = (d.floored frame).SetAsOldest.Move)) := by
  cases hf : d.firstDiff
  · obtain ⟨r, hr, _, hs, _, hfl⟩ := Detect_warmup d hf frame outMask
    refine ⟨r, hr, ?_, Or.inl ⟨by rw [hs]; simp, hfl⟩⟩
    unfold Detect pixelsChanged at hr
    simp only [hf, Bool.not_false, if_true, Option.some.injEq] at hr
    rw [← hr]
    rfl
  · obtain ⟨r, hr, h1, h2⟩ := hasMotion_spec
      { d with flooredFrames := d.floored frame, diffFrames := d.diffsMoved frame }
      (d.diffFrame frame) (d.prevDiffFrame frame) outMask.Zero
    simp only [hf] at hr h1 h2
    refine ⟨deferredMove r, ?_, ?_, ?_⟩
    · unfold Detect pixelsChanged
      simp only [hf, Bool.not_true, Bool.false_eq_true, if_false]
      rw [hr]
      rfl
    · by_cases hn : d.nonzeroLimit <
          (nonzeroPixels d.useOneDiff (d.diffFrame frame) (d.prevDiffFrame frame) : Int)
      · obtain ⟨_, _, e3⟩ := h1 hn
        simp only [deferredMove, e3]
      · obtain ⟨_, _, e3⟩ := h2 hn
        simp only [deferredMove, e3]
    · by_cases hn : d.nonzeroLimit <
          (nonzeroPixels d.useOneDiff (d.diffFrame frame) (d.prevDiffFrame frame) : Int)
      · obtain ⟨_, e2, e3⟩ := h1 hn
        right
        exact ⟨e2, by simp only [deferredMove, e3]⟩
      · obtain ⟨_, e2, e3⟩ := h2 hn
        left
        refine ⟨?_, by simp only [deferredMove, e3]⟩
        show r.outMask.DetectionState ≠ DetectionState.TooManyPoints
        rw [e2]
        simp [MotionState.Zero]

theorem setFloor_congr (d e : motionDetector rows cols) (h : d.tempThresh = e.tempThresh)
    (f : Frame rows cols) : d.setFloor f = e.setFloor f := by
  unfold setFloor
  rw [h]

end motionDetector

namespace motionDetector

variable {rows cols : Nat}

theorem DetInv_init (args : MotionConfig) (N : Nat) (hN : 1 ≤ N)
    (hgap : args.FrameCompareGap + 1 = N) :
    DetInv N args.TempThresh (NewMotionDetector rows cols args) [] [] where
  wf := by
    have := FrameLoop.WF_NewFrameLoop (zeroFrame rows cols) N hN
    unfold NewMotionDetector
    rw [hgap]
    exact this
  temp := rfl
  cur := by simp [NewMotionDetector, FrameLoop.NewFrameLoop]
  outs_len := rfl
  slots := by intro j f h; simp at h
  pin := Or.inr ⟨0, by simp [NewMotionDetector, FrameLoop.NewFrameLoop], le_refl _, by
    simp only [List.length_nil]; omega, Or.inl rfl⟩

theorem DetInv_slots_step {N t : Nat} {d : motionDetector rows cols}
    {hist : List (Frame rows cols)} {outs : List (Bool × DetectionState)}
    (h : DetInv N t d hist outs) (f : Frame rows cols) (fl : FrameLoop (Frame rows cols))
    (hfr : fl.frames = (d.floored f).frames) (e : motionDetector rows cols)
    (he : e.tempThresh = d.tempThresh) :
    ∀ j f2, (hist ++ [f])[j]? = some f2 → (hist ++ [f]).length ≤ j + N →
      deref fl (j % N) = e.setFloor f2 := by
  intro j f2 hj hle
  rw [List.length_append, List.length_singleton] at hle
  have hcur : d.flooredFrames.Current = hist.length % N := by
    unfold FrameLoop.Current
    rw [h.cur]
    rfl
  have hlt : hist.length % N < d.flooredFrames.frames.length := by
    rw [h.wf.frames_len]
    exact Nat.mod_lt _ h.wf.pos
  have hd : deref fl (j % N) = deref (d.floored f) (j % N) := by
    unfold deref
    rw [hfr]
  rw [hd, setFloor_congr e d he]
  unfold floored
  rw [hcur]
  by_cases hjk : j < hist.length
  · rw [List.getElem?_append_left hjk] at hj
    rw [deref_set_ne _ _ _ _ (Ne.symm (mod_ne_of_lt hjk (by omega)))]
    exact h.slots j f2 hj (by omega)
  · have hjk2 : j = hist.length := by
      by_contra hne
      rw [List.getElem?_eq_none (by simp; omega)] at hj
      exact absurd hj (by simp)
    subst hjk2
    rw [List.getElem?_append_right (le_refl _)] at hj
    simp only [Nat.sub_self, List.getElem?_cons_zero, Option.some.injEq] at hj
    rw [← hj]
    exact deref_set_self _ _ _ hlt

/-- One `Detect` call keeps the invariant, with the frame and the report
appended. -/
theorem DetInv_step {N t : Nat} {d : motionDetector rows cols}
    {hist : List (Frame rows cols)} {outs : List (Bool × DetectionState)}
    (h : DetInv N t d hist outs) (f : Frame rows cols) (outMask : MotionState rows cols) :
    ∃ r, d.Detect f outMask = some r ∧
      DetInv N t r.detector (hist ++ [f]) (outs ++ [(r.movement, r.outMask.DetectionState)]) := by
  obtain ⟨r, hr, ht, hcase⟩ := Detect_cases d f outMask
  refine ⟨r, hr, ?_⟩
  have hFw := floored_WF h.wf f
  have hFc : (d.floored f).currentIndex = ((hist.length % N : Nat) : Int) := h.cur
  have hFo : (d.floored f).oldest = d.flooredFrames.oldest := rfl
  have hpos := h.wf.pos
  have hlen : (hist ++ [f]).length = hist.length + 1 := by simp
  have hmlt := Nat.mod_lt hist.length hpos
  have hmlt2 := Nat.mod_lt (hist.length + 1) hpos
  rcases hcase with ⟨hs, hfl⟩ | ⟨hs, hfl⟩
  · have hMc := FrameLoop.Move_currentIndex_mod hFw hFc
    refine ⟨?_, ?_, ?_, ?_, ?_, ?_⟩
    · rw [hfl]; exact FrameLoop.WF_Move hFw
    · rw [ht]; exact h.temp
    · rw [hfl, hlen]; exact hMc
    · simp [h.outs_len]
    · exact DetInv_slots_step h f _ (by rw [hfl]; exact FrameLoop.Move_frames hFw) _ ht
    · rw [hfl, FrameLoop.Move_oldest hFw, hMc, hFo, hlen]
      rcases h.pin with hp | ⟨m, hm1, hm2, hm3, hm4⟩
      · left
        rw [hp]
        split <;> rfl
      · by_cases hc : (((hist.length + 1) % N : Nat) : Int) = d.flooredFrames.oldest
        · left
          rw [if_pos hc]
        · right
          rw [if_neg hc]
          refine ⟨m, hm1, by omega, ?_, ?_⟩
          · by_contra hge
            have : hist.length + 1 = m + N := by omega
            apply hc
            rw [hm1, this, Nat.add_mod_right]
          · rcases hm4 with h0 | ⟨b, hb⟩
            · exact Or.inl h0
            · right
              refine ⟨b, ?_⟩
              have hml : m < outs.length := by
                by_contra hge
                rw [List.getElem?_eq_none (by omega)] at hb
                exact absurd hb (by simp)
              rw [List.getElem?_append_left hml]
              exact hb
  · have hSw := FrameLoop.WF_SetAsOldest hFw
    have hSc : (d.floored f).SetAsOldest.currentIndex = ((hist.length % N : Nat) : Int) := h.cur
    have hSo : (d.floored f).SetAsOldest.oldest = ((hist.length % N : Nat) : Int) := h.cur
    have hMc := FrameLoop.Move_currentIndex_mod hSw hSc
    refine ⟨?_, ?_, ?_, ?_, ?_, ?_⟩
    · rw [hfl]; exact FrameLoop.WF_Move hSw
    · rw [ht]; exact h.temp
    · rw [hfl, hlen]; exact hMc
    · simp [h.outs_len]
    · exact DetInv_slots_step h f _ (by rw [hfl]; exact FrameLoop.Move_frames hSw) _ ht
    · rw [hfl, FrameLoop.Move_oldest hSw, hMc, hSo, hlen]
      by_cases hc : (((hist.length + 1) % N : Nat) : Int) = ((hist.length % N : Nat) : Int)
      · left
        rw [if_pos hc]
      · right
        rw [if_neg hc]
        refine ⟨hist.length, rfl, by omega, ?_, ?_⟩
        · by_contra hge
          have hN1 : N = 1 := by omega
          apply hc
          rw [hN1, Nat.mod_one, Nat.mod_one]
        · right
          refine ⟨r.movement, ?_⟩
          rw [List.getElem?_append_right (by rw [h.outs_len]), h.outs_len, Nat.sub_self, hs]
          rfl

/-- Feeding a list of frames keeps the invariant and never panics. -/
theorem DetInv_detectAll {N t : Nat} (outMask : MotionState rows cols)
    (fs : List (Frame rows cols)) :
    ∀ (d : motionDetector rows cols) (hist : List (Frame rows cols))
      (outs : List (Bool × DetectionState)), DetInv N t d hist outs →
      ∃ d2 outs2, detectAll d outMask fs = some (d2, outs2) ∧
        DetInv N t d2 (hist ++ fs) (outs ++ outs2) := by
  induction fs with
  | nil =>
    intro d hist outs h
    exact ⟨d, [], rfl, by simpa using h⟩
  | cons f fs ih =>
    intro d hist outs h
    obtain ⟨r, hr, hstep⟩ := DetInv_step h f outMask
    obtain ⟨d2, outs2, hrun, hinv⟩ := ih r.detector _ _ hstep
    refine ⟨d2, (r.movement, r.outMask.DetectionState) :: outs2, ?_, ?_⟩
    · unfold detectAll
      rw [hr]
      simp only [Option.some_bind, hrun, Option.map_some']
    · simpa using hinv

end motionDetector

namespace motionDetector

variable {rows cols : Nat}

/-- The baseline of call `k`, in terms of the reports of the run so far. -/
theorem Detect_baseline_of_reports (args : MotionConfig) (g : Nat) (hg : 1 ≤ g)
    (hgap : args.FrameCompareGap = (g : Int)) (outMask : MotionState rows cols)
    (frames : List (Frame rows cols)) (k : Nat) (hk : g < k) (hlen : k ≤ frames.length) :
    ∃ d outs fk f0,
      detectAll (NewMotionDetector rows cols args) outMask (frames.take (k - 1)) = some (d, outs) ∧
      outs.length = k - 1 ∧ frames[k - 1]? = some fk ∧ frames[k - g - 1]? = some f0 ∧
      ((∀ j, k - g ≤ j → j < k → ∀ b, outs[j - 1]? ≠ some (b, DetectionState.TooManyPoints)) →
        d.compareFrame fk = d.setFloor f0 ∧ d.processedFrame fk = d.setFloor fk) := by
  have hinit := @DetInv_init rows cols args (g + 1) (by omega)
    (by rw [hgap]; push_cast; rfl)
  obtain ⟨d, outs, hrun, hinv⟩ := DetInv_detectAll outMask (frames.take (k - 1)) _ _ _ hinit
  simp only [List.nil_append] at hinv
  have hn : (frames.take (k - 1)).length = k - 1 := by
    rw [List.length_take]; omega
  obtain ⟨fk, hfk⟩ : ∃ fk, frames[k - 1]? = some fk :=
    ⟨_, List.getElem?_eq_getElem (by omega)⟩
  obtain ⟨f0, hf0⟩ : ∃ f0, frames[k - g - 1]? = some f0 :=
    ⟨_, List.getElem?_eq_getElem (by omega)⟩
  refine ⟨d, outs, fk, f0, hrun, by rw [hinv.outs_len, hn], hfk, hf0, ?_⟩
  intro hno
  refine ⟨?_, processedFrame_eq hinv.wf _⟩
  have hcurI := hinv.cur
  rw [hn] at hcurI
  have hpos : 0 < g + 1 := by omega
  have hmlt := Nat.mod_lt (k - 1) hpos
  -- the slot of call `k - g` still holds its floored frame
  have hslot : deref (d.floored fk) ((k - g - 1) % (g + 1)) = d.setFloor f0 := by
    unfold floored
    have hc : d.flooredFrames.Current = (k - 1) % (g + 1) := by
      unfold FrameLoop.Current
      rw [hcurI]
      rfl
    rw [hc, deref_set_ne _ _ _ _ (Ne.symm (mod_ne_of_lt (by omega) (by omega)))]
    apply hinv.slots
    · rw [List.getElem?_take_of_lt (by omega)]
      exact hf0
    · rw [hn]; omega
  -- and it is the slot `Oldest` returns
  have hold : (d.floored fk).Oldest = (k - g - 1) % (g + 1) := by
    have hO : (d.floored fk).Oldest = d.flooredFrames.Oldest := rfl
    rw [hO]
    unfold FrameLoop.Oldest
    simp only [NO_OLDEST_SET]
    rcases hinv.pin with hp | ⟨m, hm1, hm2, hm3, hm4⟩
    · have : ¬ (d.flooredFrames.oldest ≠ -1) := by rw [hp]; simp
      rw [if_neg this, FrameLoop.nextIndexAfter_cur hinv.wf, hcurI]
      have e : k - 1 + 1 = (k - g - 1) + (g + 1) := by omega
      rcases FrameLoop.succ_mod_cases (k - 1) (g + 1) hpos with ⟨h1, h2⟩ | ⟨h1, h2⟩
      · have : (((k - 1) % (g + 1) : Nat) : Int) + 1 = ((g + 1 : Nat) : Int) := by omega
        rw [if_pos this]
        rw [e, Nat.add_mod_right] at h2
        rw [h2]
        rfl
      · have : ¬ ((((k - 1) % (g + 1) : Nat) : Int) + 1 = ((g + 1 : Nat) : Int)) := by omega
        rw [if_neg this]
        rw [e, Nat.add_mod_right] at h2
        rw [h2]
        omega
    · rw [hn] at hm2 hm3
      have hne : d.flooredFrames.oldest ≠ -1 := by rw [hm1]; omega
      rw [if_pos hne, hm1]
      have hm : m = k - g - 1 := by
        by_contra hmne
        have hgt : k - g - 1 < m := by omega
        rcases hm4 with h0 | ⟨b, hb⟩
        · omega
        · have hml : m < outs.length := by
            by_contra hge
            rw [List.getElem?_eq_none (by omega)] at hb
            exact absurd hb (by simp)
          rw [hinv.outs_len, hn] at hml
          have := hno (m + 1) (by omega) (by omega) b
          rw [Nat.add_sub_cancel] at this
          exact this hb
      rw [hm]
      rfl
  unfold compareFrame
  rw [hold]
  exact hslot

/-- C5.  For a detector with `FrameCompareGap = g ≥ 1` and a call number
`k > g` (calls counted from 1) such that none of the `g` preceding calls
reported `TooManyPoints`, the baseline frame of the `k`-th `Detect` call is the
floored frame of call `k - g`, and the current slot holds the floored `k`-th
frame. -/
theorem Detect_baseline (args : MotionConfig) (g : Nat) (hg : 1 ≤ g)
    (hgap : args.FrameCompareGap = (g : Int)) (outMask : MotionState rows cols)
    (frames : List (Frame rows cols)) (k : Nat) (hk : g < k) (hlen : k ≤ frames.length)
    (hno : ∀ j, j < k → k - g ≤ j →
      (detectionStates (NewMotionDetector rows cols args) outMask (frames.take (k - 1)))[j - 1]?
        ≠ some DetectionState.TooManyPoints) :
    ∃ d outs fk f0,
      detectAll (NewMotionDetector rows cols args) outMask (frames.take (k - 1)) = some (d, outs) ∧
      frames[k - 1]? = some fk ∧ frames[k - g - 1]? = some f0 ∧
      d.compareFrame fk = d.setFloor f0 ∧ d.processedFrame fk = d.setFloor fk := by
  obtain ⟨d, outs, fk, f0, hrun, _, hfk, hf0, himp⟩ :=
    Detect_baseline_of_reports args g hg hgap outMask frames k hk hlen
  refine ⟨d, outs, fk, f0, hrun, hfk, hf0, himp ?_⟩
  intro j hj1 hj2 b hb
  apply hno j hj2 hj1
  unfold detectionStates
  rw [hrun]
  simp only [Option.map_some', Option.getD_some, List.getElem?_map, hb, Option.map_some',
    Prod.snd]

end motionDetector

/-! ### Instances -/

theorem FrameLoop.GetHistory_after_moves_witness :
    1 ≤ 5 ∧
    ∃ hist fl2, (FrameLoop.Move^[7] (FrameLoop.NewFrameLoop () ((5 : Nat) : Int))).GetHistory
        = some (hist, fl2) ∧
      hist.length = min (7 + 1) 5 ∧
      hist.getLast? =
        some (some (FrameLoop.Move^[7] (FrameLoop.NewFrameLoop () ((5 : Nat) : Int))).Current) ∧
      ∀ i, i < hist.length →
        hist[i]? = some (some
          (FrameLoop.Move^[7 - (hist.length - 1 - i)]
            (FrameLoop.NewFrameLoop () ((5 : Nat) : Int))).Current) :=
  ⟨by decide, FrameLoop.GetHistory_after_moves () 5 7 (by decide)⟩

theorem FrameLoop.GetHistory_after_pin_witness :
    (1 ≤ 3 ∧ FrameLoop.Reachable () 3 (FrameLoop.NewFrameLoop () ((3 : Nat) : Int)).Move ∧ 2 < 3) ∧
    ∃ hist fl2,
      (FrameLoop.Move^[2] (FrameLoop.NewFrameLoop () ((3 : Nat) : Int)).Move.SetAsOldest).GetHistory
        = some (hist, fl2) ∧
      hist.length = 2 + 1 ∧
      goMod ((FrameLoop.Move^[2]
            (FrameLoop.NewFrameLoop () ((3 : Nat) : Int)).Move.SetAsOldest).currentIndex
          - (FrameLoop.Move^[2]
            (FrameLoop.NewFrameLoop () ((3 : Nat) : Int)).Move.SetAsOldest).oldest
          + (FrameLoop.Move^[2]
            (FrameLoop.NewFrameLoop () ((3 : Nat) : Int)).Move.SetAsOldest).size)
        (FrameLoop.Move^[2] (FrameLoop.NewFrameLoop () ((3 : Nat) : Int)).Move.SetAsOldest).size + 1
        = ((2 : Nat) : Int) + 1 ∧
      (FrameLoop.Move^[2] (FrameLoop.NewFrameLoop () ((3 : Nat) : Int)).Move.SetAsOldest).oldest
        = (FrameLoop.NewFrameLoop () ((3 : Nat) : Int)).Move.currentIndex ∧
      hist.head? = some (some (FrameLoop.NewFrameLoop () ((3 : Nat) : Int)).Move.Current) ∧
      hist.getLast? = some (some
        (FrameLoop.Move^[2] (FrameLoop.NewFrameLoop () ((3 : Nat) : Int)).Move.SetAsOldest).Current) ∧
      ∀ i, i + 1 < hist.length →
        ∃ a b, hist[i]? = some (some a) ∧ hist[i + 1]? = some (some b) ∧ b = (a + 1) % 3 :=
  ⟨⟨by decide, FrameLoop.Reachable.move FrameLoop.Reachable.new, by decide⟩,
    FrameLoop.GetHistory_after_pin () 3 (by decide) _
      (FrameLoop.Reachable.move FrameLoop.Reachable.new) 2 (by decide)⟩

theorem warmDetector_WF : warmDetector.flooredFrames.WF 2 :=
  FrameLoop.WF_Move (FrameLoop.WF_NewFrameLoop (zeroFrame 1 1) 2 (by decide))

theorem warmDetector_many :
    ((1 : Nat) : Int) * ((1 : Nat) : Int) * 50 <
      100 * (pixelCount 1 1
        (fun y x => warmDetector.deltaThresh < warmDetector.diffFrame (uniformFrame 100) y x) : Int) := by
  decide

theorem motionDetector.Detect_recalibration_witness :
    (warmDetector.flooredFrames.WF 2 ∧ (0 : Int) ≤ 50 ∧
      warmDetector.nonzeroLimit = Int.tdiv (((1 : Nat) : Int) * ((1 : Nat) : Int) * 50) 100 ∧
      warmDetector.firstDiff = true ∧
      ((1 : Nat) : Int) * ((1 : Nat) : Int) * 50 <
        100 * (pixelCount 1 1
          (fun y x => warmDetector.deltaThresh < warmDetector.diffFrame (uniformFrame 100) y x) : Int)) ∧
    ∃ r, warmDetector.Detect (uniformFrame 100) emptyMask = some r ∧
      r.movement = false ∧
      r.outMask.DetectionState = DetectionState.TooManyPoints ∧
      r.detector.firstDiff = false ∧
      r.detector.flooredFrames.oldest = warmDetector.flooredFrames.currentIndex ∧
      r.detector.flooredFrames.Oldest = warmDetector.flooredFrames.Current ∧
      motionDetector.deref r.detector.flooredFrames r.detector.flooredFrames.Oldest =
        warmDetector.setFloor (uniformFrame 100) ∧
      ∀ (frame2 : Frame 1 1) (outMask2 : MotionState 1 1),
        ∃ r2, r.detector.Detect frame2 outMask2 = some r2 ∧
          r2.movement = false ∧
          r2.outMask.DetectionState = DetectionState.NoData ∧
          r.detector.compareFrame frame2 = warmDetector.setFloor (uniformFrame 100) :=
  ⟨⟨warmDetector_WF, by decide, by decide, rfl, warmDetector_many⟩,
    motionDetector.Detect_recalibration warmDetector 2 warmDetector_WF 50 (by decide) (by decide)
      rfl (uniformFrame 100) emptyMask warmDetector_many⟩

theorem motionDetector.Detect_baseline_witness :
    (1 ≤ 1 ∧ exampleConfig.FrameCompareGap = ((1 : Nat) : Int) ∧ 1 < 3 ∧
      3 ≤ [uniformFrame 20, uniformFrame 20, uniformFrame 40].length ∧
      ∀ j, j < 3 → 3 - 1 ≤ j →
        (detectionStates (NewMotionDetector 1 1 exampleConfig) emptyMask
          ([uniformFrame 20, uniformFrame 20, uniformFrame 40].take (3 - 1)))[j - 1]?
          ≠ some DetectionState.TooManyPoints) ∧
    ∃ d outs fk f0,
      detectAll (NewMotionDetector 1 1 exampleConfig) emptyMask
        ([uniformFrame 20, uniformFrame 20, uniformFrame 40].take (3 - 1)) = some (d, outs) ∧
      [uniformFrame 20, uniformFrame 20, uniformFrame 40][3 - 1]? = some fk ∧
      [uniformFrame 20, uniformFrame 20, uniformFrame 40][3 - 1 - 1]? = some f0 ∧
      d.compareFrame fk = d.setFloor f0 ∧ d.processedFrame fk = d.setFloor fk :=
  ⟨⟨by decide, by decide, by decide, by decide, by decide⟩,
    motionDetector.Detect_baseline exampleConfig 1 (by decide) (by decide) emptyMask
      [uniformFrame 20, uniformFrame 20, uniformFrame 40] 3 (by decide) (by decide) (by decide)⟩

/-! ### The recording state machine -/

namespace MotionProcessor

variable {α : Type}

/-- With the recorder's writes succeeding, the loop of `recordPreTriggerFrames`
writes every frame it is given, in order, and returns a nil error. -/
theorem writePreTrigger_ok (env : Env) (hpre : ∀ ii, env.preWriteOk ii = true)
    (fl : FrameLoop α) (frames : List (Option Nat)) (ii : Nat) :
    writePreTrigger env fl frames ii =
      (frames.map (fun p => Event.WriteFrame p (p.bind (fun q => fl.frames[q]?))), true) := by
  induction frames generalizing ii with
  | nil => rfl
  | cons p rest ih =>
    unfold writePreTrigger
    simp only [hpre ii, if_true, ih (ii + 1), List.map_cons]

/-- The `if` statement of `internalProcess` on the frame that starts a
recording, with no collaborator failing. -/
theorem detectBranch_start {mp : MotionProcessor α} {N : Nat} (hwf : mp.frameLoop.WF N) (env : Env)
    (hrec : mp.isRecording = false) (hmotion : env.motion = true)
    (hwin : env.windowActive = true) (htrig : mp.triggerFrames ≤ mp.triggered + 1)
    (hcheck : env.checkCanRecordOk = true) (hstart : env.startRecordingOk = true)
    (hpre : ∀ ii, env.preWriteOk ii = true) :
    mp.detectBranch env = some
      ({ mp with
          totalFrames := mp.totalFrames + 1
          triggered := mp.triggered + 1
          isRecording := true
          frameLoop := mp.frameLoop.getFullHistory.2
          writeUntil := mp.minFrames },
        (if mp.hasListener then [Event.MotionDetected] else []) ++ [Event.CheckCanRecord] ++
          (Event.StartRecording :: (if mp.hasListener then [Event.RecordingStarted] else []) ++
            (FrameLoop.lastSlots N mp.frameLoop.currentIndex.toNat mp.frameLoop.histLen).dropLast.map
              (fun p => Event.WriteFrame p
                (p.bind (fun q => mp.frameLoop.getFullHistory.2.frames[q]?))))) := by
  have hnt : ¬ (mp.triggered + 1 < mp.triggerFrames) := by omega
  unfold detectBranch
  simp only [hmotion, if_true, hrec, Bool.false_eq_true, if_false, hnt, canStartWriting, hwin,
    Bool.not_true, hcheck, startRecording, hstart, recordPreTriggerFrames,
    FrameLoop.GetHistory_eq hwf, Option.map_some', writePreTrigger_ok env hpre]

end MotionProcessor

namespace FrameLoop

variable {α : Type}

theorem WF_write {fl : FrameLoop α} {N : Nat} (h : fl.WF N) (i : Nat) (v : α) :
    ({ fl with frames := fl.frames.set i v } : FrameLoop α).WF N :=
  ⟨h.pos, h.size_eq, by simp [h.frames_len], h.ordered_len, h.cur_nonneg, h.cur_lt,
    h.oldest_range, h.oldest_le⟩

theorem lastSlots_nodup (N c L : Nat) (hL : L ≤ N) : (lastSlots N c L).Nodup := by
  unfold lastSlots
  apply List.Nodup.map_on _ (List.nodup_range L)
  intro i hi j hj hij
  rw [List.mem_range] at hi hj
  simp only [Option.some.injEq] at hij
  by_contra hne
  rcases Nat.lt_or_gt_of_ne hne with hlt | hgt
  · exact mod_ne_of_lt (show c + 1 + N - L + i < c + 1 + N - L + j by omega) (by omega) hij
  · exact mod_ne_of_lt (show c + 1 + N - L + j < c + 1 + N - L + i by omega) (by omega) hij.symm

theorem lastSlots_getLast (N c L : Nat) (hc : c < N) (hL : 1 ≤ L) (hLN : L ≤ N) :
    (lastSlots N c L).getLast? = some (some c) := by
  rw [List.getLast?_eq_getElem?, lastSlots_length, lastSlots_getElem? _ _ _ _ (by omega)]
  congr 2
  have : c + 1 + N - L + (L - 1) = c + N := by omega
  rw [this, Nat.add_mod_right, Nat.mod_eq_of_lt hc]

theorem lastSlots_dropLast_append (N c L : Nat) (hc : c < N) (hL : 1 ≤ L) (hLN : L ≤ N) :
    (lastSlots N c L).dropLast ++ [some c] = lastSlots N c L := by
  have h := lastSlots_getLast N c L hc hL hLN
  have hne : lastSlots N c L ≠ [] := by
    intro e
    rw [e] at h
    simp at h
  have := List.dropLast_append_getLast hne
  rw [List.getLast?_eq_getLast _ hne, Option.some.injEq] at h
  rw [h] at this
  exact this

theorem histLen_le {fl : FrameLoop α} {N : Nat} (h : fl.WF N) : fl.histLen ≤ N := by
  obtain ⟨_, h2, _⟩ := histLen_bounds h
  have h0 := h.cur_nonneg
  have h1 := h.cur_lt
  split at h2 <;> omega

end FrameLoop

namespace MotionProcessor

variable {α : Type}

theorem filterMap_written_map (fl : FrameLoop α) (ps : List (Option Nat)) :
    (ps.map (fun p => (Event.WriteFrame p (p.bind (fun q => fl.frames[q]?)) : Event α))).filterMap
        Event.written =
      ps.map (fun p => (p, p.bind (fun q => fl.frames[q]?))) := by
  induction ps with
  | nil => rfl
  | cons p ps ih =>
    rw [List.map_cons, List.filterMap_cons, List.map_cons, ih]
    rfl

theorem WF_writeCurrent {mp : MotionProcessor α} {N : Nat} (hwf : mp.frameLoop.WF N) (f : α) :
    (mp.writeCurrent f).frameLoop.WF N :=
  FrameLoop.WF_write hwf _ f

/-- The frame that starts a recording, with no collaborator failing: the
frames written are those of the history, the current frame last. -/
theorem internalProcess_start {mp : MotionProcessor α} {N : Nat} (hwf : mp.frameLoop.WF N)
    (env : Env)
    (hrec : mp.isRecording = false) (hmotion : env.motion = true)
    (hwin : env.windowActive = true) (htrig : mp.triggerFrames ≤ mp.triggered + 1)
    (hcheck : env.checkCanRecordOk = true) (hstart : env.startRecordingOk = true)
    (hpre : ∀ ii, env.preWriteOk ii = true) (hwrite : env.writeOk = true) :
    ∃ r, mp.internalProcess env mp.frameLoop.Current = some r ∧
      r.2.filterMap Event.written =
        (FrameLoop.lastSlots N mp.frameLoop.currentIndex.toNat mp.frameLoop.histLen).map
          (fun p => (p, p.bind (fun q => mp.frameLoop.frames[q]?))) ∧
      r.2.countP Event.isStartRecording = 1 ∧
      (mp.framesWritten + 1 < mp.minFrames →
        r.1.isRecording = true ∧ r.1.writeUntil = mp.minFrames ∧
        r.1.framesWritten = mp.framesWritten + 1 ∧ r.1.triggered = mp.triggered + 1) := by
  have hc0 := hwf.cur_nonneg
  have hc1 := hwf.cur_lt
  have hdec := detectBranch_start hwf env hrec hmotion hwin htrig hcheck hstart hpre
  have hfr : mp.frameLoop.getFullHistory.2.frames = mp.frameLoop.frames := by
    rw [FrameLoop.getFullHistory_snd]
  obtain ⟨hl1, _, _⟩ := FrameLoop.histLen_bounds hwf
  have hl2 := FrameLoop.histLen_le hwf
  have hsplit := FrameLoop.lastSlots_dropLast_append N mp.frameLoop.currentIndex.toNat
    mp.frameLoop.histLen (by omega) hl1 hl2
  have hpre2 := filterMap_written_map mp.frameLoop
    (FrameLoop.lastSlots N mp.frameLoop.currentIndex.toNat mp.frameLoop.histLen).dropLast
  have hcnt : ∀ ps : List (Option Nat),
      (ps.map (fun p => (Event.WriteFrame p (p.bind (fun q => mp.frameLoop.frames[q]?)) :
        Event α))).countP Event.isStartRecording = 0 := by
    intro ps
    induction ps with
    | nil => rfl
    | cons p ps ih => simp [List.countP_cons, Event.isStartRecording, ih]
  rw [← hsplit, List.map_append]
  generalize (FrameLoop.lastSlots N mp.frameLoop.currentIndex.toNat mp.frameLoop.histLen).dropLast
    = P at hdec hpre2 ⊢
  unfold internalProcess
  rw [hdec]
  simp only [Option.map_some', hfr, hwrite, if_true, List.append_nil]
  refine ⟨_, rfl, ?_, ?_, ?_⟩
  · split
    · cases mp.hasListener <;> cases env.stopRecordingOk <;>
        simp [List.filterMap_append, List.filterMap_cons, Event.written, hpre2, stopRecording,
          FrameLoop.Current]
    · cases mp.hasListener <;>
        simp [List.filterMap_append, List.filterMap_cons, Event.written, hpre2, FrameLoop.Current]
  · split
    · cases mp.hasListener <;> cases env.stopRecordingOk <;>
        simp [List.countP_append, List.countP_cons, Event.isStartRecording, hcnt, stopRecording]
    · cases mp.hasListener <;>
        simp [List.countP_append, List.countP_cons, Event.isStartRecording, hcnt]
  · intro hlt
    have : ¬ (mp.framesWritten + 1 ≥ mp.minFrames) := by omega
    simp [this]

end MotionProcessor

namespace MotionProcessor

variable {α : Type}

theorem countP_eq_one_of_nodup {β : Type} [DecidableEq β] (l : List β) (a : β)
    (h : l.Nodup) (hm : a ∈ l) : l.countP (fun p => decide (p = a)) = 1 := by
  induction l with
  | nil => simp at hm
  | cons b l ih =>
    rw [List.nodup_cons] at h
    rw [List.countP_cons]
    by_cases hb : b = a
    · subst hb
      have : l.countP (fun p => decide (p = b)) = 0 := by
        rw [List.countP_eq_zero]
        intro x hx
        simp only [decide_eq_true_eq]
        intro e
        exact h.1 (e ▸ hx)
      simp [this]
    · have : a ∈ l := by
        rcases List.mem_cons.mp hm with e | e
        · exact absurd e.symm hb
        · exact e
      simp [hb, ih h.2 this]

/-- One call that starts a recording, from any well-formed state, with the
window active and the recorder never failing: the frames passed to
`WriteFrame` on that call are exactly the history `GetHistory` returns, oldest
first and ending with the current frame, which is written once. -/
theorem preroll_is_history (mp : MotionProcessor α) (N : Nat) (hwf : mp.frameLoop.WF N)
    (env : Env) (f : α)
    (hrec : mp.isRecording = false) (hmotion : env.motion = true)
    (hwin : env.windowActive = true) (htrig : mp.triggerFrames ≤ mp.triggered + 1)
    (hcheck : env.checkCanRecordOk = true) (hstart : env.startRecordingOk = true)
    (hpre : ∀ ii, env.preWriteOk ii = true) (hwrite : env.writeOk = true) :
    ∃ r hist fl2, mp.ProcessFrame env f = some r ∧
      (mp.writeCurrent f).frameLoop.GetHistory = some (hist, fl2) ∧
      hist = FrameLoop.lastSlots N mp.frameLoop.Current mp.frameLoop.histLen ∧
      r.2.filterMap Event.written = hist.map (fun p => (p, p.bind (fun q => fl2.frames[q]?))) ∧
      (r.2.filterMap Event.written).length = Nat.min hist.length N ∧
      (r.2.filterMap Event.written).getLast? = some (some mp.frameLoop.Current, some f) ∧
      ((r.2.filterMap Event.written).map Prod.fst).countP
        (fun p => decide (p = some mp.frameLoop.Current)) = 1 := by
  have hww := WF_writeCurrent hwf f
  obtain ⟨r, hr, hw, _, _⟩ := internalProcess_start hww env hrec hmotion hwin htrig hcheck hstart
    hpre hwrite
  have hc0 := hwf.cur_nonneg
  have hc1 := hwf.cur_lt
  obtain ⟨hl1, _, _⟩ := FrameLoop.histLen_bounds hwf
  have hl2 := FrameLoop.histLen_le hwf
  have hfr : (mp.writeCurrent f).frameLoop.getFullHistory.2.frames =
      mp.frameLoop.frames.set mp.frameLoop.Current f := by
    rw [FrameLoop.getFullHistory_snd]
    rfl
  have hcur : (mp.frameLoop.frames.set mp.frameLoop.Current f)[mp.frameLoop.Current]? = some f := by
    rw [List.getElem?_set_self]
    rw [hwf.frames_len]
    unfold FrameLoop.Current
    omega
  have hlast := FrameLoop.lastSlots_getLast N mp.frameLoop.Current mp.frameLoop.histLen
    (by unfold FrameLoop.Current; omega) hl1 hl2
  have hw2 : r.2.filterMap Event.written =
      (FrameLoop.lastSlots N mp.frameLoop.Current mp.frameLoop.histLen).map
        (fun p => (p, p.bind (fun q => (mp.frameLoop.frames.set mp.frameLoop.Current f)[q]?))) := hw
  refine ⟨r, _, _, hr, FrameLoop.GetHistory_eq hww, rfl, ?_, ?_, ?_, ?_⟩
  · rw [hfr]
    exact hw2
  · rw [hw2, List.length_map]
    simp only [FrameLoop.lastSlots_length]
    exact (Nat.min_eq_left hl2).symm
  · rw [hw2, List.getLast?_map, hlast]
    simp only [Option.map_some', Option.some_bind, hcur]
  · rw [hw2, List.map_map]
    have : (Prod.fst ∘ fun p : Option Nat => (p, p.bind
        (fun q => (mp.frameLoop.frames.set mp.frameLoop.Current f)[q]?))) = id := rfl
    rw [this, List.map_id]
    exact countP_eq_one_of_nodup _ _ (FrameLoop.lastSlots_nodup _ _ _ hl2)
      (List.mem_of_getLast?_eq_some hlast)

/-- Window gating when no `WriteFrame` fails.  On a frame where
`Window.Active()` is false and the processor is not recording, `Process` leaves
`isRecording` false and calls neither `CheckCanRecord`, `StartRecording` nor
`WriteFrame`, whatever the value of `triggered`.  On a frame where the window
is active, `triggered` reaches `triggerFrames`, `CheckCanRecord` and
`StartRecording` succeed and every `WriteFrame` succeeds too, `StartRecording`
is called once and the `if` statement of `internalProcess` leaves `isRecording`
true and `writeUntil = minFrames`, which is still so when `Process` returns
unless `minFrames` frames are written by then. -/
theorem window_gating (mp : MotionProcessor α) (env : Env) (f : α)
    (hrec : mp.isRecording = false) (hclosed : env.windowActive = false)
    (mp2 : MotionProcessor α) (env2 : Env) (f2 : α) (N : Nat) (hwf : mp2.frameLoop.WF N)
    (hrec2 : mp2.isRecording = false)
    (hmotion : env2.motion = true) (hwin : env2.windowActive = true)
    (htrig : mp2.triggerFrames ≤ mp2.triggered + 1)
    (hcheck : env2.checkCanRecordOk = true) (hstart : env2.startRecordingOk = true)
    (hpre : ∀ ii, env2.preWriteOk ii = true) (hwrite : env2.writeOk = true) :
    (∃ r, mp.ProcessFrame env f = some r ∧ r.1.isRecording = false ∧
      ∀ e ∈ r.2, e.isCheckCanRecord = false ∧ e.isStartRecording = false ∧
        e.isWriteFrame = false) ∧
    (∃ m r, (mp2.writeCurrent f2).detectBranch env2 = some m ∧ m.1.isRecording = true ∧
      m.1.writeUntil = mp2.minFrames ∧
      mp2.ProcessFrame env2 f2 = some r ∧ r.2.countP Event.isStartRecording = 1 ∧
      (mp2.framesWritten + 1 < mp2.minFrames →
        r.1.isRecording = true ∧ r.1.writeUntil = mp2.minFrames)) := by
  constructor
  · unfold ProcessFrame internalProcess detectBranch
    have hrec1 : (mp.writeCurrent f).isRecording = false := hrec
    cases hm : env.motion
    · simp [hrec1]
    · by_cases ht : (mp.writeCurrent f).triggered + 1 < (mp.writeCurrent f).triggerFrames
      · cases hl : (mp.writeCurrent f).hasListener <;>
          simp [hrec1, ht, hl, Event.isCheckCanRecord, Event.isStartRecording, Event.isWriteFrame]
      · cases hl : (mp.writeCurrent f).hasListener <;>
        by_cases hlog : (mp.writeCurrent f).lastLogFrame = 0 <;>
          simp [hrec1, ht, hl, hlog, canStartWriting, hclosed, occasionallyWriteError,
            Event.isCheckCanRecord, Event.isStartRecording, Event.isWriteFrame]
  · obtain ⟨r, hr, _, hcnt, hfin⟩ := internalProcess_start (WF_writeCurrent hwf f2) env2 hrec2
      hmotion hwin htrig hcheck hstart hpre hwrite
    refine ⟨_, r, detectBranch_start (WF_writeCurrent hwf f2) env2 hrec2 hmotion hwin htrig hcheck
      hstart hpre, rfl, rfl, hr, hcnt, ?_⟩
    intro hlt
    obtain ⟨h1, h2, _, _⟩ := hfin hlt
    exact ⟨h1, h2⟩

end MotionProcessor

namespace MotionProcessor

variable {α : Type}

theorem writePreTrigger_no_start (env : Env) (fl : FrameLoop α) (frames : List (Option Nat))
    (ii : Nat) : (writePreTrigger env fl frames ii).1.countP Event.isStartRecording = 0 := by
  induction frames generalizing ii with
  | nil => rfl
  | cons p rest ih =>
    unfold writePreTrigger
    by_cases h : env.preWriteOk ii = true
    · simp only [h, if_true, List.countP_cons, ih (ii + 1)]
      rfl
    · simp only [h, if_false]
      rfl

theorem motionDetected_no_start (b : Bool) :
    (if b = true then [(Event.MotionDetected : Event α)] else []).countP Event.isStartRecording
      = 0 := by
  cases b <;> rfl

theorem occasionallyWriteError_cases (mp : MotionProcessor α) (task : String) :
    mp.occasionallyWriteError task =
        ({ mp with lastLogFrame := mp.totalFrames }, [Event.Log task mp.totalFrames]) ∨
      mp.occasionallyWriteError task = (mp, []) := by
  unfold occasionallyWriteError
  by_cases h : mp.lastLogFrame = 0
  · left; simp [h]
  · right; simp [h]

/-- What the `if` statement of `internalProcess` does to the fields, for any
answers of the collaborators. -/
theorem detectBranch_spec {mp : MotionProcessor α} {N : Nat} (hwf : mp.frameLoop.WF N) (env : Env) :
    ∃ r, mp.detectBranch env = some r ∧ DecideFacts mp env N r := by
  have hg := FrameLoop.GetHistory_eq hwf
  have hw2 := FrameLoop.WF_getFullHistory hwf
  have hc2 : mp.frameLoop.getFullHistory.2.currentIndex = mp.frameLoop.currentIndex := by
    rw [FrameLoop.getFullHistory_snd]
  have hf2 : mp.frameLoop.getFullHistory.2.frames = mp.frameLoop.frames := by
    rw [FrameLoop.getFullHistory_snd]
  have hft : ∀ {P : Prop}, false = true → P := fun h => Bool.noConfusion h
  unfold detectBranch
  by_cases hm : env.motion = true
  · simp only [hm, if_true]
    have htr : mp.triggered + 1 = (if env.motion = true then mp.triggered + 1 else 0) := by
      rw [if_pos hm]
    by_cases hr : mp.isRecording = true
    · simp only [hr, if_true]
      refine ⟨_, rfl, ⟨hwf, rfl, rfl, rfl, rfl, rfl, rfl, rfl, htr, fun _ => rfl, ?_⟩⟩
      rintro (h | ⟨h1, _⟩)
      · rw [motionDetected_no_start] at h
        exact absurd h (lt_irrefl 0)
      · exact absurd hr (by rw [h1]; exact Bool.false_ne_true)
    · have hr2 : mp.isRecording = false := by simpa using hr
      simp only [hr2, Bool.false_eq_true, if_false]
      by_cases ht : mp.triggered + 1 < mp.triggerFrames
      · simp only [ht, if_true]
        refine ⟨_, rfl, ⟨hwf, rfl, rfl, rfl, rfl, rfl, rfl, rfl, htr, fun h => absurd h hr, ?_⟩⟩
        rintro (h | ⟨_, h2⟩)
        · rw [motionDetected_no_start] at h
          exact absurd h (lt_irrefl 0)
        · exact hft h2
      · simp only [ht, if_false]
        have htt : mp.triggerFrames ≤ mp.triggered + 1 := by omega
        by_cases hc : (canStartWriting
            { mp with totalFrames := mp.totalFrames + 1, triggered := mp.triggered + 1,
                      isRecording := false } env).2 = true
        · simp only [hc, Bool.not_true, Bool.false_eq_true, if_false]
          unfold startRecording
          by_cases hs : env.startRecordingOk = true
          · simp only [hs, Bool.not_true, Bool.false_eq_true, if_false, recordPreTriggerFrames,
              hg, Option.map_some']
            split
            · rcases occasionallyWriteError_cases
                { mp with totalFrames := mp.totalFrames + 1, triggered := mp.triggered + 1,
                          isRecording := true, frameLoop := mp.frameLoop.getFullHistory.2 }
                "Can't start recording file" with e | e
              all_goals rw [e]
              all_goals exact ⟨_, rfl, ⟨hw2, hc2, hf2, rfl, rfl, rfl, rfl, rfl, htr,
                fun h => absurd h hr, fun _ => ⟨hm, hr2, htt⟩⟩⟩
            · exact ⟨_, rfl, ⟨hw2, hc2, hf2, rfl, rfl, rfl, rfl, rfl, htr,
                fun h => absurd h hr, fun _ => ⟨hm, hr2, htt⟩⟩⟩
          · have hs2 : env.startRecordingOk = false := by simpa using hs
            simp only [hs2, Bool.not_false, if_true, Option.map_some']
            rcases occasionallyWriteError_cases
                { mp with totalFrames := mp.totalFrames + 1, triggered := mp.triggered + 1,
                          isRecording := false }
                "Can't start recording file" with e | e
            all_goals rw [e]
            all_goals exact ⟨_, rfl, ⟨hwf, rfl, rfl, rfl, rfl, rfl, rfl, rfl, htr,
              fun h => absurd h hr, fun _ => ⟨hm, hr2, htt⟩⟩⟩
        · have hc3 : (canStartWriting
            { mp with totalFrames := mp.totalFrames + 1, triggered := mp.triggered + 1,
                      isRecording := false } env).2 = false := by simpa using hc
          simp only [hc3, Bool.not_false, if_true]
          rcases occasionallyWriteError_cases
              { mp with totalFrames := mp.totalFrames + 1, triggered := mp.triggered + 1,
                        isRecording := false }
              "Recording not started" with e | e
          all_goals rw [e]
          all_goals exact ⟨_, rfl, ⟨hwf, rfl, rfl, rfl, rfl, rfl, rfl, rfl, htr,
            fun h => absurd h hr, fun _ => ⟨hm, hr2, htt⟩⟩⟩
  · have hm2 : env.motion = false := by simpa using hm
    simp only [hm2, Bool.false_eq_true, if_false]
    refine ⟨_, rfl, ⟨hwf, rfl, rfl, rfl, rfl, rfl, rfl, rfl, ?_, fun h => h, ?_⟩⟩
    · rw [if_neg hm]
    · rintro (h | ⟨h1, h2⟩)
      · exact absurd h (lt_irrefl 0)
      · exact hft (h1.symm.trans h2)

end MotionProcessor

namespace MotionProcessor

variable {α : Type}

theorem internalProcess_spec {mp : MotionProcessor α} {N : Nat} (hwf : mp.frameLoop.WF N)
    (env : Env) (frame : Nat) :
    ∃ r, mp.internalProcess env frame = some r ∧ StepFacts mp env N r := by
  obtain ⟨r0, hdec, hf⟩ := detectBranch_spec hwf env
  have hmw := FrameLoop.WF_Move hf.wf
  have htrg : r0.1.triggered = 0 ∨ (env.motion = true ∧ r0.1.triggered = mp.triggered + 1) := by
    rw [hf.triggered]
    by_cases hm : env.motion = true
    · right; exact ⟨hm, by rw [if_pos hm]⟩
    · left; rw [if_neg hm]
  have hres : env.motion = false → r0.1.triggered = 0 := by
    intro hm
    rw [hf.triggered, hm]
    rfl
  unfold internalProcess
  rw [hdec]
  simp only [Option.map_some']
  refine ⟨_, rfl, ?_⟩
  by_cases hrec : r0.1.isRecording = true
  · simp only [hrec, if_true, true_and]
    have hcount : ∀ tail : List (Event α), tail.countP Event.isStartRecording = 0 →
        (r0.2 ++ ([Event.WriteFrame (some frame) r0.1.frameLoop.frames[frame]?] ++
          (if env.writeOk = true then []
           else [Event.Log "Failed to write to CPTV file" r0.1.totalFrames])) ++ tail).countP
          Event.isStartRecording = r0.2.countP Event.isStartRecording := by
      intro tail ht
      cases env.writeOk <;>
        simp [List.countP_append, List.countP_cons, Event.isStartRecording, ht]
    split
    · refine ⟨FrameLoop.WF_SetAsOldest hmw, hf.trig, hf.minF, hf.maxF, hf.lis, Or.inl rfl,
        fun _ => rfl, ?_⟩
      rintro (h | ⟨_, h2⟩)
      · apply hf.start
        left
        have := hcount ((if r0.1.hasListener = true then [Event.RecordingEnded] else []) ++
          [Event.StopRecording (r0.1.framesWritten + 1)] ++
          (if env.stopRecordingOk = true then []
           else [Event.Log "Failed to stop recording CPTV file" r0.1.totalFrames]))
          (by cases r0.1.hasListener <;> cases env.stopRecordingOk <;> rfl)
        simp only [stopRecording, List.append_assoc] at h this
        rw [this] at h
        exact h
      · exact Bool.noConfusion h2
    · refine ⟨hmw, hf.trig, hf.minF, hf.maxF, hf.lis, htrg, hres, ?_⟩
      rintro (h | ⟨h1, _⟩)
      · apply hf.start
        left
        have := hcount [] rfl
        simp only [List.append_nil] at this
        rw [this] at h
        exact h
      · exact hf.start (Or.inr ⟨h1, hrec⟩)
  · have hrec2 : r0.1.isRecording = false := by simpa using hrec
    simp only [hrec2, Bool.false_eq_true, if_false, false_and, List.append_nil]
    refine ⟨hmw, hf.trig, hf.minF, hf.maxF, hf.lis, htrg, hres, ?_⟩
    rintro (h | ⟨_, h2⟩)
    · exact hf.start (Or.inl h)
    · exact Bool.noConfusion h2

end MotionProcessor

namespace MotionProcessor

variable {α : Type}

theorem ProcessFrame_spec {mp : MotionProcessor α} {N : Nat} (hwf : mp.frameLoop.WF N)
    (env : Env) (f : α) :
    ∃ r, mp.ProcessFrame env f = some r ∧ StepFacts mp env N r := by
  obtain ⟨r, hr, hf⟩ := internalProcess_spec (WF_writeCurrent hwf f) env mp.frameLoop.Current
  exact ⟨r, hr, ⟨hf.wf, hf.trig, hf.minF, hf.maxF, hf.lis, hf.triggered, hf.reset, hf.start⟩⟩

theorem WF_NewMotionProcessor (zero : α) (motionConf : MotionConfig) (conf : RecorderConfig)
    (l : Bool) (N : Nat) (hN : 1 ≤ N)
    (hsize : conf.PreviewSecs * FramesHz + motionConf.TriggerFrames = (N : Int)) :
    (NewMotionProcessor zero motionConf conf l).frameLoop.WF N := by
  unfold NewMotionProcessor
  simp only [hsize]
  exact FrameLoop.WF_NewFrameLoop zero N hN

end MotionProcessor

/-- Induction along a run: an invariant of the processor that every call
keeps, together with a property of each call, holds at every call of
`processAll`, which then never panics. -/
theorem processAll_induct {α : Type} {Inv : MotionProcessor α → List (Env × α) → Prop}
    {Q : List (Env × α) → MotionProcessor α → Env × α →
      MotionProcessor α × List (Event α) → Prop}
    (hstep : ∀ mp hist x, Inv mp hist →
      ∃ r, mp.ProcessFrame x.1 x.2 = some r ∧ Inv r.1 (hist ++ [x]) ∧ Q hist mp x r)
    (inputs : List (Env × α)) :
    ∀ mp hist, Inv mp hist →
      ∃ tr, processAll mp inputs = some tr ∧ tr.length = inputs.length ∧
        ∀ k x r, inputs[k]? = some x → tr[k]? = some r →
          Q (hist ++ inputs.take k) (stateBefore mp tr k) x r := by
  induction inputs with
  | nil =>
    intro mp hist _
    refine ⟨[], rfl, rfl, ?_⟩
    intro k x r hx
    simp at hx
  | cons x rest ih =>
    intro mp hist hinv
    obtain ⟨r, hr, hinv2, hq⟩ := hstep mp hist x hinv
    obtain ⟨tr, htr, hlen, hall⟩ := ih r.1 (hist ++ [x]) hinv2
    refine ⟨r :: tr, ?_, by simp [hlen], ?_⟩
    · unfold processAll
      rw [hr]
      simp only [Option.some_bind, htr, Option.map_some']
    · intro k y s hy hs
      cases k with
      | zero =>
        simp only [List.getElem?_cons_zero, Option.some.injEq] at hy hs
        subst hy
        subst hs
        simpa [stateBefore] using hq
      | succ k =>
        simp only [List.getElem?_cons_succ] at hy hs
        have := hall k y s hy hs
        have e1 : hist ++ (x :: rest).take (k + 1) = hist ++ [x] ++ rest.take k := by simp
        have e2 : stateBefore mp (r :: tr) (k + 1) = stateBefore r.1 tr k := by
          cases k with
          | zero => simp [stateBefore]
          | succ j =>
            have hj : j < tr.length := by
              by_contra hge
              rw [List.getElem?_eq_none (by omega)] at hs
              exact absurd hs (by simp)
            simp [stateBefore, List.getElem?_eq_getElem hj]
        rw [e1, e2]
        exact this

namespace MotionProcessor

variable {α : Type}

theorem TrigInv_step {N : Nat} {T : Int} (mp : MotionProcessor α) (hist : List (Env × α))
    (x : Env × α) (h : TrigInv N T mp hist) :
    ∃ r, mp.ProcessFrame x.1 x.2 = some r ∧ TrigInv N T r.1 (hist ++ [x]) ∧
      (((0 < r.2.countP Event.isStartRecording ∨ (mp.isRecording = false ∧ r.1.isRecording = true)) →
        T ≤ hist.length + 1 ∧
        ∀ j : Nat, j ≤ hist.length → (hist.length : Int) + 1 - T ≤ j →
          ∃ y, (hist ++ [x])[j]? = some y ∧ y.1.motion = true) ∧
       (x.1.motion = false → r.1.triggered = 0)) := by
  obtain ⟨r, hr, hf⟩ := ProcessFrame_spec h.wf x.1 x.2
  have hn := h.nonneg
  have hl := h.le_len
  have hget : ∀ j : Nat, j ≤ hist.length → (hist.length : Int) - mp.triggered ≤ j →
      x.1.motion = true → ∃ y, (hist ++ [x])[j]? = some y ∧ y.1.motion = true := by
    intro j hj1 hj2 hm
    by_cases hjl : j < hist.length
    · obtain ⟨y, hy, hym⟩ := h.motion j hjl hj2
      exact ⟨y, by rw [List.getElem?_append_left hjl]; exact hy, hym⟩
    · have : j = hist.length := by omega
      subst this
      exact ⟨x, by simp, hm⟩
  refine ⟨r, hr, ⟨hf.wf, by rw [hf.trig]; exact h.trig, ?_, ?_, ?_⟩, ?_, hf.reset⟩
  · rcases hf.triggered with e | ⟨_, e⟩
    · rw [e]
    · rw [e]; omega
  · rw [List.length_append, List.length_singleton]
    push_cast
    rcases hf.triggered with e | ⟨_, e⟩
    · rw [e]; omega
    · rw [e]; omega
  · intro j hj1 hj2
    rw [List.length_append, List.length_singleton] at hj1 hj2
    rcases hf.triggered with e | ⟨hm, e⟩
    · rw [e] at hj2
      push_cast at hj2
      omega
    · rw [e] at hj2
      push_cast at hj2
      exact hget j (by omega) (by omega) hm
  · intro hs
    obtain ⟨hm, _, htr⟩ := hf.start hs
    rw [h.trig] at htr
    refine ⟨by omega, ?_⟩
    intro j hj1 hj2
    exact hget j hj1 (by omega) hm

/-- C6.  Recording starts only after `triggerFrames` consecutive
motion-positive frames: along any run from `NewMotionProcessor`, for any
verdicts, window states and recorder results, if call `k` (counted from 0)
calls `StartRecording` or switches `isRecording` from false to true, then at
least `triggerFrames` frames have been processed and the verdict was true on
each of the last `triggerFrames` of them; and any frame with a false verdict
sets `triggered` to 0. -/
theorem start_needs_consecutive_motion (zero : α) (motionConf : MotionConfig)
    (conf : RecorderConfig) (l : Bool) (N : Nat) (hN : 1 ≤ N)
    (hsize : conf.PreviewSecs * FramesHz + motionConf.TriggerFrames = (N : Int))
    (inputs : List (Env × α)) :
    ∃ tr, processAll (NewMotionProcessor zero motionConf conf l) inputs = some tr ∧
      tr.length = inputs.length ∧
      ∀ k x r, inputs[k]? = some x → tr[k]? = some r →
        ((0 < r.2.countP Event.isStartRecording ∨
            ((stateBefore (NewMotionProcessor zero motionConf conf l) tr k).isRecording = false ∧
              r.1.isRecording = true)) →
          motionConf.TriggerFrames ≤ (k : Int) + 1 ∧
          ∀ j : Nat, j ≤ k → (k : Int) + 1 - motionConf.TriggerFrames ≤ j →
            ∃ y, inputs[j]? = some y ∧ y.1.motion = true) ∧
        (x.1.motion = false → r.1.triggered = 0) := by
  have hinit : TrigInv N motionConf.TriggerFrames (NewMotionProcessor zero motionConf conf l) [] :=
    ⟨WF_NewMotionProcessor zero motionConf conf l N hN hsize, rfl, le_refl _, le_refl _, by
      intro j hj; simp at hj⟩
  obtain ⟨tr, htr, hlen, hall⟩ := @processAll_induct α (TrigInv N motionConf.TriggerFrames)
    (fun hist mp x r =>
      ((0 < r.2.countP Event.isStartRecording ∨ (mp.isRecording = false ∧ r.1.isRecording = true)) →
        motionConf.TriggerFrames ≤ hist.length + 1 ∧
        ∀ j : Nat, j ≤ hist.length → (hist.length : Int) + 1 - motionConf.TriggerFrames ≤ j →
          ∃ y, (hist ++ [x])[j]? = some y ∧ y.1.motion = true) ∧
       (x.1.motion = false → r.1.triggered = 0))
    TrigInv_step inputs _ _ hinit
  refine ⟨tr, htr, hlen, ?_⟩
  intro k x r hx hr
  have hk : k < inputs.length := by
    by_contra hge
    rw [List.getElem?_eq_none (by omega)] at hx
    exact absurd hx (by simp)
  obtain ⟨h1, h2⟩ := hall k x r hx hr
  have hlk : ([] ++ inputs.take k).length = k := by
    rw [List.nil_append, List.length_take]
    omega
  rw [hlk] at h1
  refine ⟨?_, h2⟩
  intro hs
  obtain ⟨ht, hmo⟩ := h1 hs
  refine ⟨ht, ?_⟩
  intro j hj1 hj2
  obtain ⟨y, hy, hym⟩ := hmo j hj1 hj2
  refine ⟨y, ?_, hym⟩
  rw [← hy, List.nil_append]
  by_cases hjk : j < k
  · rw [List.getElem?_append_left (by rw [List.length_take]; omega),
      List.getElem?_take_of_lt hjk]
  · have : j = k := by omega
    subst this
    rw [List.getElem?_append_right (by rw [List.length_take]; omega), List.length_take,
      Nat.min_eq_left (by omega), Nat.sub_self, hx]
    rfl

end MotionProcessor

/-! ### Evaluations -/

/-- C7.  With `minFrames = 45`, a recorder whose `WriteFrame` fails on a
pre-trigger frame makes the recording that starts on the second frame stop on
that same frame, `StopRecording` being called with `framesWritten = 1`. -/
theorem stop_after_failed_preroll :
    (MotionProcessor.NewMotionProcessor () exampleConfig (s4Config 1) false).minFrames = 45 ∧
    (processAll (MotionProcessor.NewMotionProcessor () exampleConfig (s4Config 1) false)
        [(Env.allOk true, ()), (Env.preWriteFails, ())]).map
      (fun tr => ((allEvents tr).countP Event.isStartRecording,
        (allEvents tr).filterMap Event.stoppedAt)) = some (1, [1]) := by
  decide

/-- C10.  The second half fails at this input.  A fresh processor with
`TriggerFrames = 2` and `minFrames = 45` sees two frames with motion, the
window active.  On frame 2 the processor is not recording, `triggered` reaches
`triggerFrames`, and `CheckCanRecord` and `StartRecording` succeed, while the
`WriteFrame` of the pre-trigger frame returns an error.  `StartRecording` is
called once and the `if` statement of `internalProcess` leaves `isRecording`
true with `writeUntil = 0`, not `minFrames`; the same `Process` call then
writes the current frame and stops the recording, so it returns with
`isRecording` false and `writeUntil = 0`.  With the pre-trigger `WriteFrame`
succeeding, the same frame leaves `isRecording` true and `writeUntil = 45`. -/
theorem failed_preroll_start_skips_writeUntil :
    ((processAll (MotionProcessor.NewMotionProcessor () exampleConfig (s4Config 1) false)
        [(Env.allOk true, ())]).map
      (fun tr =>
        ((stateBefore (MotionProcessor.NewMotionProcessor () exampleConfig (s4Config 1) false)
            tr 1).isRecording,
          (stateBefore (MotionProcessor.NewMotionProcessor () exampleConfig (s4Config 1) false)
            tr 1).triggered,
          (stateBefore (MotionProcessor.NewMotionProcessor () exampleConfig (s4Config 1) false)
            tr 1).triggerFrames,
          (stateBefore (MotionProcessor.NewMotionProcessor () exampleConfig (s4Config 1) false)
            tr 1).minFrames)) = some (false, 1, 2, 45)) ∧
    (Env.preWriteFails.motion, Env.preWriteFails.windowActive, Env.preWriteFails.checkCanRecordOk,
      Env.preWriteFails.startRecordingOk) = (true, true, true, true) ∧
    ((processAll (MotionProcessor.NewMotionProcessor () exampleConfig (s4Config 1) false)
        [(Env.allOk true, ())]).bind
      (fun tr =>
        ((stateBefore (MotionProcessor.NewMotionProcessor () exampleConfig (s4Config 1) false)
          tr 1).writeCurrent ()).detectBranch Env.preWriteFails)).map
      (fun m => (m.1.isRecording, m.1.writeUntil, m.2.countP Event.isStartRecording)) =
      some (true, 0, 1) ∧
    (processAll (MotionProcessor.NewMotionProcessor () exampleConfig (s4Config 1) false)
        [(Env.allOk true, ()), (Env.preWriteFails, ())]).map
      (List.map (fun r => (r.1.isRecording, r.1.writeUntil,
        r.2.countP Event.isStartRecording))) = some [(false, 0, 0), (false, 0, 1)] ∧
    (processAll (MotionProcessor.NewMotionProcessor () exampleConfig (s4Config 1) false)
        [(Env.allOk true, ()), (Env.allOk true, ())]).map
      (List.map (fun r => (r.1.isRecording, r.1.writeUntil,
        r.2.countP Event.isStartRecording))) = some [(false, 0, 0), (true, 45, 1)] := by
  decide

set_option maxRecDepth 1000000 in
/-- C9, as stated, fails: with `TriggerFrames = 2`, a hundred motion-positive
frames make the processor call `StartRecording` twice, not once. -/
theorem continuous_motion_starts_twice :
    (processAll (MotionProcessor.NewMotionProcessor () exampleConfig (s4Config 1) false)
        (List.replicate 100 (Env.allOk true, ()))).map
      (fun tr => (allEvents tr).countP Event.isStartRecording) = some 2 ∧
    (processAll (MotionProcessor.NewMotionProcessor () exampleConfig (s4Config 1) false)
        (List.replicate 100 (Env.allOk true, ()))).map
      (fun tr => (allEvents tr).countP Event.isStartRecording) ≠ some 1 := by
  decide

namespace MotionProcessor

variable {α : Type}

/-- On a motion-positive frame with no collaborator failing, the
state-machine fields follow `ctlStep`. -/
theorem internalProcess_ctl {mp : MotionProcessor α} {N : Nat} (hwf : mp.frameLoop.WF N)
    (frame : Nat) :
    ∃ r, mp.internalProcess (Env.allOk true) frame = some r ∧
      r.1.ctl = (ctlStep mp.minFrames mp.maxFrames mp.triggerFrames mp.ctl).1 ∧
      r.2.countP Event.isStartRecording =
        (ctlStep mp.minFrames mp.maxFrames mp.triggerFrames mp.ctl).2.1 ∧
      r.2.filterMap Event.stoppedAt =
        (ctlStep mp.minFrames mp.maxFrames mp.triggerFrames mp.ctl).2.2 := by
  have hcnt : ∀ (fl : FrameLoop α) (ps : List (Option Nat)),
      (ps.map (fun p => (Event.WriteFrame p (p.bind (fun q => fl.frames[q]?)) :
        Event α))).countP Event.isStartRecording = 0 ∧
      (ps.map (fun p => (Event.WriteFrame p (p.bind (fun q => fl.frames[q]?)) :
        Event α))).filterMap Event.stoppedAt = [] := by
    intro fl ps
    induction ps with
    | nil => exact ⟨rfl, rfl⟩
    | cons p ps ih =>
      simp [List.countP_cons, Event.isStartRecording, Event.stoppedAt, ih.1, ih.2]
  by_cases hr : mp.isRecording = true
  · unfold internalProcess detectBranch ctlStep
    simp only [Env.allOk, if_true, hr, Option.map_some', ctl, stopRecording, List.append_nil,
      true_and]
    split
    · refine ⟨_, rfl, rfl, ?_, ?_⟩ <;> cases mp.hasListener <;>
        simp [List.countP_append, List.countP_cons, List.filterMap_append, List.filterMap_cons,
          Event.isStartRecording, Event.stoppedAt]
    · refine ⟨_, rfl, rfl, ?_, ?_⟩ <;> cases mp.hasListener <;>
        simp [List.countP_append, List.countP_cons, List.filterMap_append, List.filterMap_cons,
          Event.isStartRecording, Event.stoppedAt]
  · have hr2 : mp.isRecording = false := by simpa using hr
    by_cases ht : mp.triggered + 1 < mp.triggerFrames
    · unfold internalProcess detectBranch ctlStep
      simp only [Env.allOk, if_true, hr2, Bool.false_eq_true, if_false, ht, Option.map_some',
        ctl, List.append_nil, false_and]
      refine ⟨_, rfl, rfl, ?_, ?_⟩ <;> cases mp.hasListener <;>
        simp [Event.isStartRecording, Event.stoppedAt]
    · have hdec := detectBranch_start hwf (Env.allOk true) hr2 rfl rfl (by omega) rfl rfl
        (fun _ => rfl)
      obtain ⟨c1, c2⟩ := hcnt mp.frameLoop.getFullHistory.2
        (FrameLoop.lastSlots N mp.frameLoop.currentIndex.toNat mp.frameLoop.histLen).dropLast
      generalize (FrameLoop.lastSlots N mp.frameLoop.currentIndex.toNat
        mp.frameLoop.histLen).dropLast = P at hdec c1 c2
      unfold internalProcess ctlStep
      rw [hdec]
      simp only [Env.allOk, if_true, hr2, Bool.false_eq_true, if_false, ht, Option.map_some',
        ctl, stopRecording, List.append_nil, true_and]
      split
      · refine ⟨_, rfl, rfl, ?_, ?_⟩ <;> cases mp.hasListener <;>
          simp [List.countP_append, List.countP_cons, List.filterMap_append,
            List.filterMap_cons, Event.isStartRecording, Event.stoppedAt, c1, c2]
      · refine ⟨_, rfl, rfl, ?_, ?_⟩ <;> cases mp.hasListener <;>
          simp [List.countP_append, List.countP_cons, List.filterMap_append,
            List.filterMap_cons, Event.isStartRecording, Event.stoppedAt, c1, c2]

end MotionProcessor

namespace MotionProcessor

variable {α : Type}

/-- Along a run of motion-positive frames with no collaborator failing, the
`StartRecording` and `StopRecording` calls are those of `ctlRun`. -/
theorem processAll_ctl (frames : List α) :
    ∀ (mp : MotionProcessor α) (N : Nat), mp.frameLoop.WF N →
      ∃ tr, processAll mp (frames.map (fun f => (Env.allOk true, f))) = some tr ∧
        (allEvents tr).countP Event.isStartRecording =
          (ctlRun mp.minFrames mp.maxFrames mp.triggerFrames frames.length mp.ctl).2.1 ∧
        (allEvents tr).filterMap Event.stoppedAt =
          (ctlRun mp.minFrames mp.maxFrames mp.triggerFrames frames.length mp.ctl).2.2 := by
  induction frames with
  | nil =>
    intro mp N _
    exact ⟨[], rfl, rfl, rfl⟩
  | cons f rest ih =>
    intro mp N hwf
    obtain ⟨r, hr, h1, h2, h3⟩ := internalProcess_ctl (WF_writeCurrent hwf f) mp.frameLoop.Current
    obtain ⟨r2, hr2, hf⟩ := ProcessFrame_spec hwf (Env.allOk true) f
    have hrr : mp.ProcessFrame (Env.allOk true) f = some r := hr
    have e : r2 = r := Option.some.inj (hr2.symm.trans hrr)
    subst e
    obtain ⟨tr, htr, g1, g2⟩ := ih r2.1 N hf.wf
    refine ⟨r2 :: tr, ?_, ?_, ?_⟩
    · simp only [List.map_cons]
      unfold processAll
      rw [hrr]
      simp only [Option.some_bind, htr, Option.map_some']
    · have : allEvents (r2 :: tr) = r2.2 ++ allEvents tr := by simp [allEvents]
      rw [this, List.countP_append, h2, g1, hf.minF, hf.maxF, hf.trig, h1]
      rfl
    · have : allEvents (r2 :: tr) = r2.2 ++ allEvents tr := by simp [allEvents]
      rw [this, List.filterMap_append, h3, g2, hf.minF, hf.maxF, hf.trig, h1]
      rfl

end MotionProcessor

theorem ctlStep_triggerFrames_le_one (a b T : Int) (hT : T ≤ 1) (c : Ctl) (hc : 0 ≤ c.triggered) :
    ctlStep a b T c = ctlStep a b 1 c ∧ 0 ≤ (ctlStep a b 1 c).1.triggered := by
  have h1 : ¬ (c.triggered + 1 < T) := by omega
  have h2 : ¬ (c.triggered + 1 < 1) := by omega
  unfold ctlStep
  simp only [h1, h2, if_false]
  refine ⟨trivial, ?_⟩
  split_ifs <;> first | exact le_refl _ | (simp only; omega)

theorem ctlRun_triggerFrames_le_one (a b T : Int) (hT : T ≤ 1) (n : Nat) :
    ∀ c : Ctl, 0 ≤ c.triggered → ctlRun a b T n c = ctlRun a b 1 n c := by
  induction n with
  | zero => intro c _; rfl
  | succ n ih =>
    intro c hc
    obtain ⟨e, hn⟩ := ctlStep_triggerFrames_le_one a b T hT c hc
    simp only [ctlRun]
    rw [e, ih _ hn]

set_option maxRecDepth 1000000 in
/-- The recording state machine of scenario S4 over a hundred motion-positive
frames, for every `TriggerFrames ≤ 11`. -/
theorem ctlRun_s4 (T : Int) (hT : T ≤ 11) :
    (ctlRun 45 90 T 100 Ctl.idle).2 = (if T ≤ 5 then 2 else 1, [90]) := by
  by_cases h1 : T ≤ 1
  · rw [ctlRun_triggerFrames_le_one 45 90 T h1 100 _ (le_refl _), if_pos (by omega)]
    decide
  · have h2 : 2 ≤ T := by omega
    interval_cases T <;> decide

/-- C9, as the code has it.  In scenario S4 (`minFrames = 45`, `maxFrames =
90`, window active, recorder never failing, motion on each of the `10 ×
maxSecs = 100` frames), for every `TriggerFrames ≤ 11` exactly one recording is
completed: `StopRecording` is called exactly once, with `framesWritten =
maxFrames`.  `StartRecording` is called once when `TriggerFrames ≥ 6` and
twice when `TriggerFrames ≤ 5`. -/
theorem one_complete_recording {α : Type} (zero : α) (motionConf : MotionConfig)
    (hT : motionConf.TriggerFrames ≤ 11) (PreviewSecs : Int) (l : Bool) (N : Nat) (hN : 1 ≤ N)
    (hsize : PreviewSecs * FramesHz + motionConf.TriggerFrames = (N : Int)) (frames : List α)
    (hlen : frames.length = 100) :
    (MotionProcessor.NewMotionProcessor zero motionConf (s4Config PreviewSecs) l).minFrames = 45 ∧
    (MotionProcessor.NewMotionProcessor zero motionConf (s4Config PreviewSecs) l).maxFrames = 90 ∧
    ∃ tr, processAll (MotionProcessor.NewMotionProcessor zero motionConf (s4Config PreviewSecs) l)
        (frames.map (fun f => (Env.allOk true, f))) = some tr ∧
      (allEvents tr).filterMap Event.stoppedAt = [90] ∧
      (allEvents tr).countP Event.isStartRecording =
        (if motionConf.TriggerFrames ≤ 5 then 2 else 1) := by
  have hwf := MotionProcessor.WF_NewMotionProcessor zero motionConf (s4Config PreviewSecs) l N hN hsize
  obtain ⟨tr, htr, h1, h2⟩ := MotionProcessor.processAll_ctl frames _ N hwf
  have hrun := ctlRun_s4 motionConf.TriggerFrames hT
  have hmin : (MotionProcessor.NewMotionProcessor zero motionConf (s4Config PreviewSecs) l).minFrames = 45 :=
    rfl
  have hmax : (MotionProcessor.NewMotionProcessor zero motionConf (s4Config PreviewSecs) l).maxFrames = 90 :=
    rfl
  have htf : (MotionProcessor.NewMotionProcessor zero motionConf (s4Config PreviewSecs) l).triggerFrames =
      motionConf.TriggerFrames := rfl
  have hctl : (MotionProcessor.NewMotionProcessor zero motionConf (s4Config PreviewSecs) l).ctl = Ctl.idle :=
    rfl
  rw [hmin, hmax, htf, hctl, hlen] at h1 h2
  refine ⟨hmin, hmax, tr, htr, ?_, ?_⟩
  · rw [h2, hrun]
  · rw [h1, hrun]

theorem one_complete_recording_witness :
    (exampleConfig.TriggerFrames ≤ 11 ∧ 1 ≤ 11 ∧
      (1 : Int) * FramesHz + exampleConfig.TriggerFrames = ((11 : Nat) : Int) ∧
      (List.replicate 100 ()).length = 100) ∧
    ((MotionProcessor.NewMotionProcessor () exampleConfig (s4Config 1) false).minFrames = 45 ∧
    (MotionProcessor.NewMotionProcessor () exampleConfig (s4Config 1) false).maxFrames = 90 ∧
    ∃ tr, processAll (MotionProcessor.NewMotionProcessor () exampleConfig (s4Config 1) false)
        ((List.replicate 100 ()).map (fun f => (Env.allOk true, f))) = some tr ∧
      (allEvents tr).filterMap Event.stoppedAt = [90] ∧
      (allEvents tr).countP Event.isStartRecording =
        (if exampleConfig.TriggerFrames ≤ 5 then 2 else 1)) :=
  ⟨⟨by decide, by decide, by decide, by simp⟩,
    one_complete_recording () exampleConfig (by decide) 1 false 11 (by decide) (by decide)
      (List.replicate 100 ()) (by simp)⟩

theorem idleProcessor_WF :
    (MotionProcessor.NewMotionProcessor () oneFrameConfig (s4Config 1) false).frameLoop.WF 10 :=
  MotionProcessor.WF_NewMotionProcessor () oneFrameConfig (s4Config 1) false 10 (by decide)
    (by decide)

theorem MotionProcessor.start_needs_consecutive_motion_witness :
    (1 ≤ 11 ∧
      (s4Config 1).PreviewSecs * FramesHz + exampleConfig.TriggerFrames = ((11 : Nat) : Int)) ∧
    ∃ tr, processAll (MotionProcessor.NewMotionProcessor () exampleConfig (s4Config 1) false)
        [(Env.allOk true, ()), (Env.allOk true, ())] = some tr ∧
      tr.length = [(Env.allOk true, ()), (Env.allOk true, ())].length ∧
      ∀ k x r, [(Env.allOk true, ()), (Env.allOk true, ())][k]? = some x → tr[k]? = some r →
        ((0 < r.2.countP Event.isStartRecording ∨
            ((stateBefore (MotionProcessor.NewMotionProcessor () exampleConfig (s4Config 1) false) tr
                k).isRecording = false ∧
              r.1.isRecording = true)) →
          exampleConfig.TriggerFrames ≤ (k : Int) + 1 ∧
          ∀ j : Nat, j ≤ k → (k : Int) + 1 - exampleConfig.TriggerFrames ≤ j →
            ∃ y, [(Env.allOk true, ()), (Env.allOk true, ())][j]? = some y ∧ y.1.motion = true) ∧
        (x.1.motion = false → r.1.triggered = 0) :=
  ⟨⟨by decide, by decide⟩,
    MotionProcessor.start_needs_consecutive_motion () exampleConfig (s4Config 1) false 11 (by decide)
      (by decide) [(Env.allOk true, ()), (Env.allOk true, ())]⟩

theorem MotionProcessor.preroll_is_history_witness :
    ((MotionProcessor.NewMotionProcessor () oneFrameConfig (s4Config 1) false).frameLoop.WF 10 ∧
      (MotionProcessor.NewMotionProcessor () oneFrameConfig (s4Config 1) false).isRecording = false ∧
      (Env.allOk true).motion = true ∧ (Env.allOk true).windowActive = true ∧
      (MotionProcessor.NewMotionProcessor () oneFrameConfig (s4Config 1) false).triggerFrames ≤
        (MotionProcessor.NewMotionProcessor () oneFrameConfig (s4Config 1) false).triggered + 1 ∧
      (Env.allOk true).checkCanRecordOk = true ∧ (Env.allOk true).startRecordingOk = true ∧
      (∀ ii, (Env.allOk true).preWriteOk ii = true) ∧ (Env.allOk true).writeOk = true) ∧
    ∃ r hist fl2,
      (MotionProcessor.NewMotionProcessor () oneFrameConfig (s4Config 1) false).ProcessFrame (Env.allOk true) ()
        = some r ∧
      ((MotionProcessor.NewMotionProcessor () oneFrameConfig (s4Config 1) false).writeCurrent ()).frameLoop.GetHistory
        = some (hist, fl2) ∧
      hist = FrameLoop.lastSlots 10
        (MotionProcessor.NewMotionProcessor () oneFrameConfig (s4Config 1) false).frameLoop.Current
        (MotionProcessor.NewMotionProcessor () oneFrameConfig (s4Config 1) false).frameLoop.histLen ∧
      r.2.filterMap Event.written = hist.map (fun p => (p, p.bind (fun q => fl2.frames[q]?))) ∧
      (r.2.filterMap Event.written).length = Nat.min hist.length 10 ∧
      (r.2.filterMap Event.written).getLast? =
        some (some (MotionProcessor.NewMotionProcessor () oneFrameConfig (s4Config 1) false).frameLoop.Current,
          some ()) ∧
      ((r.2.filterMap Event.written).map Prod.fst).countP
        (fun p => decide (p = some
          (MotionProcessor.NewMotionProcessor () oneFrameConfig (s4Config 1) false).frameLoop.Current)) = 1 :=
  ⟨⟨idleProcessor_WF, rfl, rfl, rfl, by decide, rfl, rfl, fun _ => rfl, rfl⟩,
    MotionProcessor.preroll_is_history _ 10 idleProcessor_WF (Env.allOk true) () rfl rfl rfl
      (by decide) rfl rfl (fun _ => rfl) rfl⟩

theorem MotionProcessor.window_gating_witness :
    ((MotionProcessor.NewMotionProcessor () oneFrameConfig (s4Config 1) false).isRecording = false ∧
      Env.windowClosed.windowActive = false ∧
      (MotionProcessor.NewMotionProcessor () oneFrameConfig (s4Config 1) false).frameLoop.WF 10 ∧
      (Env.allOk true).motion = true ∧ (Env.allOk true).windowActive = true ∧
      (MotionProcessor.NewMotionProcessor () oneFrameConfig (s4Config 1) false).triggerFrames ≤
        (MotionProcessor.NewMotionProcessor () oneFrameConfig (s4Config 1) false).triggered + 1 ∧
      (Env.allOk true).checkCanRecordOk = true ∧ (Env.allOk true).startRecordingOk = true ∧
      (∀ ii, (Env.allOk true).preWriteOk ii = true) ∧ (Env.allOk true).writeOk = true) ∧
    ((∃ r, (MotionProcessor.NewMotionProcessor () oneFrameConfig (s4Config 1) false).ProcessFrame
          Env.windowClosed () = some r ∧ r.1.isRecording = false ∧
      ∀ e ∈ r.2, e.isCheckCanRecord = false ∧ e.isStartRecording = false ∧
        e.isWriteFrame = false) ∧
    (∃ m r, ((MotionProcessor.NewMotionProcessor () oneFrameConfig (s4Config 1) false).writeCurrent ()).detectBranch
          (Env.allOk true) = some m ∧ m.1.isRecording = true ∧
      m.1.writeUntil = (MotionProcessor.NewMotionProcessor () oneFrameConfig (s4Config 1) false).minFrames ∧
      (MotionProcessor.NewMotionProcessor () oneFrameConfig (s4Config 1) false).ProcessFrame
          (Env.allOk true) () = some r ∧ r.2.countP Event.isStartRecording = 1 ∧
      ((MotionProcessor.NewMotionProcessor () oneFrameConfig (s4Config 1) false).framesWritten + 1 <
          (MotionProcessor.NewMotionProcessor () oneFrameConfig (s4Config 1) false).minFrames →
        r.1.isRecording = true ∧
        r.1.writeUntil = (MotionProcessor.NewMotionProcessor () oneFrameConfig (s4Config 1) false).minFrames))) :=
  ⟨⟨rfl, rfl, idleProcessor_WF, rfl, rfl, by decide, rfl, rfl, fun _ => rfl, rfl⟩,
    MotionProcessor.window_gating _ Env.windowClosed () rfl rfl _ (Env.allOk true) () 10
      idleProcessor_WF rfl rfl rfl (by decide) rfl rfl (fun _ => rfl) rfl⟩

/-! ### Recorder failures -/

namespace MotionProcessor

variable {α : Type}

theorem writePreTrigger_congr (e1 e2 : Env) (h : e1.preWriteOk = e2.preWriteOk)
    (fl : FrameLoop α) (frames : List (Option Nat)) (ii : Nat) :
    writePreTrigger e1 fl frames ii = writePreTrigger e2 fl frames ii := by
  induction frames generalizing ii with
  | nil => rfl
  | cons p rest ih =>
    unfold writePreTrigger
    rw [h, ih (ii + 1)]

/-- The `if` statement of `internalProcess` reads the verdict, the window and
the answers of `CheckCanRecord`, `StartRecording` and of the pre-trigger
`WriteFrame` calls only. -/
theorem detectBranch_congr (mp : MotionProcessor α) (e1 e2 : Env)
    (h1 : e1.motion = e2.motion) (h2 : e1.windowActive = e2.windowActive)
    (h3 : e1.checkCanRecordOk = e2.checkCanRecordOk)
    (h4 : e1.startRecordingOk = e2.startRecordingOk) (h5 : e1.preWriteOk = e2.preWriteOk) :
    mp.detectBranch e1 = mp.detectBranch e2 := by
  have hw : ∀ (fl : FrameLoop α) (frames : List (Option Nat)) (ii : Nat),
      writePreTrigger e1 fl frames ii = writePreTrigger e2 fl frames ii :=
    writePreTrigger_congr e1 e2 h5
  unfold detectBranch canStartWriting startRecording recordPreTriggerFrames
  simp only [h1, h2, h3, h4, hw]

/-- The events of the `if` statement of `internalProcess` hold no
`StopRecording` call. -/
theorem detectBranch_no_stop (mp : MotionProcessor α) (env : Env)
    (r : MotionProcessor α × List (Event α)) (h : mp.detectBranch env = some r) :
    r.2.filterMap Event.stoppedAt = [] := by
  have hev0 : ∀ b : Bool,
      (if b = true then [(Event.MotionDetected : Event α)] else []).filterMap Event.stoppedAt
        = [] := by
    intro b; cases b <;> rfl
  have hrs : ∀ b : Bool,
      (if b = true then [(Event.RecordingStarted : Event α)] else []).filterMap Event.stoppedAt
        = [] := by
    intro b; cases b <;> rfl
  have hpre : ∀ (fl : FrameLoop α) (frames : List (Option Nat)) (ii : Nat),
      (writePreTrigger env fl frames ii).1.filterMap Event.stoppedAt = [] := by
    intro fl frames
    induction frames with
    | nil => intro ii; rfl
    | cons p rest ih =>
      intro ii
      unfold writePreTrigger
      by_cases hp : env.preWriteOk ii = true
      · simp only [hp, if_true, List.filterMap_cons, ih (ii + 1)]
        rfl
      · simp only [hp, if_false]
        rfl
  have hlog : ∀ (m : MotionProcessor α) (task : String),
      (m.occasionallyWriteError task).2.filterMap Event.stoppedAt = [] := by
    intro m task
    rcases occasionallyWriteError_cases m task with e | e <;> rw [e] <;> rfl
  unfold detectBranch at h
  by_cases hm : env.motion = true
  · simp only [hm, if_true] at h
    by_cases hr : mp.isRecording = true
    · simp only [hr, if_true, Option.some.injEq] at h
      rw [← h]
      exact hev0 _
    · have hr2 : mp.isRecording = false := by simpa using hr
      simp only [hr2, Bool.false_eq_true, if_false] at h
      by_cases ht : mp.triggered + 1 < mp.triggerFrames
      · simp only [ht, if_true, Option.some.injEq] at h
        rw [← h]
        exact hev0 _
      · simp only [ht, if_false] at h
        unfold canStartWriting at h
        by_cases hw : env.windowActive = true
        · simp only [hw, Bool.not_true, Bool.false_eq_true, if_false] at h
          by_cases hc : env.checkCanRecordOk = true
          · simp only [hc, Bool.not_true, Bool.false_eq_true, if_false] at h
            unfold startRecording at h
            by_cases hs : env.startRecordingOk = true
            · simp only [hs, Bool.not_true, Bool.false_eq_true, if_false,
                recordPreTriggerFrames, Option.map_map] at h
              cases hg : mp.frameLoop.GetHistory with
              | none =>
                rw [hg] at h
                exact absurd h (by simp)
              | some g =>
                rw [hg] at h
                simp only [Option.map_some', Function.comp, Option.some.injEq] at h
                rw [← h]
                split
                · simp only [List.filterMap_append, hev0, hrs, hpre, hlog, List.filterMap_cons,
                    Event.stoppedAt, List.filterMap_nil, List.append_nil]
                · simp only [List.filterMap_append, hev0, hrs, hpre, List.filterMap_cons,
                    Event.stoppedAt, List.filterMap_nil, List.append_nil]
            · have hs2 : env.startRecordingOk = false := by simpa using hs
              simp only [hs2, Bool.not_false, if_true, Option.map_some', Option.some.injEq] at h
              rw [← h]
              simp only [List.filterMap_append, hev0, hlog, List.filterMap_cons,
                Event.stoppedAt, List.filterMap_nil, List.append_nil]
          · have hc2 : env.checkCanRecordOk = false := by simpa using hc
            simp only [hc2, Bool.not_false, if_true, Option.some.injEq] at h
            rw [← h]
            simp only [List.filterMap_append, hev0, hlog, List.filterMap_cons,
              Event.stoppedAt, List.filterMap_nil, List.append_nil]
        · have hw2 : env.windowActive = false := by simpa using hw
          simp only [hw2, Bool.not_false, if_true, Option.some.injEq] at h
          rw [← h]
          simp only [List.filterMap_append, hev0, hlog, List.filterMap_nil, List.append_nil]
  · have hm2 : env.motion = false := by simpa using hm
    simp only [hm2, Bool.false_eq_true, if_false, Option.some.injEq] at h
    rw [← h]
    rfl

end MotionProcessor

namespace MotionProcessor

variable {α : Type}

/-- The state `internalProcess` leaves does not depend on the answer of
`StopRecording`, and a call that reaches `stopRecording` leaves its state. -/
theorem internalProcess_stop (mp : MotionProcessor α) (env : Env) (frame : Nat) :
    (mp.internalProcess { env with stopRecordingOk := false } frame).map Prod.fst =
      (mp.internalProcess { env with stopRecordingOk := true } frame).map Prod.fst ∧
    ∀ r, mp.internalProcess env frame = some r → r.2.filterMap Event.stoppedAt ≠ [] →
      r.1.isRecording = false ∧ r.1.framesWritten = 0 ∧ r.1.writeUntil = 0 ∧
        r.1.triggered = 0 ∧ r.1.frameLoop.oldest = r.1.frameLoop.currentIndex := by
  constructor
  · unfold internalProcess
    rw [detectBranch_congr mp { env with stopRecordingOk := false }
      { env with stopRecordingOk := true } rfl rfl rfl rfl rfl]
    cases mp.detectBranch { env with stopRecordingOk := true } with
    | none => rfl
    | some r0 =>
      simp only [Option.map_some', Option.some.injEq]
      by_cases hr : r0.1.isRecording = true
      · simp only [hr, if_true]
        split <;> rfl
      · have hr2 : r0.1.isRecording = false := by simpa using hr
        simp [hr2]
  · intro r h hs
    unfold internalProcess at h
    cases hd : mp.detectBranch env with
    | none => rw [hd] at h; exact absurd h (by simp)
    | some r0 =>
      have hns := detectBranch_no_stop mp env r0 hd
      rw [hd] at h
      simp only [Option.map_some', Option.some.injEq] at h
      by_cases hr : r0.1.isRecording = true
      · simp only [hr, if_true, true_and] at h
        split at h
        · rw [← h]
          simp [stopRecording, FrameLoop.SetAsOldest]
        · exfalso
          apply hs
          rw [← h]
          simp only [List.filterMap_append, hns, List.nil_append]
          cases env.writeOk <;> rfl
      · have hr2 : r0.1.isRecording = false := by simpa using hr
        simp only [hr2, Bool.false_eq_true, if_false, false_and] at h
        exfalso
        apply hs
        rw [← h]
        simp only [List.filterMap_append, hns, List.nil_append]
        rfl

end MotionProcessor

/-- C11.  `stopRecording` leaves the processor idle whatever the recorder
answers: `isRecording = false`, `framesWritten = 0`, `writeUntil = 0`,
`triggered = 0`, and the current slot of the frame loop is pinned as oldest;
the state after a failing `StopRecording` is the state after a succeeding one,
for `stopRecording` and for the `internalProcess` call around it; and an
`internalProcess` call that calls `StopRecording` returns in that state. -/
theorem stopRecording_idle {α : Type} (mp : MotionProcessor α) (env : Env) (frame : Nat)
    (hs : ((mp.internalProcess env frame).map
      (fun r => r.2.filterMap Event.stoppedAt)).getD [] ≠ []) :
    ((mp.stopRecording env).1.isRecording = false ∧
      (mp.stopRecording env).1.framesWritten = 0 ∧
      (mp.stopRecording env).1.writeUntil = 0 ∧
      (mp.stopRecording env).1.triggered = 0 ∧
      (mp.stopRecording env).1.frameLoop.oldest = mp.frameLoop.currentIndex ∧
      (mp.stopRecording env).1.frameLoop.currentIndex = mp.frameLoop.currentIndex) ∧
    (mp.stopRecording { env with stopRecordingOk := false }).1 =
      (mp.stopRecording { env with stopRecordingOk := true }).1 ∧
    (mp.internalProcess { env with stopRecordingOk := false } frame).map Prod.fst =
      (mp.internalProcess { env with stopRecordingOk := true } frame).map Prod.fst ∧
    ∃ r, mp.internalProcess env frame = some r ∧
      r.1.isRecording = false ∧ r.1.framesWritten = 0 ∧ r.1.writeUntil = 0 ∧
      r.1.triggered = 0 ∧ r.1.frameLoop.oldest = r.1.frameLoop.currentIndex := by
  refine ⟨⟨rfl, rfl, rfl, rfl, rfl, rfl⟩, rfl,
    (MotionProcessor.internalProcess_stop mp env frame).1, ?_⟩
  cases h : mp.internalProcess env frame with
  | none => rw [h] at hs; exact absurd rfl hs
  | some r =>
    rw [h] at hs
    exact ⟨r, rfl, (MotionProcessor.internalProcess_stop mp env frame).2 r h hs⟩

/-- C11 at a concrete input: the first frame of a recording of minimum length
zero, with `StopRecording` failing. -/
theorem stopRecording_idle_witness :
    (((MotionProcessor.NewMotionProcessor () oneFrameConfig shortConfig false).internalProcess
        Env.stopFails 0).map (fun r => r.2.filterMap Event.stoppedAt)).getD [] ≠ [] ∧
    ∃ r, (MotionProcessor.NewMotionProcessor () oneFrameConfig shortConfig false).internalProcess
        Env.stopFails 0 = some r ∧
      r.1.isRecording = false ∧ r.1.framesWritten = 0 ∧ r.1.writeUntil = 0 ∧
      r.1.triggered = 0 ∧ r.1.frameLoop.oldest = r.1.frameLoop.currentIndex :=
  ⟨by decide,
    (stopRecording_idle (MotionProcessor.NewMotionProcessor () oneFrameConfig shortConfig false)
      Env.stopFails 0 (by decide)).2.2.2⟩

/-- C12.  With `StartRecording`, `StopRecording` and `CheckCanRecord`
succeeding, a `WriteFrame` error on a pre-trigger frame of the second frame
ends the recording on that frame (`StopRecording` with `framesWritten = 1`) and
leaves the processor idle, where it is recording with `framesWritten = 1` and
`writeUntil = 45` when every `WriteFrame` succeeds. -/
theorem preroll_write_failure_ends_recording :
    (processAll (MotionProcessor.NewMotionProcessor () exampleConfig (s4Config 1) false)
        [(Env.allOk true, ()), (Env.preWriteFails, ())]).map
      (List.map (fun r => (r.1.ctl, r.2.filterMap Event.stoppedAt))) =
      some [(⟨false, 0, 0, 1⟩, []), (Ctl.idle, [1])] ∧
    (processAll (MotionProcessor.NewMotionProcessor () exampleConfig (s4Config 1) false)
        [(Env.allOk true, ()), (Env.allOk true, ())]).map
      (List.map (fun r => (r.1.ctl, r.2.filterMap Event.stoppedAt))) =
      some [(⟨false, 0, 0, 1⟩, []), (⟨true, 1, 45, 2⟩, [])] := by
  decide

namespace MotionProcessor

variable {α : Type}

/-- The answer of the `WriteFrame` call that writes the current frame changes
neither the state `ProcessFrame` leaves nor its `StopRecording` calls. -/
theorem ProcessFrame_writeOk (mp : MotionProcessor α) (env : Env) (b : Bool) (srcFrame : α) :
    (mp.ProcessFrame { env with writeOk := b } srcFrame).map
        (fun r => (r.1, r.2.filterMap Event.stoppedAt)) =
      (mp.ProcessFrame env srcFrame).map (fun r => (r.1, r.2.filterMap Event.stoppedAt)) := by
  unfold ProcessFrame internalProcess
  rw [detectBranch_congr (mp.writeCurrent srcFrame) { env with writeOk := b } env
    rfl rfl rfl rfl rfl]
  cases (mp.writeCurrent srcFrame).detectBranch env with
  | none => rfl
  | some r0 =>
    simp only [Option.map_some', Option.some.injEq]
    by_cases hr : r0.1.isRecording = true
    · simp only [hr, if_true]
      split
      · cases b <;> cases env.writeOk <;>
          simp [stopRecording, List.filterMap_append, Event.stoppedAt]
      · cases b <;> cases env.writeOk <;>
          simp [List.filterMap_append, Event.stoppedAt]
    · have hr2 : r0.1.isRecording = false := by simpa using hr
      simp [hr2]

end MotionProcessor

/-- The answers of the `WriteFrame` calls that write the current frame change
nothing: for every processor, every frame sequence with the collaborators'
other answers, and every pattern `w` of errors of these calls, the processor
after each call and the `StopRecording` calls of each call are those of the
run in which each of these `WriteFrame` calls succeeds. -/
theorem current_write_failure_changes_nothing {α : Type} (mp : MotionProcessor α)
    (inputs : List (Env × α)) (w : Nat → Bool) :
    (processAll mp (setWriteOk w 0 inputs)).map statesAndStops =
      (processAll mp (setWriteOk (fun _ => true) 0 inputs)).map statesAndStops := by
  have key : ∀ (inputs : List (Env × α)) (mp : MotionProcessor α) (w1 w2 : Nat → Bool) (k : Nat),
      (processAll mp (setWriteOk w1 k inputs)).map statesAndStops =
        (processAll mp (setWriteOk w2 k inputs)).map statesAndStops := by
    intro inputs
    induction inputs with
    | nil => intro mp w1 w2 k; rfl
    | cons x rest ih =>
      intro mp w1 w2 k
      have h1 := MotionProcessor.ProcessFrame_writeOk mp x.1 (w1 k) x.2
      have h2 := MotionProcessor.ProcessFrame_writeOk mp x.1 (w2 k) x.2
      simp only [setWriteOk, processAll]
      cases ha : mp.ProcessFrame { x.1 with writeOk := w1 k } x.2 with
      | none =>
        rw [ha] at h1
        cases hb : mp.ProcessFrame { x.1 with writeOk := w2 k } x.2 with
        | none => rfl
        | some rb =>
          rw [hb] at h2
          rw [← h1] at h2
          exact absurd h2 (by simp)
      | some ra =>
        rw [ha] at h1
        cases hb : mp.ProcessFrame { x.1 with writeOk := w2 k } x.2 with
        | none =>
          rw [hb] at h2
          rw [← h2] at h1
          exact absurd h1 (by simp)
        | some rb =>
          rw [hb] at h2
          rw [← h2] at h1
          simp only [Option.map_some', Option.some.injEq, Prod.mk.injEq] at h1
          have hih := ih ra.1 w1 w2 (k + 1)
          rw [h1.1] at hih
          simp only [Option.some_bind, Option.map_map]
          rw [h1.1]
          cases hp : processAll rb.1 (setWriteOk w1 (k + 1) rest) with
          | none =>
            rw [hp] at hih
            cases hq : processAll rb.1 (setWriteOk w2 (k + 1) rest) with
            | none => rfl
            | some tq => rw [hq] at hih; exact absurd hih (by simp)
          | some tp =>
            rw [hp] at hih
            cases hq : processAll rb.1 (setWriteOk w2 (k + 1) rest) with
            | none => rw [hq] at hih; exact absurd hih (by simp)
            | some tq =>
              rw [hq] at hih
              simp only [Option.map_some', Option.some.injEq] at hih
              simp only [Option.map_some', Function.comp, statesAndStops, List.map_cons,
                Option.some.injEq, List.cons.injEq, Prod.mk.injEq]
              exact ⟨⟨h1.1, h1.2⟩, hih⟩
  exact key inputs mp w _ 0

/-! ### The pixel loops -/

theorem Store.assign_apply {rows cols : Nat} (m : Store rows cols) (out : Nat) (y : Fin rows)
    (x : Fin cols) (v : Nat) (p : Nat) (y1 : Fin rows) (x1 : Fin cols) :
    m.assign out y x v p y1 x1 = if p = out ∧ y1 = y ∧ x1 = x then v else m p y1 x1 := by
  unfold Store.assign
  by_cases hp : p = out
  · subst hp
    rw [Function.update_same]
    by_cases hy : y1 = y
    · subst hy
      rw [Function.update_same]
      by_cases hx : x1 = x
      · subst hx
        simp
      · rw [Function.update_noteq hx]
        simp [hx]
    · rw [Function.update_noteq hy]
      simp [hy]
  · rw [Function.update_noteq hp]
    simp [hp]

/-- One row of a pixel loop that assigns `g m y x` to `out[y][x]`, where `g`
reads pixel `(y, x)` only: the columns of `xs` hold the values computed from
the store before the loop, everything else is untouched. -/
theorem foldl_assign_row {rows cols : Nat} (g : Store rows cols → Fin rows → Fin cols → Nat)
    (hg : ∀ (m1 m2 : Store rows cols) (y : Fin rows) (x : Fin cols),
      (∀ p, m1 p y x = m2 p y x) → g m1 y x = g m2 y x)
    (out : Nat) (y : Fin rows) (xs : List (Fin cols)) (hxs : xs.Nodup) (m : Store rows cols)
    (p : Nat) (y1 : Fin rows) (x1 : Fin cols) :
    (xs.foldl (fun m x => m.assign out y x (g m y x)) m) p y1 x1 =
      if p = out ∧ y1 = y ∧ x1 ∈ xs then g m y x1 else m p y1 x1 := by
  induction xs generalizing m with
  | nil => simp
  | cons x rest ih =>
    rw [List.foldl_cons, ih (List.nodup_cons.mp hxs).2]
    have hx : x ∉ rest := (List.nodup_cons.mp hxs).1
    by_cases h1 : p = out ∧ y1 = y ∧ x1 ∈ rest
    · have hne : x1 ≠ x := fun e => hx (e ▸ h1.2.2)
      rw [if_pos h1, if_pos ⟨h1.1, h1.2.1, List.mem_cons_of_mem _ h1.2.2⟩]
      apply hg
      intro q
      rw [Store.assign_apply, if_neg (fun h => hne h.2.2)]
    · rw [if_neg h1, Store.assign_apply]
      by_cases h2 : p = out ∧ y1 = y ∧ x1 = x
      · rw [if_pos h2, if_pos ⟨h2.1, h2.2.1, by rw [h2.2.2]; exact List.mem_cons_self _ _⟩,
          h2.2.2]
      · rw [if_neg h2, if_neg]
        rintro ⟨hp, hy, hmem⟩
        rcases List.mem_cons.mp hmem with e | e
        · exact h2 ⟨hp, hy, e⟩
        · exact h1 ⟨hp, hy, e⟩

/-- The two loops of a pixel loop that assigns `g m y x` to `out[y][x]`, where
`g` reads pixel `(y, x)` only: the rows of `ys` hold the values computed from
the store before the loops, everything else is untouched. -/
theorem foldl_assign_rows {rows cols : Nat} (g : Store rows cols → Fin rows → Fin cols → Nat)
    (hg : ∀ (m1 m2 : Store rows cols) (y : Fin rows) (x : Fin cols),
      (∀ p, m1 p y x = m2 p y x) → g m1 y x = g m2 y x)
    (out : Nat) (ys : List (Fin rows)) (hys : ys.Nodup) (m : Store rows cols)
    (p : Nat) (y1 : Fin rows) (x1 : Fin cols) :
    (ys.foldl (fun m y => (List.finRange cols).foldl
        (fun m x => m.assign out y x (g m y x)) m) m) p y1 x1 =
      if p = out ∧ y1 ∈ ys then g m y1 x1 else m p y1 x1 := by
  induction ys generalizing m with
  | nil => simp
  | cons y rest ih =>
    rw [List.foldl_cons, ih (List.nodup_cons.mp hys).2]
    have hy : y ∉ rest := (List.nodup_cons.mp hys).1
    have hrow := foldl_assign_row g hg out y (List.finRange cols) (List.nodup_finRange cols) m
    by_cases h1 : p = out ∧ y1 ∈ rest
    · have hne : y1 ≠ y := fun e => hy (e ▸ h1.2)
      rw [if_pos h1, if_pos ⟨h1.1, List.mem_cons_of_mem _ h1.2⟩]
      apply hg
      intro q
      rw [hrow, if_neg (fun h => hne h.2.1)]
    · rw [if_neg h1, hrow]
      by_cases h2 : p = out ∧ y1 = y
      · rw [if_pos ⟨h2.1, h2.2, List.mem_finRange _⟩,
          if_pos ⟨h2.1, by rw [h2.2]; exact List.mem_cons_self _ _⟩, h2.2]
      · rw [if_neg (fun h => h2 ⟨h.1, h.2.1⟩), if_neg]
        rintro ⟨hp, hmem⟩
        rcases List.mem_cons.mp hmem with e | e
        · exact h2 ⟨hp, e⟩
        · exact h1 ⟨hp, e⟩

/-- A pixel loop over the whole frame. -/
theorem foldl_assign_frame {rows cols : Nat} (g : Store rows cols → Fin rows → Fin cols → Nat)
    (hg : ∀ (m1 m2 : Store rows cols) (y : Fin rows) (x : Fin cols),
      (∀ p, m1 p y x = m2 p y x) → g m1 y x = g m2 y x)
    (out : Nat) (m : Store rows cols) (p : Nat) :
    ((List.finRange rows).foldl (fun m y => (List.finRange cols).foldl
        (fun m x => m.assign out y x (g m y x)) m) m) p =
      if p = out then g m else m p := by
  funext y1 x1
  rw [foldl_assign_rows g hg out _ (List.nodup_finRange rows)]
  by_cases hp : p = out
  · rw [if_pos ⟨hp, List.mem_finRange _⟩, if_pos hp]
  · rw [if_neg (fun h => hp h.1), if_neg hp]

theorem absDiffFramesLoop_eq {rows cols : Nat} (m : Store rows cols) (a b out p : Nat) :
    absDiffFramesLoop m a b out p = if p = out then absDiffFrames (m a) (m b) else m p := by
  unfold absDiffFramesLoop
  rw [foldl_assign_frame (fun m y x => absDiff (m a y x) (m b y x))
    (fun m1 m2 y x h => by simp only [h]) out m p]
  rfl

theorem warmerDiffFramesLoop_eq {rows cols : Nat} (m : Store rows cols) (a b out p : Nat) :
    warmerDiffFramesLoop m a b out p =
      if p = out then warmerDiffFrames (m a) (m b) else m p := by
  unfold warmerDiffFramesLoop
  rw [foldl_assign_frame (fun m y x => warmerDiff (m a y x) (m b y x))
    (fun m1 m2 y x h => by simp only [h]) out m p]
  rfl

theorem motionDetector.setFloorLoop_eq {rows cols : Nat} (d : motionDetector rows cols)
    (m : Store rows cols) (f out p : Nat) :
    d.setFloorLoop m f out p = if p = out then d.setFloor (m f) else m p := by
  have hbody : ∀ (y : Fin rows),
      (fun (m : Store rows cols) (x : Fin cols) =>
        let v := m f y x
        if v < d.tempThresh then m.assign out y x d.tempThresh else m.assign out y x v) =
      (fun (m : Store rows cols) (x : Fin cols) => m.assign out y x
        ((fun (m : Store rows cols) (y : Fin rows) (x : Fin cols) =>
          if m f y x < d.tempThresh then d.tempThresh else m f y x) m y x)) := by
    intro y
    funext m x
    dsimp only
    split <;> rfl
  unfold motionDetector.setFloorLoop
  simp only [hbody]
  rw [foldl_assign_frame
    (fun (m : Store rows cols) (y : Fin rows) (x : Fin cols) =>
      if m f y x < d.tempThresh then d.tempThresh else m f y x)
    (fun m1 m2 y x h => by simp only [h]) out m p]
  rfl

theorem absDiff_int (a b : Nat) (ha : a < 65536) (hb : b < 65536) :
    ((absDiff a b : Nat) : Int) = |(a : Int) - (b : Int)| ∧ absDiff a b < 65536 := by
  unfold absDiff
  by_cases h : (a : Int) - (b : Int) < 0
  · simp only [h, if_true]
    rw [abs_of_neg h, Int.emod_eq_of_lt (by omega) (by omega)]
    constructor <;> omega
  · simp only [h, if_false]
    rw [abs_of_nonneg (by omega), Int.emod_eq_of_lt (by omega) (by omega)]
    constructor <;> omega

theorem warmerDiff_int (a b : Nat) (ha : a < 65536) (hb : b < 65536) :
    ((warmerDiff a b : Nat) : Int) = max 0 ((a : Int) - (b : Int)) ∧ warmerDiff a b < 65536 := by
  unfold warmerDiff
  by_cases h : (a : Int) - (b : Int) < 0
  · simp only [h, if_true]
    rw [max_eq_left (by omega)]
    constructor
    · rfl
    · omega
  · simp only [h, if_false]
    rw [max_eq_right (by omega), Int.emod_eq_of_lt (by omega) (by omega)]
    constructor <;> omega

/-- C15.  For 16-bit values `a` and `b`, `warmerDiff a b = max 0 (a - b)` and
`absDiff a b = |a - b|` over the integers, both results below `2 ^ 16`; and in
a store of 16-bit frames the loops of `warmerDiffFrames` and `absDiffFrames`
leave these values at every pixel of the frame behind `out` (the frame the
detector's `diffFrame` holds) and touch no other frame.  3500 against 4000
gives 0 warmer-only and 500 in absolute mode. -/
theorem diffFrames_spec {rows cols : Nat} (a b : Nat) (ha : a < 65536) (hb : b < 65536)
    (m : Store rows cols) (hm : ∀ p y x, m p y x < 65536) (pa pb out : Nat) :
    (((warmerDiff a b : Nat) : Int) = max 0 ((a : Int) - (b : Int)) ∧ warmerDiff a b < 65536) ∧
    (((absDiff a b : Nat) : Int) = |(a : Int) - (b : Int)| ∧ absDiff a b < 65536) ∧
    (∀ y x, ((warmerDiffFramesLoop m pa pb out out y x : Nat) : Int) =
        max 0 ((m pa y x : Int) - (m pb y x : Int)) ∧
      warmerDiffFramesLoop m pa pb out out y x < 65536) ∧
    (∀ y x, ((absDiffFramesLoop m pa pb out out y x : Nat) : Int) =
        |(m pa y x : Int) - (m pb y x : Int)| ∧
      absDiffFramesLoop m pa pb out out y x < 65536) ∧
    (∀ p, p ≠ out → warmerDiffFramesLoop m pa pb out p = m p ∧
      absDiffFramesLoop m pa pb out p = m p) ∧
    warmerDiffFramesLoop m pa pb out out = warmerDiffFrames (m pa) (m pb) ∧
    absDiffFramesLoop m pa pb out out = absDiffFrames (m pa) (m pb) ∧
    warmerDiff 3500 4000 = 0 ∧ absDiff 3500 4000 = 500 := by
  refine ⟨warmerDiff_int a b ha hb, absDiff_int a b ha hb, ?_, ?_, ?_, ?_, ?_, by decide,
    by decide⟩
  · intro y x
    rw [warmerDiffFramesLoop_eq, if_pos rfl]
    exact warmerDiff_int _ _ (hm pa y x) (hm pb y x)
  · intro y x
    rw [absDiffFramesLoop_eq, if_pos rfl]
    exact absDiff_int _ _ (hm pa y x) (hm pb y x)
  · intro p hp
    rw [warmerDiffFramesLoop_eq, absDiffFramesLoop_eq, if_neg hp, if_neg hp]
    exact ⟨rfl, rfl⟩
  · rw [warmerDiffFramesLoop_eq, if_pos rfl]
  · rw [absDiffFramesLoop_eq, if_pos rfl]

/-- C15 at a concrete input: the frame 3500 against the frame 4000, written
to a third frame. -/
theorem diffFrames_spec_witness :
    (3500 < 65536 ∧ 4000 < 65536 ∧ ∀ p y x, coolerStore p y x < 65536) ∧
    (∀ y x, ((warmerDiffFramesLoop coolerStore 0 1 2 2 y x : Nat) : Int) =
        max 0 ((coolerStore 0 y x : Int) - (coolerStore 1 y x : Int)) ∧
      warmerDiffFramesLoop coolerStore 0 1 2 2 y x < 65536) ∧
    (∀ y x, ((absDiffFramesLoop coolerStore 0 1 2 2 y x : Nat) : Int) =
        |(coolerStore 0 y x : Int) - (coolerStore 1 y x : Int)| ∧
      absDiffFramesLoop coolerStore 0 1 2 2 y x < 65536) :=
  ⟨⟨by decide, by decide, fun p _ _ => by unfold coolerStore; split <;> decide⟩,
    (diffFrames_spec 3500 4000 (by decide) (by decide) coolerStore
      (fun p _ _ => by unfold coolerStore; split <;> decide) 0 1 2).2.2.1,
    (diffFrames_spec 3500 4000 (by decide) (by decide) coolerStore
      (fun p _ _ => by unfold coolerStore; split <;> decide) 0 1 2).2.2.2.1⟩

/-- C16.  The loops of `setFloor` leave `max (f[y][x]) tempThresh` at every
pixel of the frame behind `out`: `tempThresh` where the input pixel is below
it, the input pixel elsewhere, so every floored pixel is at least `tempThresh`
and flooring the floored frame again changes nothing; the result is the frame
the detector stores, and with `out` another frame than `f` the input frame and
every other frame are as before. -/
theorem setFloor_spec {rows cols : Nat} (d : motionDetector rows cols) (m : Store rows cols)
    (f out : Nat) (hne : f ≠ out) :
    (∀ y x, d.setFloorLoop m f out out y x = max (m f y x) d.tempThresh) ∧
    (∀ y x, m f y x < d.tempThresh → d.setFloorLoop m f out out y x = d.tempThresh) ∧
    (∀ y x, d.tempThresh ≤ m f y x → d.setFloorLoop m f out out y x = m f y x) ∧
    (∀ y x, d.tempThresh ≤ d.setFloorLoop m f out out y x) ∧
    d.setFloorLoop (d.setFloorLoop m f out) out out = d.setFloorLoop m f out ∧
    d.setFloorLoop m f out f = m f ∧
    (∀ p, p ≠ out → d.setFloorLoop m f out p = m p) ∧
    d.setFloorLoop m f out out = d.setFloor (m f) := by
  have hval : ∀ y x, d.setFloorLoop m f out out y x = max (m f y x) d.tempThresh := by
    intro y x
    rw [motionDetector.setFloorLoop_eq, if_pos rfl]
    unfold motionDetector.setFloor
    dsimp only
    split
    · rw [max_eq_right (by omega)]
    · rw [max_eq_left (by omega)]
  refine ⟨hval, ?_, ?_, ?_, ?_, ?_, ?_, ?_⟩
  · intro y x h
    rw [hval, max_eq_right (by omega)]
  · intro y x h
    rw [hval, max_eq_left h]
  · intro y x
    rw [hval]
    exact le_max_right _ _
  · funext p
    rw [motionDetector.setFloorLoop_eq]
    by_cases hp : p = out
    · rw [if_pos hp, hp]
      funext y x
      unfold motionDetector.setFloor
      dsimp only
      rw [hval, if_neg]
      have := le_max_right (m f y x) d.tempThresh
      omega
    · rw [if_neg hp]
  · rw [motionDetector.setFloorLoop_eq, if_neg hne]
  · intro p hp
    rw [motionDetector.setFloorLoop_eq, if_neg hp]
  · rw [motionDetector.setFloorLoop_eq, if_pos rfl]

/-- C16 at a concrete input: the frame 3500 floored at 10 into another
frame. -/
theorem setFloor_spec_witness :
    (0 : Nat) ≠ 2 ∧
    (∀ y x, (NewMotionDetector 1 1 exampleConfig).setFloorLoop coolerStore 0 2 2 y x =
      max (coolerStore 0 y x) (NewMotionDetector 1 1 exampleConfig).tempThresh) ∧
    (NewMotionDetector 1 1 exampleConfig).setFloorLoop coolerStore 0 2 0 = coolerStore 0 :=
  ⟨by decide,
    (setFloor_spec (NewMotionDetector 1 1 exampleConfig) coolerStore 0 2 (by decide)).1,
    (setFloor_spec (NewMotionDetector 1 1 exampleConfig) coolerStore 0 2
      (by decide)).2.2.2.2.2.1⟩

/-! ### The pin of `SetAsOldest` under writes and moves -/

namespace FrameLoop

variable {α : Type}

theorem steps_append (fl : FrameLoop α) (ws : List α) (w : α) :
    fl.steps (ws ++ [w]) = (fl.steps ws).writeMove w := by
  unfold steps
  rw [List.foldl_append]
  rfl

/-- The loop after a pin of the current slot `c` and `ws.length` steps: the
current slot has advanced with the steps, the pin stands for fewer than `N`
steps and is cleared from then on, and the slots of the last `N` steps hold
the frames written by them. -/
theorem steps_after_pin {s : FrameLoop α} {N : Nat} (hs : s.WF N) (ws : List α) :
    (s.SetAsOldest.steps ws).WF N ∧
    (s.SetAsOldest.steps ws).currentIndex = (((s.currentIndex.toNat + ws.length) % N : Nat) : Int) ∧
    (ws.length < N → (s.SetAsOldest.steps ws).oldest = s.currentIndex) ∧
    (N ≤ ws.length → (s.SetAsOldest.steps ws).oldest = -1) ∧
    (ws = [] → (s.SetAsOldest.steps ws).frames = s.frames) ∧
    (∀ i, i < ws.length → ws.length ≤ i + N →
      (s.SetAsOldest.steps ws).frames[(s.currentIndex.toNat + i) % N]? = ws[i]?) := by
  have h0 := hs.cur_nonneg
  have h1 := hs.cur_lt
  have hpos := hs.pos
  obtain ⟨c, hc⟩ := Int.eq_ofNat_of_zero_le h0
  have hcN : c < N := by omega
  have hct : s.currentIndex.toNat = c := by omega
  rw [hct]
  induction ws using List.reverseRecOn with
  | nil =>
    refine ⟨WF_SetAsOldest hs, ?_, fun _ => rfl, fun h => ?_, fun _ => rfl, fun i hi => ?_⟩
    · show s.currentIndex = _
      rw [hc, List.length_nil, Nat.add_zero, Nat.mod_eq_of_lt hcN]
    · simp at h; omega
    · simp at hi
  | append_singleton ws w ih =>
    obtain ⟨hwf, hcur, hpin, hclr, _, hfr⟩ := ih
    rw [steps_append]
    set fl := s.SetAsOldest.steps ws with hfl
    have hwfw : ({ fl with frames := fl.frames.set fl.Current w } : FrameLoop α).WF N :=
      WF_write hwf _ _
    have hcurN : fl.Current = (c + ws.length) % N := by
      unfold Current
      rw [hcur]
      rfl
    have hlen : fl.frames.length = N := hwf.frames_len
    have hmlt : (c + ws.length) % N < N := Nat.mod_lt _ hpos
    have hcur2 : (fl.writeMove w).currentIndex = (((c + (ws.length + 1)) % N : Nat) : Int) := by
      unfold writeMove
      rw [← Nat.add_assoc]
      exact Move_currentIndex_mod hwfw hcur
    have hold : (fl.writeMove w).oldest =
        if (((c + (ws.length + 1)) % N : Nat) : Int) = fl.oldest then -1 else fl.oldest := by
      have := Move_oldest hwfw
      unfold writeMove
      rw [this]
      have e : (Move { fl with frames := fl.frames.set fl.Current w }).currentIndex =
          (((c + (ws.length + 1)) % N : Nat) : Int) := hcur2
      rw [e]
    have hframes : (fl.writeMove w).frames = fl.frames.set ((c + ws.length) % N) w := by
      unfold writeMove
      rw [Move_frames hwfw, hcurN]
    simp only [List.length_append, List.length_singleton]
    refine ⟨WF_Move hwfw, hcur2, ?_, ?_, ?_, ?_⟩
    · intro hlt
      rw [hold, hpin (by omega), hc]
      have hne : (c + (ws.length + 1)) % N ≠ c := by
        have := mod_ne_of_lt (show c < c + (ws.length + 1) by omega)
          (show c + (ws.length + 1) < c + N by omega)
        rw [Nat.mod_eq_of_lt hcN] at this
        exact fun e => this e.symm
      rw [if_neg (by omega)]
    · intro hge
      rw [hold]
      by_cases hlt : ws.length < N
      · have hl : ws.length + 1 = N := by omega
        rw [hpin hlt, hc, hl, Nat.add_mod_right, Nat.mod_eq_of_lt hcN, if_pos rfl]
      · rw [hclr (by omega)]
        split <;> rfl
    · intro h
      simp at h
    · intro i hi hiN
      rw [hframes]
      by_cases hil : i = ws.length
      · subst hil
        rw [List.getElem?_set_self (by rw [hlen]; exact hmlt)]
        simp
      · have hi2 : i < ws.length := by omega
        have hne : (c + ws.length) % N ≠ (c + i) % N := by
          have := mod_ne_of_lt (show c + i < c + ws.length by omega)
            (show c + ws.length < c + i + N by omega)
          exact fun e => this e.symm
        rw [List.getElem?_set_ne hne, hfr i hi2 (by omega), List.getElem?_append_left hi2]

end FrameLoop

/-- C17.  A loop of capacity `N` is pinned by `SetAsOldest` at its current
slot and then runs `ws.length` steps, each writing a frame of `ws` to the
current slot and calling `Move`.  For fewer than `N` steps the pin stands and
`Oldest` returns the pinned slot, which holds the frame it held at the pin
before the first step and the first frame written after the pin from then on;
from `N` steps on the pin is cleared and `Oldest` returns a slot holding a
frame of `ws`, written after the pin.  So `Oldest` never returns a frame
written before the pinned one. -/
theorem Oldest_after_pin {α : Type} (s : FrameLoop α) (N : Nat) (hs : s.WF N) (ws : List α) :
    (ws.length < N →
      (s.SetAsOldest.steps ws).oldest = s.currentIndex ∧
      (s.SetAsOldest.steps ws).Oldest = s.Current ∧
      (s.SetAsOldest.steps ws).frames[(s.SetAsOldest.steps ws).Oldest]? =
        (if ws.length = 0 then s.frames[s.Current]? else ws[0]?)) ∧
    (N ≤ ws.length →
      (s.SetAsOldest.steps ws).oldest = NO_OLDEST_SET ∧
      (if N = 1 then ws.length - 1 else ws.length + 1 - N) < ws.length ∧
      (s.SetAsOldest.steps ws).frames[(s.SetAsOldest.steps ws).Oldest]? =
        ws[if N = 1 then ws.length - 1 else ws.length + 1 - N]?) ∧
    ((s.SetAsOldest.steps ws).frames[(s.SetAsOldest.steps ws).Oldest]? = s.frames[s.Current]? ∨
      ∃ i, i < ws.length ∧
        (s.SetAsOldest.steps ws).frames[(s.SetAsOldest.steps ws).Oldest]? = ws[i]?) := by
  obtain ⟨hwf, hcur, hpin, hclr, hnil, hfr⟩ := FrameLoop.steps_after_pin hs ws
  have h0 := hs.cur_nonneg
  have h1 := hs.cur_lt
  have hpos := hs.pos
  obtain ⟨c, hc⟩ := Int.eq_ofNat_of_zero_le h0
  have hcN : c < N := by omega
  have hct : s.currentIndex.toNat = c := by omega
  rw [hct] at hcur hfr
  have hA : ws.length < N →
      (s.SetAsOldest.steps ws).oldest = s.currentIndex ∧
      (s.SetAsOldest.steps ws).Oldest = s.Current ∧
      (s.SetAsOldest.steps ws).frames[(s.SetAsOldest.steps ws).Oldest]? =
        (if ws.length = 0 then s.frames[s.Current]? else ws[0]?) := by
    intro hlt
    have ho := hpin hlt
    have hO : (s.SetAsOldest.steps ws).Oldest = s.Current := by
      unfold FrameLoop.Oldest FrameLoop.Current
      rw [ho, if_pos (by unfold NO_OLDEST_SET; omega)]
    refine ⟨ho, hO, ?_⟩
    rw [hO]
    by_cases hw : ws.length = 0
    · rw [if_pos hw, hnil (List.length_eq_zero.mp hw)]
    · rw [if_neg hw]
      have hl : 0 < ws.length := by omega
      have := hfr 0 hl (by omega)
      rw [Nat.add_zero, Nat.mod_eq_of_lt hcN] at this
      unfold FrameLoop.Current
      rw [hct]
      exact this
  have hB : N ≤ ws.length →
      (s.SetAsOldest.steps ws).oldest = NO_OLDEST_SET ∧
      (if N = 1 then ws.length - 1 else ws.length + 1 - N) < ws.length ∧
      (s.SetAsOldest.steps ws).frames[(s.SetAsOldest.steps ws).Oldest]? =
        ws[if N = 1 then ws.length - 1 else ws.length + 1 - N]? := by
    intro hge
    have ho := hclr hge
    have hO : (s.SetAsOldest.steps ws).Oldest = (c + ws.length + 1) % N := by
      unfold FrameLoop.Oldest
      rw [ho, if_neg (by unfold NO_OLDEST_SET; simp),
        FrameLoop.nextIndexAfter_cur hwf, hcur]
      rcases FrameLoop.succ_mod_cases (c + ws.length) N hpos with ⟨e1, e2⟩ | ⟨e1, e2⟩
      · rw [if_pos (by omega), e2]
        rfl
      · rw [if_neg (by omega), e2]
        omega
    refine ⟨ho, ?_, ?_⟩
    · split <;> omega
    · rw [hO]
      by_cases hN1 : N = 1
      · rw [if_pos hN1]
        have := hfr (ws.length - 1) (by omega) (by omega)
        rw [← this]
        congr 1
        rw [hN1, Nat.mod_one, Nat.mod_one]
      · rw [if_neg hN1]
        have := hfr (ws.length + 1 - N) (by omega) (by omega)
        rw [← this]
        congr 1
        have e : c + ws.length + 1 = c + (ws.length + 1 - N) + N := by omega
        rw [e, Nat.add_mod_right]
  refine ⟨hA, hB, ?_⟩
  by_cases hlt : ws.length < N
  · obtain ⟨_, _, h3⟩ := hA hlt
    by_cases hw : ws.length = 0
    · left
      rw [h3, if_pos hw]
    · right
      refine ⟨0, by omega, ?_⟩
      rw [h3, if_neg hw]
  · obtain ⟨_, h2, h3⟩ := hB (by omega)
    exact Or.inr ⟨_, h2, h3⟩

/-- C17 at a concrete input: a loop of capacity 3 moved once, pinned, and
stepped twice. -/
theorem Oldest_after_pin_witness :
    (FrameLoop.NewFrameLoop 0 ((3 : Nat) : Int)).Move.WF 3 ∧
    ((FrameLoop.NewFrameLoop 0 ((3 : Nat) : Int)).Move.SetAsOldest.steps [7, 8]).frames[
        ((FrameLoop.NewFrameLoop 0 ((3 : Nat) : Int)).Move.SetAsOldest.steps [7, 8]).Oldest]? =
      some 7 :=
  ⟨FrameLoop.WF_Move (FrameLoop.WF_NewFrameLoop 0 3 (by decide)),
    ((Oldest_after_pin (FrameLoop.NewFrameLoop 0 ((3 : Nat) : Int)).Move 3
      (FrameLoop.WF_Move (FrameLoop.WF_NewFrameLoop 0 3 (by decide))) [7, 8]).1 (by decide)).2.2⟩

/-! ### Indices and slice bounds of the loop -/

namespace FrameLoop

variable {α : Type}

theorem Reachable_of_ReachableIn {zero : α} {N m : Nat} {fl : FrameLoop α}
    (h : ReachableIn zero N m fl) : Reachable zero N fl := by
  induction h with
  | new => exact Reachable.new
  | move _ ih => exact Reachable.move ih
  | setAsOldest _ ih => exact Reachable.setAsOldest ih
  | getHistory _ ih => exact Reachable.getHistory ih
  | write i v _ ih => exact Reachable.write i v ih

/-- The current slot counts the calls of `Move` modulo `N`, and `bufferFull`
says that there were `N` of them or more. -/
theorem ReachableIn_count {zero : α} {N m : Nat} (hN : 1 ≤ N) {fl : FrameLoop α}
    (h : ReachableIn zero N m fl) :
    fl.currentIndex = ((m % N : Nat) : Int) ∧ (fl.bufferFull = true ↔ N ≤ m) := by
  induction h with
  | new =>
    constructor
    · simp [NewFrameLoop]
    · simp [NewFrameLoop]; omega
  | @move m fl hr ih =>
    have hwf := WF_of_Reachable hN (Reachable_of_ReachableIn hr)
    refine ⟨Move_currentIndex_mod hwf ih.1, ?_⟩
    rw [Move_eq hwf]
    simp only
    have hlt := Nat.mod_lt m hN
    rcases succ_mod_cases m N hN with ⟨e1, e2⟩ | ⟨e1, e2⟩
    · rw [if_pos (by rw [ih.1]; omega)]
      have : N ≤ m + 1 := by
        have := Nat.mod_le m N
        omega
      simp [this]
    · rw [if_neg (by rw [ih.1]; omega), ih.2]
      constructor
      · intro h; omega
      · intro h
        by_contra hlt2
        have hm : m < N := by omega
        rw [Nat.mod_eq_of_lt hm] at e1
        omega
  | setAsOldest _ ih => exact ih
  | getHistory _ ih =>
    rw [getFullHistory_snd]
    exact ih
  | write i v _ ih => exact ih

/-- The indices and slice bounds of every operation are in range on a
well-formed loop. -/
theorem WF_inBounds {fl : FrameLoop α} {N : Nat} (h : fl.WF N) :
    fl.CurrentOK ∧ fl.MoveOK ∧ fl.CopyRecentOK ∧ fl.OldestOK ∧ fl.getFullHistoryOK ∧
      fl.GetHistoryOK := by
  have h0 := h.cur_nonneg
  have h1 := h.cur_lt
  have hpos := h.pos
  have hsz := h.size_eq
  have hfl := h.frames_len
  have hol := h.ordered_len
  have hsz0 : fl.size ≠ 0 := by omega
  have hnext := nextIndexAfter_cur h
  have hnb : 0 ≤ fl.nextIndexAfter fl.currentIndex ∧ fl.nextIndexAfter fl.currentIndex < N := by
    rw [hnext]
    split <;> omega
  have hfull : fl.getFullHistoryOK := by
    unfold getFullHistoryOK
    by_cases hc : fl.currentIndex = fl.size - 1
    · rw [if_pos hc]
      trivial
    · rw [if_neg hc]
      refine ⟨hsz0, ?_⟩
      cases fl.bufferFull
      · simp only [Bool.not_false, if_true, sliceOK, hfl, hol]
        omega
      · simp only [Bool.not_true, Bool.false_eq_true, if_false, sliceOK, hfl, hol, hsz]
        omega
  refine ⟨⟨h0, by rw [hfl]; exact h1⟩, ⟨hsz0, ?_⟩, ⟨hsz0, ?_⟩, ?_, hfull, hfull, ?_⟩
  · have hm := WF_Move h
    exact ⟨hm.cur_nonneg, by rw [hm.frames_len]; exact hm.cur_lt⟩
  · unfold previousIndex indexOK
    rw [hsz, hfl]
    by_cases hz : fl.currentIndex = 0
    · rw [hz, goMod_of_lt (by omega) (by omega)]
      omega
    · have e : fl.currentIndex - 1 + (N : Int) = (fl.currentIndex - 1) + 1 * (N : Int) := by ring
      rw [goMod_eq_emod (by omega) (by omega), e, Int.add_mul_emod_self,
        Int.emod_eq_of_lt (by omega) (by omega)]
      omega
  · unfold OldestOK indexOK NO_OLDEST_SET
    rw [hfl]
    by_cases ho : fl.oldest = -1
    · rw [if_neg (by simpa using ho)]
      exact ⟨hsz0, hnb⟩
    · rw [if_pos ho]
      rcases h.oldest_range with e | e
      · exact absurd e ho
      · exact e
  · rw [getFullHistory_snd]
    simp only
    unfold NO_OLDEST_SET
    by_cases ho : fl.oldest = -1
    · rw [if_pos ho]
      trivial
    · rw [if_neg ho]
      refine ⟨hsz0, ?_⟩
      obtain ⟨hl1, hl2, hl3⟩ := histLen_bounds h
      obtain ⟨_, hg⟩ := hl3 ho
      rw [hg, (getFullHistory_eq h).1, lastSlots_length]
      unfold sliceOK
      omega

end FrameLoop

/-- C18.  For `N ≥ 1`, every loop reachable from `NewFrameLoop(N)` by `Move`,
`SetAsOldest`, `Current`, `Oldest`, `CopyRecent` and `GetHistory` (and writes
through the pointers handed out), `m` being the number of `Move` calls made,
has `0 ≤ currentIndex < N`, `oldest = NO_OLDEST_SET` or `0 ≤ oldest < N`,
`currentIndex = m % N`, and `bufferFull` true exactly when `N ≤ m`, that is
when `currentIndex` has wrapped to 0; every index and slice bound of the
operations is in range, and `GetHistory` returns. -/
theorem reachable_in_bounds {α : Type} (zero : α) (N m : Nat) (hN : 1 ≤ N) (fl : FrameLoop α)
    (h : FrameLoop.ReachableIn zero N m fl) :
    (0 ≤ fl.currentIndex ∧ fl.currentIndex < N) ∧
    (fl.oldest = NO_OLDEST_SET ∨ (0 ≤ fl.oldest ∧ fl.oldest < N)) ∧
    fl.currentIndex = ((m % N : Nat) : Int) ∧
    (fl.bufferFull = true ↔ N ≤ m) ∧
    (fl.bufferFull = true ↔ ∃ k, 1 ≤ k ∧ k ≤ m ∧ k % N = 0) ∧
    fl.CurrentOK ∧ fl.MoveOK ∧ fl.CopyRecentOK ∧ fl.OldestOK ∧ fl.getFullHistoryOK ∧
    fl.GetHistoryOK ∧
    ∃ hist fl2, fl.GetHistory = some (hist, fl2) := by
  have hwf := FrameLoop.WF_of_Reachable hN (FrameLoop.Reachable_of_ReachableIn h)
  obtain ⟨hc, hb⟩ := FrameLoop.ReachableIn_count hN h
  obtain ⟨b1, b2, b3, b4, b5, b6⟩ := FrameLoop.WF_inBounds hwf
  refine ⟨⟨hwf.cur_nonneg, hwf.cur_lt⟩, hwf.oldest_range, hc, hb, ?_, b1, b2, b3, b4, b5, b6,
    _, _, FrameLoop.GetHistory_eq hwf⟩
  rw [hb]
  constructor
  · intro hle
    exact ⟨N, hN, hle, Nat.mod_self N⟩
  · rintro ⟨k, hk1, hk2, hk3⟩
    have := Nat.le_of_dvd (by omega) (Nat.dvd_of_mod_eq_zero hk3)
    omega

/-- C18 at a concrete input: a loop of capacity 3 after `Move`, `SetAsOldest`
and `Move`. -/
theorem reachable_in_bounds_witness :
    (1 ≤ 3 ∧
      FrameLoop.ReachableIn 0 3 2
        (FrameLoop.NewFrameLoop 0 ((3 : Nat) : Int)).Move.SetAsOldest.Move) ∧
    (FrameLoop.NewFrameLoop 0 ((3 : Nat) : Int)).Move.SetAsOldest.Move.GetHistoryOK ∧
    ∃ hist fl2,
      (FrameLoop.NewFrameLoop 0 ((3 : Nat) : Int)).Move.SetAsOldest.Move.GetHistory =
        some (hist, fl2) :=
  ⟨⟨by decide, FrameLoop.ReachableIn.move
      (FrameLoop.ReachableIn.setAsOldest (FrameLoop.ReachableIn.move FrameLoop.ReachableIn.new))⟩,
    (reachable_in_bounds 0 3 2 (by decide) _ (FrameLoop.ReachableIn.move
      (FrameLoop.ReachableIn.setAsOldest
        (FrameLoop.ReachableIn.move FrameLoop.ReachableIn.new)))).2.2.2.2.2.2.2.2.2.2⟩

/-! ### Runs of a fresh detector without `TooManyPoints` -/

namespace motionDetector

variable {rows cols : Nat}

/-- A `Detect` call whose nonzero count is within the limit: the report, and
the detector it leaves. -/
theorem Detect_within (d : motionDetector rows cols) (frame : Frame rows cols)
    (outMask : MotionState rows cols)
    (hq : d.firstDiff = true →
      (nonzeroPixels d.useOneDiff (d.diffFrame frame) (d.prevDiffFrame frame) : Int)
        ≤ d.nonzeroLimit) :
    ∃ r, d.Detect frame outMask = some r ∧
      r.detector = { d with
        flooredFrames := (d.floored frame).Move
        diffFrames := d.diffsMoved frame
        firstDiff := true } ∧
      (d.firstDiff = false →
        r.movement = false ∧ r.outMask.DetectionState = DetectionState.NoData) ∧
      (d.firstDiff = true →
        r.movement = decide (d.countThresh ≤
          (deltaPixels d.useOneDiff d.deltaThresh (d.diffFrame frame) (d.prevDiffFrame frame)
            : Int)) ∧
        r.outMask.DetectionState = DetectionState.OK) := by
  cases hf : d.firstDiff
  · unfold Detect pixelsChanged
    simp only [hf, Bool.not_false, if_true]
    refine ⟨_, rfl, rfl, fun _ => ⟨rfl, rfl⟩, fun h => absurd h (by simp)⟩
  · obtain ⟨r, hr, _, h2⟩ := hasMotion_spec
      { d with flooredFrames := d.floored frame, diffFrames := d.diffsMoved frame }
      (d.diffFrame frame) (d.prevDiffFrame frame) outMask.Zero
    simp only [hf] at hr h2
    have hn : ¬ d.nonzeroLimit <
        (nonzeroPixels d.useOneDiff (d.diffFrame frame) (d.prevDiffFrame frame) : Int) := by
      have := hq hf
      omega
    obtain ⟨e1, e2, e3⟩ := h2 hn
    refine ⟨deferredMove r, ?_, ?_, fun h => absurd h (by simp), fun _ => ⟨e1, ?_⟩⟩
    · unfold Detect pixelsChanged
      simp only [hf, Bool.not_true, Bool.false_eq_true, if_false]
      rw [hr]
      rfl
    · simp only [deferredMove, e3, hf]
    · show r.outMask.DetectionState = DetectionState.OK
      rw [e2]
      rfl

theorem QuietInv_init (args : MotionConfig) (g : Nat) (hgap : args.FrameCompareGap = (g : Int))
    (frames : List (Frame rows cols)) :
    QuietInv args g frames 0 (NewMotionDetector rows cols args) where
  wf := by
    have := FrameLoop.WF_NewFrameLoop (zeroFrame rows cols) (g + 1) (by omega)
    unfold NewMotionDetector
    rw [hgap]
    exact this
  cur := by simp [NewMotionDetector, FrameLoop.NewFrameLoop]
  pinned := fun _ => rfl
  cleared := fun h => by omega
  slots := fun j f _ h => by omega
  dwf := FrameLoop.WF_NewFrameLoop (zeroFrame rows cols) 2 (by omega)
  dcur := by simp [NewMotionDetector, FrameLoop.NewFrameLoop]
  dprev := fun h => by omega
  first := rfl
  useOneDiff := rfl
  tempThresh := rfl
  deltaThresh := rfl
  countThresh := rfl
  nonzeroLimit := rfl
  warmerOnly := rfl

/-- The frame call `k` is compared with. -/
theorem QuietInv_compare {args : MotionConfig} {g k : Nat} {frames : List (Frame rows cols)}
    {d : motionDetector rows cols} (h : QuietInv args g frames k d) (f : Frame rows cols)
    (hf : frames[k]? = some f) :
    d.compareFrame f = d.setFloor (frames.getD (k - g) (zeroFrame rows cols)) := by
  have hpos : 0 < g + 1 := by omega
  have hcurI := h.cur
  have hc : d.flooredFrames.Current = k % (g + 1) := by
    unfold FrameLoop.Current
    rw [hcurI]
    rfl
  have hlt : k % (g + 1) < d.flooredFrames.frames.length := by
    rw [h.wf.frames_len]
    exact Nat.mod_lt _ hpos
  have hkl : k < frames.length := by
    by_contra hge
    rw [List.getElem?_eq_none (by omega)] at hf
    exact absurd hf (by simp)
  have hO : (d.floored f).Oldest = d.flooredFrames.Oldest := rfl
  unfold compareFrame
  rw [hO]
  unfold floored
  rw [hc]
  by_cases hk : k < g + 1
  · -- the pin of `NewFrameLoop` at slot 0 stands
    have ho := h.pinned hk
    have hOld : d.flooredFrames.Oldest = 0 := by
      unfold FrameLoop.Oldest
      rw [ho, if_pos (by unfold NO_OLDEST_SET; omega)]
      rfl
    have hkg : k - g = 0 := by omega
    rw [hOld, hkg]
    by_cases hk0 : k = 0
    · subst hk0
      rw [Nat.zero_mod] at hlt ⊢
      rw [deref_set_self _ _ _ hlt, List.getD_eq_getElem?_getD, hf]
      rfl
    · have hne : k % (g + 1) ≠ 0 := by
        rw [Nat.mod_eq_of_lt hk]
        exact hk0
      obtain ⟨f0, hf0⟩ : ∃ f0, frames[0]? = some f0 :=
        ⟨_, List.getElem?_eq_getElem (by omega)⟩
      rw [deref_set_ne _ _ _ _ hne, List.getD_eq_getElem?_getD, hf0]
      have := h.slots 0 f0 hf0 (by omega) (by omega)
      rw [Nat.zero_mod] at this
      exact this
  · -- the pin is cleared: the slot after the current one is returned
    have ho := h.cleared (by omega)
    have hOld : d.flooredFrames.Oldest = (k + 1) % (g + 1) := by
      unfold FrameLoop.Oldest
      rw [ho, if_neg (by unfold NO_OLDEST_SET; simp), FrameLoop.nextIndexAfter_cur h.wf, hcurI]
      rcases FrameLoop.succ_mod_cases k (g + 1) hpos with ⟨e1, e2⟩ | ⟨e1, e2⟩
      · rw [if_pos (by omega), e2]
        rfl
      · rw [if_neg (by omega), e2]
        omega
    rw [hOld]
    by_cases hg0 : g = 0
    · subst hg0
      have e1 : (k + 1) % (0 + 1) = k % (0 + 1) := by rw [Nat.mod_one, Nat.mod_one]
      rw [e1, deref_set_self _ _ _ hlt, Nat.sub_zero, List.getD_eq_getElem?_getD, hf]
      rfl
    · have e : k + 1 = (k - g) + (g + 1) := by omega
      have hmod : (k + 1) % (g + 1) = (k - g) % (g + 1) := by
        rw [e, Nat.add_mod_right]
      obtain ⟨f0, hf0⟩ : ∃ f0, frames[k - g]? = some f0 :=
        ⟨_, List.getElem?_eq_getElem (by omega)⟩
      rw [hmod, deref_set_ne _ _ _ _ (Ne.symm (mod_ne_of_lt (by omega) (by omega))),
        List.getD_eq_getElem?_getD, hf0]
      exact h.slots (k - g) f0 hf0 (by omega) (by omega)

/-- The diff frame of call `k`. -/
theorem QuietInv_diffFrame {args : MotionConfig} {g k : Nat} {frames : List (Frame rows cols)}
    {d : motionDetector rows cols} (h : QuietInv args g frames k d) (f : Frame rows cols)
    (hf : frames[k]? = some f) :
    d.diffFrame f = expectedDiff args g frames k := by
  have e : d.setFloor = (NewMotionDetector rows cols args).setFloor := by
    funext f2
    exact setFloor_congr _ _ h.tempThresh f2
  have e2 : frames.getD k (zeroFrame rows cols) = f := by
    rw [List.getD_eq_getElem?_getD, hf]
    rfl
  unfold diffFrame expectedDiff
  rw [QuietInv_compare h f hf, processedFrame_eq h.wf, h.warmerOnly, e, e2]

theorem mod_two_succ_ne (k : Nat) : k % 2 ≠ (k + 1) % 2 := by omega

/-- The previous diff frame of call `k ≥ 1`. -/
theorem QuietInv_prevDiffFrame {args : MotionConfig} {g k : Nat}
    {frames : List (Frame rows cols)} {d : motionDetector rows cols}
    (h : QuietInv args g frames k d) (f : Frame rows cols) (hk : 1 ≤ k) :
    d.prevDiffFrame f = expectedDiff args g frames (k - 1) := by
  have hw : ({ d.diffFrames with
      frames := d.diffFrames.frames.set d.diffFrames.Current (d.diffFrame f) } :
      FrameLoop (Frame rows cols)).WF 2 := FrameLoop.WF_write h.dwf _ _
  have hc : d.diffFrames.Current = k % 2 := by
    unfold FrameLoop.Current
    rw [h.dcur]
    rfl
  have hM := FrameLoop.Move_currentIndex_mod hw h.dcur
  have hMf := FrameLoop.Move_frames hw
  unfold prevDiffFrame
  have hcur2 : (d.diffsMoved f).Current = (k + 1) % 2 := by
    unfold FrameLoop.Current diffsMoved
    rw [hM]
    rfl
  rw [hcur2]
  have hd : deref (d.diffsMoved f) ((k + 1) % 2) =
      deref { d.diffFrames with
        frames := d.diffFrames.frames.set d.diffFrames.Current (d.diffFrame f) }
        ((k + 1) % 2) := by
    unfold deref diffsMoved
    rw [hMf]
  rw [hd, hc, deref_set_ne _ _ _ _ (mod_two_succ_ne k)]
  exact h.dprev hk

/-- One `Detect` call within the nonzero limit keeps the invariant and gives
the expected report. -/
theorem QuietInv_step {args : MotionConfig} {g k : Nat} {frames : List (Frame rows cols)}
    {d : motionDetector rows cols} (h : QuietInv args g frames k d) (f : Frame rows cols)
    (hf : frames[k]? = some f) (outMask : MotionState rows cols)
    (hq : 1 ≤ k →
      (nonzeroPixels args.UseOneDiffOnly (expectedDiff args g frames k)
        (expectedDiff args g frames (k - 1)) : Int) ≤
        (NewMotionDetector rows cols args).nonzeroLimit) :
    ∃ r, d.Detect f outMask = some r ∧
      (r.movement, r.outMask.DetectionState) = expectedReport args g frames k ∧
      QuietInv args g frames (k + 1) r.detector := by
  have hpos : 0 < g + 1 := by omega
  have hdiff := QuietInv_diffFrame h f hf
  have hfirst := h.first
  obtain ⟨r, hr, hdet, hwarm, hrun⟩ := Detect_within d f outMask (by
    intro hft
    rw [hfirst, decide_eq_true_iff] at hft
    rw [hdiff, QuietInv_prevDiffFrame h f hft, h.useOneDiff, h.nonzeroLimit]
    exact hq hft)
  refine ⟨r, hr, ?_, ?_⟩
  · unfold expectedReport
    by_cases hk0 : k = 0
    · rw [if_pos hk0]
      have : d.firstDiff = false := by rw [hfirst, hk0]; rfl
      obtain ⟨e1, e2⟩ := hwarm this
      rw [e1, e2]
    · rw [if_neg hk0]
      have hk1 : 1 ≤ k := by omega
      have : d.firstDiff = true := by rw [hfirst, decide_eq_true_iff]; exact hk1
      obtain ⟨e1, e2⟩ := hrun this
      rw [e1, e2, hdiff, QuietInv_prevDiffFrame h f hk1, h.useOneDiff, h.deltaThresh,
        h.countThresh]
  · have hFw := floored_WF h.wf f
    have hFc : (d.floored f).currentIndex = ((k % (g + 1) : Nat) : Int) := h.cur
    have hMc := FrameLoop.Move_currentIndex_mod hFw hFc
    have hMo := FrameLoop.Move_oldest hFw
    have hMf := FrameLoop.Move_frames hFw
    have hFo : (d.floored f).oldest = d.flooredFrames.oldest := rfl
    have hw : ({ d.diffFrames with
        frames := d.diffFrames.frames.set d.diffFrames.Current (d.diffFrame f) } :
        FrameLoop (Frame rows cols)).WF 2 := FrameLoop.WF_write h.dwf _ _
    have hdc : d.diffFrames.Current = k % 2 := by
      unfold FrameLoop.Current
      rw [h.dcur]
      rfl
    have hc : d.flooredFrames.Current = k % (g + 1) := by
      unfold FrameLoop.Current
      rw [h.cur]
      rfl
    have hlt : k % (g + 1) < d.flooredFrames.frames.length := by
      rw [h.wf.frames_len]
      exact Nat.mod_lt _ hpos
    have hmlt := Nat.mod_lt k hpos
    have hmlt2 := Nat.mod_lt (k + 1) hpos
    rw [hdet]
    refine ⟨FrameLoop.WF_Move hFw, hMc, ?_, ?_, ?_, FrameLoop.WF_Move hw,
      FrameLoop.Move_currentIndex_mod hw h.dcur, ?_, ?_, h.useOneDiff, h.tempThresh,
      h.deltaThresh, h.countThresh, h.nonzeroLimit, h.warmerOnly⟩
    · intro hk
      show (d.floored f).Move.oldest = 0
      rw [hMo, hMc, hFo, h.pinned (by omega), Nat.mod_eq_of_lt hk, if_neg (by omega)]
    · intro hk
      show (d.floored f).Move.oldest = -1
      rw [hMo, hMc, hFo]
      by_cases hk2 : k < g + 1
      · have e : k + 1 = g + 1 := by omega
        rw [h.pinned hk2, e, Nat.mod_self]
        simp
      · rw [h.cleared (by omega)]
        split <;> rfl
    · intro j f2 hj hjk hle
      show deref (d.floored f).Move (j % (g + 1)) = _
      have hd : deref (d.floored f).Move (j % (g + 1)) = deref (d.floored f) (j % (g + 1)) := by
        unfold deref
        rw [hMf]
      rw [hd]
      unfold floored
      rw [hc]
      by_cases hjk2 : j = k
      · subst hjk2
        rw [hf] at hj
        rw [deref_set_self _ _ _ hlt, Option.some.inj hj]
        rfl
      · rw [deref_set_ne _ _ _ _ (Ne.symm (mod_ne_of_lt (by omega) (by omega)))]
        exact h.slots j f2 hj (by omega) (by omega)
    · intro _
      show deref (d.diffsMoved f) ((k + 1 + 1) % 2) = expectedDiff args g frames (k + 1 - 1)
      have hd : deref (d.diffsMoved f) ((k + 1 + 1) % 2) =
          deref { d.diffFrames with
            frames := d.diffFrames.frames.set d.diffFrames.Current (d.diffFrame f) }
            ((k + 1 + 1) % 2) := by
        unfold deref diffsMoved
        rw [FrameLoop.Move_frames hw]
      have e : (k + 1 + 1) % 2 = k % 2 := by omega
      rw [hd, hdc, e, deref_set_self _ _ _ (by
        rw [h.dwf.frames_len]
        exact Nat.mod_lt _ (by omega)), Nat.add_sub_cancel]
      exact hdiff
    · show true = decide (1 ≤ k + 1)
      simp

/-- A fresh detector fed frames whose nonzero counts stay within the limit
makes the expected reports, and does not panic. -/
theorem detectAll_quiet (args : MotionConfig) (g : Nat) (hgap : args.FrameCompareGap = (g : Int))
    (outMask : MotionState rows cols) (frames : List (Frame rows cols))
    (hq : ∀ k, 1 ≤ k → k < frames.length →
      (nonzeroPixels args.UseOneDiffOnly (expectedDiff args g frames k)
        (expectedDiff args g frames (k - 1)) : Int) ≤
        (NewMotionDetector rows cols args).nonzeroLimit) :
    ∃ d, detectAll (NewMotionDetector rows cols args) outMask frames =
      some (d, (List.range frames.length).map (expectedReport args g frames)) := by
  have key : ∀ (fs : List (Frame rows cols)) (k : Nat) (d : motionDetector rows cols),
      QuietInv args g frames k d → frames.drop k = fs →
      ∃ d2, detectAll d outMask fs =
        some (d2, (List.range' k fs.length).map (expectedReport args g frames)) := by
    intro fs
    induction fs with
    | nil =>
      intro k d _ _
      exact ⟨d, rfl⟩
    | cons f fs ih =>
      intro k d hinv hdrop
      have hkl : k < frames.length := by
        by_contra hge
        rw [List.drop_eq_nil_of_le (by omega)] at hdrop
        exact absurd hdrop (by simp)
      have hf : frames[k]? = some f := by
        rw [← List.head?_drop, hdrop]
        rfl
      have hdrop2 : frames.drop (k + 1) = fs := by
        rw [← List.drop_drop 1 k, hdrop]
        rfl
      obtain ⟨r, hr, hrep, hinv2⟩ := QuietInv_step hinv f hf outMask (fun hk => hq k hk hkl)
      obtain ⟨d2, hrun⟩ := ih (k + 1) r.detector hinv2 hdrop2
      refine ⟨d2, ?_⟩
      unfold detectAll
      rw [hr]
      simp only [Option.some_bind, hrun, Option.map_some', List.length_cons, List.range'_succ,
        List.map_cons, hrep]
  obtain ⟨d, hd⟩ := key frames 0 _ (QuietInv_init args g hgap frames) rfl
  refine ⟨d, ?_⟩
  rw [hd, List.range_eq_range']

end motionDetector

/-! ### Scenarios S1 and S2 -/

namespace MotionProcessor

variable {α : Type}

/-- A frame without motion leaves a processor that is not recording as it is
and makes no call. -/
theorem ProcessFrame_no_motion {mp : MotionProcessor α} {N : Nat} (hwf : mp.frameLoop.WF N)
    (hrec : mp.isRecording = false) (env : Env) (hm : env.motion = false) (f : α) :
    ∃ r, mp.ProcessFrame env f = some r ∧ r.1.isRecording = false ∧ r.1.frameLoop.WF N ∧
      r.2 = [] := by
  have hrec1 : (mp.writeCurrent f).isRecording = false := hrec
  have hw := FrameLoop.WF_Move (WF_writeCurrent hwf f)
  unfold ProcessFrame internalProcess detectBranch
  simp only [hm, hrec1, Bool.false_eq_true, if_false, Option.map_some', false_and,
    List.append_nil]
  exact ⟨_, rfl, rfl, hw, rfl⟩

end MotionProcessor

/-- A processor that is not recording, with a detector that reports no
motion on any frame of the run, makes no call and does not start to
record. -/
theorem processWithDetector_no_motion {rows cols : Nat} (outMask : MotionState rows cols)
    (N : Nat) (inputs : List (Env × Frame rows cols)) :
    ∀ (d d2 : motionDetector rows cols) (outs : List (Bool × DetectionState))
      (mp : MotionProcessor (Frame rows cols)),
      detectAll d outMask (inputs.map Prod.snd) = some (d2, outs) →
      (∀ o ∈ outs, o.1 = false) → mp.frameLoop.WF N → mp.isRecording = false →
      ∃ tr, processWithDetector d outMask mp inputs = some tr ∧ tr.length = inputs.length ∧
        ∀ r ∈ tr, r.1.isRecording = false ∧ r.2 = [] := by
  induction inputs with
  | nil =>
    intro d d2 outs mp _ _ _ _
    exact ⟨[], rfl, rfl, by simp⟩
  | cons x rest ih =>
    intro d d2 outs mp hrun hall hwf hrec
    unfold detectAll at hrun
    simp only [List.map_cons] at hrun
    cases hd : d.Detect x.2 outMask with
    | none => rw [hd] at hrun; exact absurd hrun (by simp)
    | some v =>
      rw [hd] at hrun
      simp only [Option.some_bind] at hrun
      cases hrest : detectAll v.detector outMask (rest.map Prod.snd) with
      | none => rw [hrest] at hrun; exact absurd hrun (by simp)
      | some p =>
        rw [hrest] at hrun
        simp only [Option.map_some', Option.some.injEq, Prod.mk.injEq] at hrun
        have hv : v.movement = false := by
          have := hall (v.movement, v.outMask.DetectionState) (by rw [← hrun.2]; simp)
          exact this
        obtain ⟨r, hr, hr1, hr2, hr3⟩ := MotionProcessor.ProcessFrame_no_motion hwf hrec
          { x.1 with motion := v.movement } hv x.2
        obtain ⟨tr, htr, hlen, hprop⟩ := ih v.detector p.1 p.2 r.1 hrest
          (fun o ho => hall o (by rw [← hrun.2]; exact List.mem_cons_of_mem _ ho)) hr2 hr1
        refine ⟨r :: tr, ?_, by simp [hlen], ?_⟩
        · unfold processWithDetector
          rw [hd]
          simp only [Option.some_bind, hr, htr, Option.map_some']
        · intro s hs
          rcases List.mem_cons.mp hs with e | e
          · rw [e]
            exact ⟨hr1, hr3⟩
          · exact hprop s e

theorem noMotionReports_fst (n : Nat) : ∀ o ∈ noMotionReports n, o.1 = false := by
  intro o ho
  unfold noMotionReports at ho
  obtain ⟨k, _, hk⟩ := List.mem_map.mp ho
  rw [← hk]

/-- A pixel at which the frames of calls `k` and `k - g` agree has diff 0. -/
theorem expectedDiff_eq_zero {rows cols : Nat} (args : MotionConfig) (g : Nat)
    (frames : List (Frame rows cols)) (k : Nat) (y : Fin rows) (x : Fin cols)
    (h : (NewMotionDetector rows cols args).setFloor (frames.getD k (zeroFrame rows cols)) y x =
      (NewMotionDetector rows cols args).setFloor
        (frames.getD (k - g) (zeroFrame rows cols)) y x) :
    expectedDiff args g frames k y x = 0 := by
  unfold expectedDiff
  split
  · unfold warmerDiffFrames
    rw [h]
    exact warmerDiff_self _
  · unfold absDiffFrames
    rw [h]
    exact absDiff_self _

/-- Reports of a run whose diffs leave no delta pixel and stay within the
nonzero limit. -/
theorem detectAll_no_motion {rows cols : Nat} (args : MotionConfig) (g : Nat)
    (hgap : args.FrameCompareGap = (g : Int)) (hcount : 1 ≤ args.CountThresh)
    (outMask : MotionState rows cols) (frames : List (Frame rows cols))
    (hq : ∀ k, 1 ≤ k → k < frames.length →
      (nonzeroPixels args.UseOneDiffOnly (expectedDiff args g frames k)
        (expectedDiff args g frames (k - 1)) : Int) ≤
        (NewMotionDetector rows cols args).nonzeroLimit)
    (hdelta : ∀ k, 1 ≤ k → k < frames.length →
      deltaPixels args.UseOneDiffOnly args.DeltaThresh (expectedDiff args g frames k)
        (expectedDiff args g frames (k - 1)) = 0) :
    ∃ d, detectAll (NewMotionDetector rows cols args) outMask frames =
      some (d, noMotionReports frames.length) := by
  obtain ⟨d, hd⟩ := motionDetector.detectAll_quiet args g hgap outMask frames hq
  refine ⟨d, ?_⟩
  rw [hd]
  unfold noMotionReports
  congr 2
  apply List.map_congr_left
  intro k hk
  rw [List.mem_range] at hk
  unfold expectedReport
  by_cases hk0 : k = 0
  · rw [if_pos hk0, if_pos hk0]
  · rw [if_neg hk0, if_neg hk0, hdelta k (by omega) hk]
    congr 1
    rw [decide_eq_false_iff_not]
    push_cast
    omega

theorem nonzeroPixels_le {rows cols : Nat} (u : Bool) (cur prev : Frame rows cols)
    (p : Fin rows → Fin cols → Prop) [∀ y x, Decidable (p y x)]
    (h : ∀ y x, (0 < cur y x ∨ 0 < prev y x) → p y x) :
    nonzeroPixels u cur prev ≤ pixelCount rows cols p := by
  unfold nonzeroPixels
  split
  · exact pixelCount_mono _ _ _ _ (fun y x hc => h y x (Or.inl hc))
  · exact pixelCount_mono _ _ _ _ h

theorem deltaPixels_eq_zero {rows cols : Nat} (u : Bool) (dt : Nat) (cur prev : Frame rows cols)
    (h : ∀ y x, cur y x = 0 ∨ (u = false ∧ prev y x = 0)) :
    deltaPixels u dt cur prev = 0 := by
  unfold deltaPixels
  split
  · next hu =>
    apply pixelCount_false
    intro y x hc
    rcases h y x with e | ⟨e, _⟩
    · omega
    · rw [hu] at e
      exact absurd e (by simp)
  · apply pixelCount_false
    intro y x hc
    rcases h y x with e | ⟨_, e⟩ <;> omega

/-- C13.  Scenario S1.  A fresh detector with `FrameCompareGap = g ≥ 0`,
`CountThresh ≥ 1` and `NonzeroMaxPercent ≥ 0` is fed frames whose pixels are
all below `TempThresh`.  Every `Detect` call returns false, with
`DetectionState` `NoData` on the first call and `OK` on every later one; and
a fresh processor with this detector, whatever the window and the recorder
answer, stays out of recording and makes no call at all on any frame (no
`StartRecording`, no `RecordingStarted`). -/
theorem below_threshold_never_records {rows cols : Nat} (args : MotionConfig) (g : Nat)
    (hgap : args.FrameCompareGap = (g : Int)) (hcount : 1 ≤ args.CountThresh)
    (hP : 0 ≤ args.NonzeroMaxPercent) (frames : List (Frame rows cols))
    (hlow : ∀ f ∈ frames, ∀ y x, f y x < args.TempThresh) (outMask : MotionState rows cols)
    (conf : RecorderConfig) (l : Bool) (N : Nat) (hN : 1 ≤ N)
    (hsize : conf.PreviewSecs * FramesHz + args.TriggerFrames = (N : Int))
    (envs : List Env) (hlen : envs.length = frames.length) :
    (∃ d, detectAll (NewMotionDetector rows cols args) outMask frames =
      some (d, noMotionReports frames.length)) ∧
    (∀ k, k < frames.length →
      (noMotionReports frames.length)[k]? =
        some (false, if k = 0 then DetectionState.NoData else DetectionState.OK)) ∧
    ∃ tr, processWithDetector (NewMotionDetector rows cols args) outMask
        (MotionProcessor.NewMotionProcessor (zeroFrame rows cols) args conf l)
        (envs.zip frames) = some tr ∧
      tr.length = frames.length ∧ ∀ r ∈ tr, r.1.isRecording = false ∧ r.2 = [] := by
  have hfloor : ∀ k, k < frames.length → ∀ y x,
      (NewMotionDetector rows cols args).setFloor (frames.getD k (zeroFrame rows cols)) y x =
        args.TempThresh := by
    intro k hk y x
    have hmem : frames.getD k (zeroFrame rows cols) ∈ frames := by
      rw [List.getD_eq_getElem?_getD, List.getElem?_eq_getElem hk]
      exact List.getElem_mem hk
    have := hlow _ hmem y x
    unfold motionDetector.setFloor NewMotionDetector
    simp only
    rw [if_pos this]
  have hzero : ∀ k, k < frames.length → ∀ y x, expectedDiff args g frames k y x = 0 := by
    intro k hk y x
    apply expectedDiff_eq_zero
    rw [hfloor k hk, hfloor (k - g) (by omega)]
  have hlim : 0 ≤ (NewMotionDetector rows cols args).nonzeroLimit := by
    unfold NewMotionDetector
    simp only
    exact Int.tdiv_nonneg (Int.mul_nonneg (Int.mul_nonneg (by omega) (by omega)) hP)
      (by omega)
  obtain ⟨d, hd⟩ := detectAll_no_motion args g hgap hcount outMask frames
    (by
      intro k hk1 hk
      have h0 : nonzeroPixels args.UseOneDiffOnly (expectedDiff args g frames k)
          (expectedDiff args g frames (k - 1)) ≤ pixelCount rows cols (fun _ _ => False) :=
        nonzeroPixels_le _ _ _ _ (by
          intro y x h
          rw [hzero k hk, hzero (k - 1) (by omega)] at h
          omega)
      rw [pixelCount_false rows cols _ (fun _ _ h => h)] at h0
      omega)
    (by
      intro k hk1 hk
      exact deltaPixels_eq_zero _ _ _ _ (fun y x => Or.inl (hzero k hk y x)))
  refine ⟨⟨d, hd⟩, ?_, ?_⟩
  · intro k hk
    unfold noMotionReports
    rw [List.getElem?_map, List.getElem?_range hk]
    rfl
  · have hsnd : (envs.zip frames).map Prod.snd = frames :=
      List.map_snd_zip _ _ (by omega)
    obtain ⟨tr, htr, hl, hprop⟩ := processWithDetector_no_motion outMask N (envs.zip frames)
      (NewMotionDetector rows cols args) d (noMotionReports frames.length)
      (MotionProcessor.NewMotionProcessor (zeroFrame rows cols) args conf l)
      (by rw [hsnd]; exact hd) (noMotionReports_fst _)
      (MotionProcessor.WF_NewMotionProcessor _ args conf l N hN hsize) rfl
    refine ⟨tr, htr, ?_, hprop⟩
    rw [hl, List.length_zip, hlen, Nat.min_self]

/-- The frames of a run that shows frame `A` on `n1` calls and then frame `B`
on `n2` calls. -/
theorem getD_two_phase {rows cols : Nat} (A B : Frame rows cols) (n1 n2 k : Nat)
    (hk : k < n1 + n2) :
    (List.replicate n1 A ++ List.replicate n2 B).getD k (zeroFrame rows cols) =
      if k < n1 then A else B := by
  rw [List.getD_eq_getElem?_getD]
  by_cases h : k < n1
  · rw [if_pos h, List.getElem?_append_left (by simpa using h), List.getElem?_replicate,
      if_pos h]
    rfl
  · rw [if_neg h, List.getElem?_append_right (by simpa using h), List.getElem?_replicate,
      if_pos (by simp; omega)]
    rfl

/-- With `FrameCompareGap = 1` in two-diff mode, a scene that changes once
and then stays as it is never shows motion: only the diff of the first
changed frame is nonzero, so no pixel exceeds `DeltaThresh` in two consecutive
diffs. -/
theorem detectAll_two_phase {rows cols : Nat} (args : MotionConfig)
    (hgap : args.FrameCompareGap = 1) (htwo : args.UseOneDiffOnly = false)
    (hcount : 1 ≤ args.CountThresh) (A B : Frame rows cols) (n1 n2 : Nat)
    (outMask : MotionState rows cols)
    (hlim : (pixelCount rows cols (fun y x => A y x ≠ B y x) : Int) ≤
      (NewMotionDetector rows cols args).nonzeroLimit) :
    ∃ d, detectAll (NewMotionDetector rows cols args) outMask
        (List.replicate n1 A ++ List.replicate n2 B) =
      some (d, noMotionReports (n1 + n2)) := by
  have hlenF : (List.replicate n1 A ++ List.replicate n2 B).length = n1 + n2 := by simp
  -- the diff of call `k` vanishes unless `k` is the first call on `B`
  have hz : ∀ k, k < n1 + n2 → ∀ y x,
      expectedDiff args 1 (List.replicate n1 A ++ List.replicate n2 B) k y x ≠ 0 →
        k = n1 ∧ 1 ≤ k ∧ A y x ≠ B y x := by
    intro k hk y x hne
    by_contra hcon
    apply hne
    apply expectedDiff_eq_zero
    rw [getD_two_phase A B n1 n2 k hk, getD_two_phase A B n1 n2 (k - 1) (by omega)]
    by_cases h1 : k < n1
    · rw [if_pos h1, if_pos (by omega)]
    · rw [if_neg h1]
      by_cases h2 : k - 1 < n1
      · rw [if_pos h2]
        by_cases hk0 : k = 0
        · omega
        · have hkn : k = n1 := by omega
          have hab : A y x = B y x := by
            by_contra hab
            exact hcon ⟨hkn, by omega, hab⟩
          unfold motionDetector.setFloor
          simp only [hab]
      · rw [if_neg h2]
  have h := detectAll_no_motion args 1 (by rw [hgap]; rfl) hcount outMask
    (List.replicate n1 A ++ List.replicate n2 B)
    (by
      intro k hk1 hk
      rw [hlenF] at hk
      have h0 := nonzeroPixels_le args.UseOneDiffOnly
        (expectedDiff args 1 (List.replicate n1 A ++ List.replicate n2 B) k)
        (expectedDiff args 1 (List.replicate n1 A ++ List.replicate n2 B) (k - 1))
        (fun y x => A y x ≠ B y x) (by
          intro y x hor
          rcases hor with hc | hc
          · exact (hz k hk y x (by omega)).2.2
          · exact (hz (k - 1) (by omega) y x (by omega)).2.2)
      omega)
    (by
      intro k hk1 hk
      rw [hlenF] at hk
      apply deltaPixels_eq_zero
      intro y x
      by_cases hc : expectedDiff args 1 (List.replicate n1 A ++ List.replicate n2 B) k y x = 0
      · exact Or.inl hc
      · right
        refine ⟨htwo, ?_⟩
        by_contra hp
        have e1 := (hz k hk y x hc).1
        have e2 := (hz (k - 1) (by omega) y x hp).1
        have e3 := (hz (k - 1) (by omega) y x hp).2.1
        omega)
  rw [hlenF] at h
  exact h

/-- The patch of scenario S2 differs from the background on 25 pixels. -/
theorem s2_patch_count :
    pixelCount 120 160 (fun y x => s2Background y x ≠ s2Patch y x) ≤ 25 := by
  have h1 : pixelCount 120 160 (fun y x => s2Background y x ≠ s2Patch y x) ≤
      pixelCount 120 160 (fun y x => (10 ≤ y.val ∧ y.val < 15) ∧ (20 ≤ x.val ∧ x.val < 25)) := by
    apply pixelCount_mono
    intro y x h
    by_contra hc
    apply h
    unfold s2Background s2Patch
    rw [if_neg (fun hh => hc ⟨⟨hh.1, hh.2.1⟩, hh.2.2⟩)]
  have h2 : pixelCount 120 160
      (fun y x => (10 ≤ y.val ∧ y.val < 15) ∧ (20 ≤ x.val ∧ x.val < 25)) = 25 := by
    have e1 : (Finset.univ.filter (fun y : Fin 120 => 10 ≤ y.val ∧ y.val < 15)).card = 5 := by
      decide
    have e2 : (Finset.univ.filter (fun x : Fin 160 => 20 ≤ x.val ∧ x.val < 25)).card = 5 := by
      decide
    have e := @Finset.filter_product (Fin 120) (Fin 160) Finset.univ Finset.univ
      (fun y : Fin 120 => 10 ≤ y.val ∧ y.val < 15) (fun x : Fin 160 => 20 ≤ x.val ∧ x.val < 25)
      _ _
    unfold pixelCount
    rw [← Finset.univ_product_univ]
    refine (congrArg Finset.card e).trans ?_
    rw [Finset.card_product, e1, e2]
  omega

/-- C14, as stated, fails: in scenario S2 on frames of `120 × 160` pixels
(floor 2900, `DeltaThresh = 100`, `CountThresh = 20`, `FrameCompareGap = 1`,
two-diff mode, a nonzero limit of 9600 pixels), `Detect` returns false on
frame 12, with `DetectionState = OK`, as on every other of the 40 frames. -/
theorem s2_no_motion_on_frame_12 :
    (NewMotionDetector 120 160 s2Config).nonzeroLimit = 9600 ∧
    s2Frames.length = 40 ∧
    ∃ d outs, detectAll (NewMotionDetector 120 160 s2Config) s2Mask s2Frames = some (d, outs) ∧
      outs[11]? = some (false, DetectionState.OK) ∧
      outs.map Prod.fst = List.replicate 40 false := by
  have hl : (NewMotionDetector 120 160 s2Config).nonzeroLimit = 9600 := by decide
  obtain ⟨d, hd⟩ := detectAll_two_phase s2Config rfl rfl (by decide) s2Background s2Patch 10 30
    s2Mask (by
      rw [hl]
      have := s2_patch_count
      omega)
  exact ⟨hl, by decide, d, _, hd, by decide, by decide⟩

/-- C14, amended.  Scenario S2 in general: with `FrameCompareGap = 1`, two-diff
mode, `CountThresh ≥ 1` and a nonzero limit of at least the number of pixels
at which the frames `A` and `B` differ, a fresh detector fed `n1` frames `A`
and then `n2` frames `B` returns false on every frame, with `DetectionState`
`NoData` on the first frame and `OK` on every later one; and a fresh processor
with this detector, whatever the window and the recorder answer, starts no
recording and makes no call on any frame (no `RecordingStarted`). -/
theorem static_change_never_records {rows cols : Nat} (args : MotionConfig)
    (hgap : args.FrameCompareGap = 1) (htwo : args.UseOneDiffOnly = false)
    (hcount : 1 ≤ args.CountThresh) (A B : Frame rows cols) (n1 n2 : Nat)
    (outMask : MotionState rows cols)
    (hlim : (pixelCount rows cols (fun y x => A y x ≠ B y x) : Int) ≤
      (NewMotionDetector rows cols args).nonzeroLimit)
    (conf : RecorderConfig) (l : Bool) (N : Nat) (hN : 1 ≤ N)
    (hsize : conf.PreviewSecs * FramesHz + args.TriggerFrames = (N : Int))
    (envs : List Env) (hlen : envs.length = n1 + n2) :
    (∃ d, detectAll (NewMotionDetector rows cols args) outMask
        (List.replicate n1 A ++ List.replicate n2 B) =
      some (d, noMotionReports (n1 + n2))) ∧
    (∀ k, k < n1 + n2 →
      (noMotionReports (n1 + n2))[k]? =
        some (false, if k = 0 then DetectionState.NoData else DetectionState.OK)) ∧
    ∃ tr, processWithDetector (NewMotionDetector rows cols args) outMask
        (MotionProcessor.NewMotionProcessor (zeroFrame rows cols) args conf l)
        (envs.zip (List.replicate n1 A ++ List.replicate n2 B)) = some tr ∧
      tr.length = n1 + n2 ∧ ∀ r ∈ tr, r.1.isRecording = false ∧ r.2 = [] := by
  have hlenF : (List.replicate n1 A ++ List.replicate n2 B).length = n1 + n2 := by simp
  obtain ⟨d, hd⟩ := detectAll_two_phase args hgap htwo hcount A B n1 n2 outMask hlim
  refine ⟨⟨d, hd⟩, ?_, ?_⟩
  · intro k hk
    unfold noMotionReports
    rw [List.getElem?_map, List.getElem?_range hk]
    rfl
  · have hsnd : (envs.zip (List.replicate n1 A ++ List.replicate n2 B)).map Prod.snd =
        List.replicate n1 A ++ List.replicate n2 B :=
      List.map_snd_zip _ _ (by omega)
    obtain ⟨tr, htr, hl, hprop⟩ := processWithDetector_no_motion outMask N
      (envs.zip (List.replicate n1 A ++ List.replicate n2 B))
      (NewMotionDetector rows cols args) d (noMotionReports (n1 + n2))
      (MotionProcessor.NewMotionProcessor (zeroFrame rows cols) args conf l)
      (by rw [hsnd]; exact hd) (noMotionReports_fst _)
      (MotionProcessor.WF_NewMotionProcessor _ args conf l N hN hsize) rfl
    refine ⟨tr, htr, ?_, hprop⟩
    rw [hl, List.length_zip, hlen, hlenF, Nat.min_self]

/-- C13 at a concrete input: a hundred one-pixel frames of value 9 under a
floor of 10. -/
theorem below_threshold_never_records_witness :
    ((1 : Int) ≤ exampleConfig.CountThresh ∧ (0 : Int) ≤ exampleConfig.NonzeroMaxPercent ∧
      ∀ f ∈ List.replicate 100 (uniformFrame 9), ∀ y x, f y x < exampleConfig.TempThresh) ∧
    (∃ d, detectAll (NewMotionDetector 1 1 exampleConfig) emptyMask
        (List.replicate 100 (uniformFrame 9)) =
      some (d, noMotionReports (List.replicate 100 (uniformFrame 9)).length)) ∧
    ∃ tr, processWithDetector (NewMotionDetector 1 1 exampleConfig) emptyMask
        (MotionProcessor.NewMotionProcessor (zeroFrame 1 1) exampleConfig (s4Config 1) true)
        ((List.replicate 100 (Env.allOk true)).zip (List.replicate 100 (uniformFrame 9))) =
          some tr ∧
      tr.length = (List.replicate 100 (uniformFrame 9)).length ∧
      ∀ r ∈ tr, r.1.isRecording = false ∧ r.2 = [] :=
  ⟨⟨by decide, by decide, fun f hf _ _ => by
        rw [List.eq_of_mem_replicate hf]
        exact (by decide : (9 : Nat) < 10)⟩,
    (below_threshold_never_records exampleConfig 1 rfl (by decide) (by decide)
      (List.replicate 100 (uniformFrame 9))
      (fun f hf _ _ => by
        rw [List.eq_of_mem_replicate hf]
        exact (by decide : (9 : Nat) < 10)) emptyMask (s4Config 1) true
      11 (by decide) (by decide) (List.replicate 100 (Env.allOk true)) (by simp)).1,
    (below_threshold_never_records exampleConfig 1 rfl (by decide) (by decide)
      (List.replicate 100 (uniformFrame 9))
      (fun f hf _ _ => by
        rw [List.eq_of_mem_replicate hf]
        exact (by decide : (9 : Nat) < 10)) emptyMask (s4Config 1) true
      11 (by decide) (by decide) (List.replicate 100 (Env.allOk true)) (by simp)).2.2⟩

theorem s2_limit :
    (pixelCount 120 160 (fun y x => s2Background y x ≠ s2Patch y x) : Int) ≤
      (NewMotionDetector 120 160 s2Config).nonzeroLimit := by
  have hl : (NewMotionDetector 120 160 s2Config).nonzeroLimit = 9600 := by decide
  have := s2_patch_count
  rw [hl]
  omega

/-- C14, amended, at the input of scenario S2: ten background frames and
thirty frames with the patch, on `120 × 160` pixels. -/
theorem static_change_never_records_witness :
    (s2Config.FrameCompareGap = 1 ∧ s2Config.UseOneDiffOnly = false ∧
      (1 : Int) ≤ s2Config.CountThresh ∧
      (pixelCount 120 160 (fun y x => s2Background y x ≠ s2Patch y x) : Int) ≤
        (NewMotionDetector 120 160 s2Config).nonzeroLimit) ∧
    (∃ d, detectAll (NewMotionDetector 120 160 s2Config) s2Mask
        (List.replicate 10 s2Background ++ List.replicate 30 s2Patch) =
      some (d, noMotionReports (10 + 30))) ∧
    ∃ tr, processWithDetector (NewMotionDetector 120 160 s2Config) s2Mask
        (MotionProcessor.NewMotionProcessor (zeroFrame 120 160) s2Config (s4Config 1) true)
        ((List.replicate 40 (Env.allOk true)).zip
          (List.replicate 10 s2Background ++ List.replicate 30 s2Patch)) = some tr ∧
      tr.length = 10 + 30 ∧ ∀ r ∈ tr, r.1.isRecording = false ∧ r.2 = [] :=
  ⟨⟨rfl, rfl, by decide, s2_limit⟩,
    (static_change_never_records s2Config rfl rfl (by decide) s2Background s2Patch 10 30 s2Mask
      s2_limit (s4Config 1) true 11 (by decide) (by decide)
      (List.replicate 40 (Env.allOk true)) (by simp)).1,
    (static_change_never_records s2Config rfl rfl (by decide) s2Background s2Patch 10 30 s2Mask
      s2_limit (s4Config 1) true 11 (by decide) (by decide)
      (List.replicate 40 (Env.allOk true)) (by simp)).2.2⟩

/-! ### The log frame counter -/

namespace MotionProcessor

variable {α : Type}

theorem occasionallyWriteError_log (mp : MotionProcessor α) (task : String)
    (ht : task = "Recording not started" ∨ task = "Can't start recording file") :
    (mp.lastLogFrame ≠ 0 → mp.occasionallyWriteError task = (mp, [])) ∧
    (mp.lastLogFrame = 0 →
      (mp.occasionallyWriteError task).1 = { mp with lastLogFrame := mp.totalFrames } ∧
      (mp.occasionallyWriteError task).2.filterMap Event.startErrorLog = [mp.totalFrames]) := by
  unfold occasionallyWriteError
  constructor
  · intro h
    simp [h]
  · intro h
    simp only [h, decide_True, if_true, true_and]
    simp only [List.filterMap_cons, Event.startErrorLog, ht, if_true, List.filterMap_nil]

theorem writePreTrigger_no_log (env : Env) (fl : FrameLoop α) (frames : List (Option Nat))
    (ii : Nat) : (writePreTrigger env fl frames ii).1.filterMap Event.startErrorLog = [] := by
  induction frames generalizing ii with
  | nil => rfl
  | cons p rest ih =>
    unfold writePreTrigger
    by_cases hp : env.preWriteOk ii = true
    · simp only [hp, if_true, List.filterMap_cons, ih (ii + 1)]
      rfl
    · simp only [hp, if_false]
      rfl

/-- Whether the loop of `recordPreTriggerFrames` returns an error depends on
the number of frames to write and on the recorder, not on the loop. -/
theorem writePreTrigger_ok_congr (env : Env) (fl1 fl2 : FrameLoop α)
    (frames : List (Option Nat)) (ii : Nat) :
    (writePreTrigger env fl1 frames ii).2 = (writePreTrigger env fl2 frames ii).2 := by
  induction frames generalizing ii with
  | nil => rfl
  | cons p rest ih =>
    unfold writePreTrigger
    by_cases hp : env.preWriteOk ii = true
    · simp only [hp, if_true]
      exact ih (ii + 1)
    · have hp2 : env.preWriteOk ii = false := by simpa using hp
      simp only [hp2, Bool.false_eq_true, if_false]

/-- Whether `startRecording` returns an error depends on the frame loop and on
the recorder only. -/
theorem startRecording_ok_congr (m mp : MotionProcessor α) (env : Env)
    (h : m.frameLoop = mp.frameLoop) :
    (m.startRecording env).map (fun s => s.2.2) = (mp.startRecording env).map (fun s => s.2.2) := by
  unfold startRecording recordPreTriggerFrames
  simp only [h]
  by_cases hs : env.startRecordingOk = true
  · simp only [hs, Bool.not_true, Bool.false_eq_true, if_false, Option.map_map]
    rfl
  · have hs2 : env.startRecordingOk = false := by simpa using hs
    simp only [hs2, Bool.not_false, if_true, Option.map_some']

/-- The copy of the frame into the current slot does not change whether the
start of a recording fails. -/
theorem startFails_writeCurrent {mp : MotionProcessor α} {N : Nat} (hwf : mp.frameLoop.WF N)
    (env : Env) (f : α) : (mp.writeCurrent f).startFails env ↔ mp.startFails env := by
  have hwf2 := WF_writeCurrent hwf f
  have e : ((mp.writeCurrent f).startRecording env).map (fun s => s.2.2) =
      (mp.startRecording env).map (fun s => s.2.2) := by
    unfold startRecording recordPreTriggerFrames
    by_cases hs : env.startRecordingOk = true
    · simp only [hs, Bool.not_true, Bool.false_eq_true, if_false, Option.map_map]
      rw [FrameLoop.GetHistory_eq hwf2, FrameLoop.GetHistory_eq hwf]
      simp only [Option.map_some', Function.comp, Option.some.injEq]
      have e1 : (mp.writeCurrent f).frameLoop.currentIndex = mp.frameLoop.currentIndex := rfl
      have e2 : (mp.writeCurrent f).frameLoop.histLen = mp.frameLoop.histLen := rfl
      rw [e1, e2]
      exact writePreTrigger_ok_congr env _ _ _ 0
    · have hs2 : env.startRecordingOk = false := by simpa using hs
      simp only [hs2, Bool.not_false, if_true, Option.map_some']
  unfold startFails
  rw [e]
  exact Iff.rfl

/-- The `if` statement of `internalProcess` and the log frame counter. -/
theorem detectBranch_log (mp : MotionProcessor α) (env : Env)
    (r : MotionProcessor α × List (Event α)) (h : mp.detectBranch env = some r) :
    LogFacts mp env r := by
  have hev0 : ∀ b : Bool,
      (if b = true then [(Event.MotionDetected : Event α)] else []).filterMap
        Event.startErrorLog = [] := by
    intro b; cases b <;> rfl
  have hrs : ∀ b : Bool,
      (if b = true then [(Event.RecordingStarted : Event α)] else []).filterMap
        Event.startErrorLog = [] := by
    intro b; cases b <;> rfl
  have hpre := @writePreTrigger_no_log α env
  -- the outcome of a failed start
  have hfail : ∀ (m : MotionProcessor α) (task : String) (pre : List (Event α)),
      (task = "Recording not started" ∨ task = "Can't start recording file") →
      m.totalFrames = mp.totalFrames + 1 → m.lastLogFrame = mp.lastLogFrame →
      pre.filterMap Event.startErrorLog = [] → mp.startFails env →
      LogFacts mp env ((m.occasionallyWriteError task).1,
        pre ++ (m.occasionallyWriteError task).2) := by
    intro m task pre ht htot hlast hpre0 hsf
    obtain ⟨h1, h2⟩ := occasionallyWriteError_log m task ht
    refine ⟨?_, ?_, ?_, ?_, ?_⟩
    · by_cases hz : m.lastLogFrame = 0
      · rw [(h2 hz).1]
        exact htot
      · rw [h1 hz]
        exact htot
    · intro hne
      rw [h1 (by rw [hlast]; exact hne)]
      exact ⟨hlast, by simp [hpre0]⟩
    · intro hz
      right
      obtain ⟨e1, e2⟩ := h2 (by rw [hlast]; exact hz)
      rw [e1, List.filterMap_append, hpre0, e2, htot]
      exact ⟨rfl, rfl⟩
    · intro hz _
      obtain ⟨e1, e2⟩ := h2 (by rw [hlast]; exact hz)
      rw [e1, List.filterMap_append, hpre0, e2, htot]
      exact ⟨rfl, rfl⟩
    · intro _ hnf
      exact absurd hsf hnf
  -- the outcome of a branch that does not log
  have hquiet : ∀ (m : MotionProcessor α) (evs : List (Event α)),
      m.totalFrames = mp.totalFrames + 1 → m.lastLogFrame = mp.lastLogFrame →
      evs.filterMap Event.startErrorLog = [] → ¬ mp.startFails env →
      LogFacts mp env (m, evs) := by
    intro m evs htot hlast hevs hnf
    exact ⟨htot, fun _ => ⟨hlast, hevs⟩, fun hz => Or.inl ⟨by rw [hlast]; exact hz, hevs⟩,
      fun _ hf => absurd hf hnf, fun hz _ => ⟨by rw [hlast]; exact hz, hevs⟩⟩
  unfold detectBranch at h
  by_cases hm : env.motion = true
  · simp only [hm, if_true] at h
    by_cases hr : mp.isRecording = true
    · simp only [hr, if_true, Option.some.injEq] at h
      rw [← h]
      exact hquiet _ _ rfl rfl (hev0 _) (fun hf => by rw [hf.2.1] at hr; exact absurd hr (by simp))
    · have hr2 : mp.isRecording = false := by simpa using hr
      simp only [hr2, Bool.false_eq_true, if_false] at h
      by_cases ht : mp.triggered + 1 < mp.triggerFrames
      · simp only [ht, if_true, Option.some.injEq] at h
        rw [← h]
        exact hquiet _ _ rfl rfl (hev0 _) (fun hf => by have := hf.2.2.1; omega)
      · simp only [ht, if_false] at h
        have hsf : ((mp.canStartWriting env).2 = false ∨
            (mp.startRecording env).map (fun s => s.2.2) = some false) → mp.startFails env :=
          fun hc => ⟨hm, hr2, by omega, hc⟩
        unfold canStartWriting at h
        by_cases hw : env.windowActive = true
        · simp only [hw, Bool.not_true, Bool.false_eq_true, if_false] at h
          by_cases hc : env.checkCanRecordOk = true
          · simp only [hc, Bool.not_true, Bool.false_eq_true, if_false] at h
            have hcan : (mp.canStartWriting env).2 = true := by
              simp [canStartWriting, hw, hc]
            unfold startRecording at h
            by_cases hs : env.startRecordingOk = true
            · simp only [hs, Bool.not_true, Bool.false_eq_true, if_false,
                recordPreTriggerFrames, Option.map_map] at h
              cases hg : mp.frameLoop.GetHistory with
              | none =>
                rw [hg] at h
                exact absurd h (by simp)
              | some g =>
                rw [hg] at h
                simp only [Option.map_some', Function.comp, Option.some.injEq] at h
                rw [← h]
                have hsr : (mp.startRecording env).map (fun s => s.2.2) =
                    some (writePreTrigger env g.2 g.1.dropLast 0).2 := by
                  simp [startRecording, recordPreTriggerFrames, hs, hg]
                split
                · rename_i hbad
                  exact hfail _ "Can't start recording file" _ (Or.inr rfl) rfl rfl
                    (by simp [List.filterMap_append, hev0, hrs, hpre, Event.startErrorLog])
                    (hsf (Or.inr (by rw [hsr]; simpa using hbad)))
                · rename_i hgood
                  have hnf : ¬ mp.startFails env := by
                    rintro ⟨_, _, _, hf | hf⟩
                    · rw [hcan] at hf; exact absurd hf (by simp)
                    · rw [hsr] at hf
                      simp only [Option.some.injEq] at hf
                      rw [hf] at hgood
                      exact hgood (by simp)
                  exact hquiet _ _ rfl rfl
                    (by simp [List.filterMap_append, hev0, hrs, hpre, Event.startErrorLog]) hnf
            · have hs2 : env.startRecordingOk = false := by simpa using hs
              simp only [hs2, Bool.not_false, if_true, Option.map_some', Option.some.injEq] at h
              rw [← h]
              exact hfail _ "Can't start recording file" _ (Or.inr rfl) rfl rfl
                (by simp [List.filterMap_append, hev0, Event.startErrorLog])
                (hsf (Or.inr (by simp [startRecording, hs2])))
          · have hc2 : env.checkCanRecordOk = false := by simpa using hc
            simp only [hc2, Bool.not_false, if_true, Option.some.injEq] at h
            rw [← h]
            exact hfail _ "Recording not started" _ (Or.inl rfl) rfl rfl
              (by simp [List.filterMap_append, hev0, Event.startErrorLog])
              (hsf (Or.inl (by simp [canStartWriting, hw, hc2])))
        · have hw2 : env.windowActive = false := by simpa using hw
          simp only [hw2, Bool.not_false, if_true, Option.some.injEq] at h
          rw [← h]
          exact hfail _ "Recording not started" _ (Or.inl rfl) rfl rfl
            (by simp [List.filterMap_append, hev0])
            (hsf (Or.inl (by simp [canStartWriting, hw2])))
  · have hm2 : env.motion = false := by simpa using hm
    simp only [hm2, Bool.false_eq_true, if_false, Option.some.injEq] at h
    rw [← h]
    exact hquiet _ _ rfl rfl rfl (fun hf => by rw [hf.1] at hm; exact hm rfl)

/-- One `ProcessFrame` call and the log frame counter. -/
theorem ProcessFrame_log {mp : MotionProcessor α} {N : Nat} (hwf : mp.frameLoop.WF N)
    (env : Env) (f : α) :
    ∃ r, mp.ProcessFrame env f = some r ∧ r.1.frameLoop.WF N ∧ LogFacts mp env r := by
  obtain ⟨r, hr, hf⟩ := internalProcess_spec (WF_writeCurrent hwf f) env mp.frameLoop.Current
  refine ⟨r, hr, hf.wf, ?_⟩
  unfold internalProcess at hr
  cases hd : (mp.writeCurrent f).detectBranch env with
  | none => rw [hd] at hr; exact absurd hr (by simp)
  | some r0 =>
    have hl := detectBranch_log (mp.writeCurrent f) env r0 hd
    have hsw := startFails_writeCurrent hwf env f
    rw [hd] at hr
    simp only [Option.map_some', Option.some.injEq] at hr
    have hfields : r.1.totalFrames = r0.1.totalFrames ∧ r.1.lastLogFrame = r0.1.lastLogFrame ∧
        r.2.filterMap Event.startErrorLog = r0.2.filterMap Event.startErrorLog := by
      rw [← hr]
      by_cases hrec : r0.1.isRecording = true
      · simp only [hrec, if_true, true_and]
        split
        · cases r0.1.hasListener <;> cases env.writeOk <;> cases env.stopRecordingOk <;>
            simp [stopRecording, List.filterMap_append, Event.startErrorLog]
        · cases env.writeOk <;> simp [List.filterMap_append, Event.startErrorLog]
      · have hrec2 : r0.1.isRecording = false := by simpa using hrec
        simp [hrec2]
    obtain ⟨e1, e2, e3⟩ := hfields
    refine ⟨?_, ?_, ?_, ?_, ?_⟩
    · rw [e1]; exact hl.total
    · intro hne
      rw [e2, e3]
      exact hl.keep hne
    · intro hz
      rw [e2, e3]
      exact hl.first hz
    · intro hz hfail
      rw [e2, e3]
      exact hl.logged hz (hsw.mpr hfail)
    · intro hz hnf
      rw [e2, e3]
      exact hl.quiet hz (fun hh => hnf (hsw.mp hh))

/-- A run logs at most one start error, and none once the log frame counter
is set. -/
theorem processAll_log_count {N : Nat} (inputs : List (Env × α)) :
    ∀ (mp : MotionProcessor α) (tr : List (MotionProcessor α × List (Event α))),
      mp.frameLoop.WF N → 0 ≤ mp.totalFrames → processAll mp inputs = some tr →
      (mp.lastLogFrame ≠ 0 → (allEvents tr).filterMap Event.startErrorLog = []) ∧
      ((allEvents tr).filterMap Event.startErrorLog).length ≤ 1 := by
  induction inputs with
  | nil =>
    intro mp tr _ _ h
    simp only [processAll, Option.some.injEq] at h
    rw [← h]
    exact ⟨fun _ => rfl, by simp [allEvents]⟩
  | cons x rest ih =>
    intro mp tr hwf htot h
    obtain ⟨r, hr, hwf2, hl⟩ := ProcessFrame_log hwf x.1 x.2
    unfold processAll at h
    rw [hr] at h
    simp only [Option.some_bind] at h
    cases hrest : processAll r.1 rest with
    | none => rw [hrest] at h; exact absurd h (by simp)
    | some t =>
      rw [hrest] at h
      simp only [Option.map_some', Option.some.injEq] at h
      obtain ⟨ih1, ih2⟩ := ih r.1 t hwf2 (by rw [hl.total]; omega) hrest
      have hall : (allEvents tr).filterMap Event.startErrorLog =
          r.2.filterMap Event.startErrorLog ++ (allEvents t).filterMap Event.startErrorLog := by
        rw [← h]
        simp [allEvents, List.filterMap_append]
      rw [hall]
      have hkeep : mp.lastLogFrame ≠ 0 →
          r.2.filterMap Event.startErrorLog ++ (allEvents t).filterMap Event.startErrorLog = [] := by
        intro hne
        obtain ⟨e1, e2⟩ := hl.keep hne
        rw [e2, ih1 (by rw [e1]; exact hne)]
        rfl
      refine ⟨hkeep, ?_⟩
      by_cases hz : mp.lastLogFrame = 0
      · rcases hl.first hz with ⟨e1, e2⟩ | ⟨e1, e2⟩
        · rw [e2]
          exact ih2
        · rw [e2, ih1 (by rw [e1]; omega)]
          simp
      · rw [hkeep hz]
        simp

end MotionProcessor

/-- Along a run of a fresh processor `totalFrames` counts the calls made, and
`lastLogFrame` is still 0 exactly when no earlier call was a failed start. -/
theorem processAll_log_facts {α : Type} (zero : α) (motionConf : MotionConfig)
    (conf : RecorderConfig) (l : Bool) (N : Nat) (hN : 1 ≤ N)
    (hsize : conf.PreviewSecs * FramesHz + motionConf.TriggerFrames = (N : Int))
    (inputs : List (Env × α)) :
    ∃ tr, processAll (MotionProcessor.NewMotionProcessor zero motionConf conf l) inputs =
        some tr ∧ tr.length = inputs.length ∧
      ((allEvents tr).filterMap Event.startErrorLog).length ≤ 1 ∧
      (∀ k x r, inputs[k]? = some x → tr[k]? = some r →
        (stateBefore (MotionProcessor.NewMotionProcessor zero motionConf conf l) tr k).totalFrames
          = k ∧
        LogFacts (stateBefore (MotionProcessor.NewMotionProcessor zero motionConf conf l) tr k)
          x.1 r) ∧
      ∀ k, k ≤ inputs.length →
        ((stateBefore (MotionProcessor.NewMotionProcessor zero motionConf conf l) tr
            k).lastLogFrame = 0 ↔
          noStartFailureBefore (MotionProcessor.NewMotionProcessor zero motionConf conf l)
            inputs tr k) := by
  have hwf := MotionProcessor.WF_NewMotionProcessor zero motionConf conf l N hN hsize
  obtain ⟨tr, htr, hlen, hall⟩ := @processAll_induct α
    (fun mp hist => mp.frameLoop.WF N ∧ mp.totalFrames = (hist.length : Int))
    (fun hist mp x r => mp.totalFrames = (hist.length : Int) ∧ LogFacts mp x.1 r)
    (by
      intro mp hist x hinv
      obtain ⟨r, hr, hwf2, hl⟩ := MotionProcessor.ProcessFrame_log hinv.1 x.1 x.2
      refine ⟨r, hr, ⟨hwf2, ?_⟩, hinv.2, hl⟩
      rw [hl.total, hinv.2]
      simp)
    inputs (MotionProcessor.NewMotionProcessor zero motionConf conf l) [] ⟨hwf, rfl⟩
  have hfacts : ∀ k x r, inputs[k]? = some x → tr[k]? = some r →
      (stateBefore (MotionProcessor.NewMotionProcessor zero motionConf conf l) tr k).totalFrames
        = k ∧
      LogFacts (stateBefore (MotionProcessor.NewMotionProcessor zero motionConf conf l) tr k)
        x.1 r := by
    intro k x r hx hr
    obtain ⟨htot, hl⟩ := hall k x r hx hr
    have hk : k < inputs.length := by
      by_contra hge
      rw [List.getElem?_eq_none (by omega)] at hx
      exact absurd hx (by simp)
    have hlen2 : ([] ++ inputs.take k).length = k := by
      rw [List.nil_append, List.length_take]
      omega
    rw [hlen2] at htot
    exact ⟨htot, hl⟩
  refine ⟨tr, htr, hlen,
    (MotionProcessor.processAll_log_count inputs _ tr hwf (le_refl _) htr).2, hfacts, ?_⟩
  intro k
  induction k with
  | zero =>
    intro _
    constructor
    · intro _ j y hj
      omega
    · intro _
      rfl
  | succ k ih =>
    intro hk
    have hk1 : k < inputs.length := by omega
    have hk2 : k < tr.length := by omega
    have hx := List.getElem?_eq_getElem hk1
    have hr := List.getElem?_eq_getElem hk2
    obtain ⟨htot, hl⟩ := hfacts k _ _ hx hr
    have hs : stateBefore (MotionProcessor.NewMotionProcessor zero motionConf conf l) tr (k + 1)
        = (tr[k]).1 := by
      simp [stateBefore, hr]
    rw [hs]
    have ih2 := ih (by omega)
    by_cases hz : (stateBefore (MotionProcessor.NewMotionProcessor zero motionConf conf l) tr
        k).lastLogFrame = 0
    · have hno := ih2.mp hz
      by_cases hsf : (stateBefore (MotionProcessor.NewMotionProcessor zero motionConf conf l) tr
          k).startFails (inputs[k]).1
      · have h1 := (hl.logged hz hsf).1
        constructor
        · intro h0
          rw [h0, htot] at h1
          omega
        · intro hnof
          exact absurd hsf (hnof k _ (by omega) hx)
      · have h1 := (hl.quiet hz hsf).1
        constructor
        · intro _ j y hj hy
          by_cases hjk : j = k
          · subst hjk
            rw [hx] at hy
            simp only [Option.some.injEq] at hy
            rw [← hy]
            exact hsf
          · exact hno j y (by omega) hy
        · intro _
          exact h1
    · have h1 := (hl.keep hz).1
      constructor
      · intro h0
        rw [h0] at h1
        exact absurd h1.symm hz
      · intro hnof
        exact absurd (ih2.mpr (fun j y hj hy => hnof j y (by omega) hy)) hz

/-- C20, as stated, fails: a processor with `TriggerFrames = 1` sees motion
outside the window on frame 1, a frame without motion on which nothing fails
on frame 2, and motion outside the window on frame 3.  The failure of frame 1
is logged and sets `lastLogFrame = 1`; frame 2 leaves `lastLogFrame = 1`, not
0, and the failure of frame 3 is not logged.  The same holds when frame 2
starts a recording. -/
theorem second_burst_not_logged :
    (processAll (MotionProcessor.NewMotionProcessor () oneFrameConfig (s4Config 1) false)
        [(Env.windowClosed, ()), (Env.quiet, ()), (Env.windowClosed, ())]).map
      (List.map (fun r => (r.1.lastLogFrame, r.2.filterMap Event.startErrorLog))) =
      some [(1, [1]), (1, []), (1, [])] ∧
    (processAll (MotionProcessor.NewMotionProcessor () oneFrameConfig (s4Config 1) false)
        [(Env.windowClosed, ()), (Env.allOk true, ())]).map
      (List.map (fun r => (r.1.isRecording, r.1.lastLogFrame))) =
      some [(false, 1), (true, 1)] := by
  decide

/-- C20, amended.  A failed start is a frame with motion on which the
processor is not recording, `triggered` reaches `triggerFrames`, and
`canStartWriting` (window inactive, or `CheckCanRecord`) or `startRecording`
(`StartRecording`, or a pre-trigger `WriteFrame`) returns an error.  In every
run of a fresh processor, `totalFrames` is the number of calls made, and
`lastLogFrame` is 0 before a call exactly when no earlier call was a failed
start.  The first failed start, on call `k` counted from 0, is logged once
with frame number `k + 1` and sets `lastLogFrame = k + 1`; a call before it
logs no start error and leaves `lastLogFrame = 0`; a call after it leaves
`lastLogFrame` as it is, whether it succeeds or not, and logs no start error.
A run logs at most one start error. -/
theorem start_error_logged_once {α : Type} (zero : α) (motionConf : MotionConfig)
    (conf : RecorderConfig) (l : Bool) (N : Nat) (hN : 1 ≤ N)
    (hsize : conf.PreviewSecs * FramesHz + motionConf.TriggerFrames = (N : Int))
    (inputs : List (Env × α)) :
    ∃ tr, processAll (MotionProcessor.NewMotionProcessor zero motionConf conf l) inputs =
        some tr ∧
      ((allEvents tr).filterMap Event.startErrorLog).length ≤ 1 ∧
      ∀ k x r, inputs[k]? = some x → tr[k]? = some r →
        (stateBefore (MotionProcessor.NewMotionProcessor zero motionConf conf l) tr k).totalFrames
          = k ∧
        ((stateBefore (MotionProcessor.NewMotionProcessor zero motionConf conf l) tr
            k).lastLogFrame = 0 ↔
          noStartFailureBefore (MotionProcessor.NewMotionProcessor zero motionConf conf l)
            inputs tr k) ∧
        (noStartFailureBefore (MotionProcessor.NewMotionProcessor zero motionConf conf l)
            inputs tr k →
          (stateBefore (MotionProcessor.NewMotionProcessor zero motionConf conf l) tr
            k).startFails x.1 →
          r.1.lastLogFrame = (k : Int) + 1 ∧
          r.2.filterMap Event.startErrorLog = [(k : Int) + 1]) ∧
        (noStartFailureBefore (MotionProcessor.NewMotionProcessor zero motionConf conf l)
            inputs tr k →
          ¬ (stateBefore (MotionProcessor.NewMotionProcessor zero motionConf conf l) tr
            k).startFails x.1 →
          r.1.lastLogFrame = 0 ∧ r.2.filterMap Event.startErrorLog = []) ∧
        (¬ noStartFailureBefore (MotionProcessor.NewMotionProcessor zero motionConf conf l)
            inputs tr k →
          r.1.lastLogFrame =
            (stateBefore (MotionProcessor.NewMotionProcessor zero motionConf conf l) tr
              k).lastLogFrame ∧
          r.1.lastLogFrame ≠ 0 ∧
          r.2.filterMap Event.startErrorLog = []) := by
  obtain ⟨tr, htr, _, hcount, hfacts, hiff⟩ :=
    processAll_log_facts zero motionConf conf l N hN hsize inputs
  refine ⟨tr, htr, hcount, ?_⟩
  intro k x r hx hr
  obtain ⟨htot, hl⟩ := hfacts k x r hx hr
  have hk : k < inputs.length := by
    by_contra hge
    rw [List.getElem?_eq_none (by omega)] at hx
    exact absurd hx (by simp)
  have hi := hiff k (by omega)
  refine ⟨htot, hi, ?_, ?_, ?_⟩
  · intro hno hf
    have := hl.logged (hi.mpr hno) hf
    rw [htot] at this
    exact this
  · intro hno hnf
    exact hl.quiet (hi.mpr hno) hnf
  · intro hsome
    have hne : (stateBefore (MotionProcessor.NewMotionProcessor zero motionConf conf l) tr
        k).lastLogFrame ≠ 0 := fun h0 => hsome (hi.mp h0)
    obtain ⟨e1, e2⟩ := hl.keep hne
    exact ⟨e1, by rw [e1]; exact hne, e2⟩

/-- A run evaluated: two frames with motion and `TriggerFrames = 2`, a
pre-trigger `WriteFrame` that fails on frame 2, and
motion outside the window on frames 3 and 4.  Frame 2 is the first failed
start: it is logged with frame number 2 and sets `lastLogFrame = 2`.  The
recording it opened is stopped on the same frame, which resets `triggered`, so
frame 4 is the next failed start, the first refused by the window; it is not
logged. -/
theorem preroll_failure_takes_the_log :
    (processAll (MotionProcessor.NewMotionProcessor () exampleConfig (s4Config 1) false)
        [(Env.allOk true, ()), (Env.preWriteFails, ()), (Env.windowClosed, ()),
          (Env.windowClosed, ())]).map
      (List.map (fun r => (r.1.lastLogFrame, r.2.filterMap Event.startErrorLog))) =
      some [(0, []), (2, [2]), (2, []), (2, [])] ∧
    (processAll (MotionProcessor.NewMotionProcessor () exampleConfig (s4Config 1) false)
        [(Env.allOk true, ()), (Env.preWriteFails, ()), (Env.windowClosed, ()),
          (Env.windowClosed, ())]).map
      (fun tr => (List.range 4).map (fun k =>
        decide ((stateBefore
          (MotionProcessor.NewMotionProcessor () exampleConfig (s4Config 1) false) tr
          k).startFails
            (([(Env.allOk true, ()), (Env.preWriteFails, ()), (Env.windowClosed, ()),
              (Env.windowClosed, ())].map Prod.fst).getD k (Env.allOk true))))) =
      some [false, true, false, true] := by
  decide

/-- C20, amended, at a concrete input: the run of
`preroll_failure_takes_the_log`. -/
theorem start_error_logged_once_witness :
    (1 ≤ 11 ∧
      (s4Config 1).PreviewSecs * FramesHz + exampleConfig.TriggerFrames = ((11 : Nat) : Int)) ∧
    ∃ tr, processAll (MotionProcessor.NewMotionProcessor () exampleConfig (s4Config 1) false)
        [(Env.allOk true, ()), (Env.preWriteFails, ()), (Env.windowClosed, ()),
          (Env.windowClosed, ())] = some tr ∧
      ((allEvents tr).filterMap Event.startErrorLog).length ≤ 1 ∧
      ∀ k x r,
        [(Env.allOk true, ()), (Env.preWriteFails, ()), (Env.windowClosed, ()),
          (Env.windowClosed, ())][k]? = some x → tr[k]? = some r →
        (stateBefore (MotionProcessor.NewMotionProcessor () exampleConfig (s4Config 1) false) tr
          k).totalFrames = k ∧
        ((stateBefore (MotionProcessor.NewMotionProcessor () exampleConfig (s4Config 1) false) tr
            k).lastLogFrame = 0 ↔
          noStartFailureBefore
            (MotionProcessor.NewMotionProcessor () exampleConfig (s4Config 1) false)
            [(Env.allOk true, ()), (Env.preWriteFails, ()), (Env.windowClosed, ()),
              (Env.windowClosed, ())] tr k) :=
  ⟨⟨by decide, by decide⟩,
    (start_error_logged_once () exampleConfig (s4Config 1) false 11 (by decide) (by decide)
      [(Env.allOk true, ()), (Env.preWriteFails, ()), (Env.windowClosed, ()),
        (Env.windowClosed, ())]).imp
      (fun _ h => ⟨h.1, h.2.1, fun k x r hx hr => ⟨(h.2.2 k x r hx hr).1, (h.2.2 k x r hx hr).2.1⟩⟩)⟩

/-! ### Frames written across recordings -/

namespace MotionProcessor

variable {α : Type}

/-- The pre-trigger loop writes a prefix of the frames it is given. -/
theorem writePreTrigger_written (env : Env) (fl : FrameLoop α) (frames : List (Option Nat))
    (ii : Nat) :
    ∃ n, (writePreTrigger env fl frames ii).1.filterMap Event.written =
      (frames.take n).map (fun p => (p, p.bind (fun q => fl.frames[q]?))) := by
  induction frames generalizing ii with
  | nil => exact ⟨0, rfl⟩
  | cons p rest ih =>
    unfold writePreTrigger
    by_cases hp : env.preWriteOk ii = true
    · obtain ⟨n, hn⟩ := ih (ii + 1)
      refine ⟨n + 1, ?_⟩
      simp only [hp, if_true, List.filterMap_cons, Event.written, hn, List.take_succ_cons,
        List.map_cons]
    · refine ⟨1, ?_⟩
      simp only [hp, if_false]
      rfl

/-- The `if` statement of `internalProcess` and the frames it writes: none,
the loop being left as it is, or, when a recording starts, a prefix of the
history without its last frame. -/
theorem detectBranch_written {mp : MotionProcessor α} {N : Nat} (hwf : mp.frameLoop.WF N)
    (env : Env) :
    ∃ r, mp.detectBranch env = some r ∧
      (r.1.frameLoop = mp.frameLoop ∨ r.1.frameLoop = mp.frameLoop.getFullHistory.2) ∧
      ((r.1.isRecording = mp.isRecording ∧ r.2.filterMap Event.written = []) ∨
        (mp.isRecording = false ∧ r.1.isRecording = true ∧
          ∃ n, r.2.filterMap Event.written =
            ((FrameLoop.lastSlots N mp.frameLoop.currentIndex.toNat
                mp.frameLoop.histLen).dropLast.take n).map
              (fun p => (p, p.bind (fun q => mp.frameLoop.frames[q]?))))) := by
  have hev0 : ∀ b : Bool,
      (if b = true then [(Event.MotionDetected : Event α)] else []).filterMap Event.written
        = [] := by
    intro b; cases b <;> rfl
  have hrs : ∀ b : Bool,
      (if b = true then [(Event.RecordingStarted : Event α)] else []).filterMap Event.written
        = [] := by
    intro b; cases b <;> rfl
  have hlog : ∀ (m : MotionProcessor α) (task : String),
      (m.occasionallyWriteError task).2.filterMap Event.written = [] := by
    intro m task
    rcases occasionallyWriteError_cases m task with e | e <;> rw [e] <;> rfl
  have hlogs : ∀ (m : MotionProcessor α) (task : String),
      (m.occasionallyWriteError task).1.frameLoop = m.frameLoop ∧
      (m.occasionallyWriteError task).1.isRecording = m.isRecording := by
    intro m task
    rcases occasionallyWriteError_cases m task with e | e <;> rw [e] <;> exact ⟨rfl, rfl⟩
  unfold detectBranch
  by_cases hm : env.motion = true
  · simp only [hm, if_true]
    by_cases hr : mp.isRecording = true
    · simp only [hr, if_true]
      exact ⟨_, rfl, Or.inl rfl, Or.inl ⟨rfl, hev0 _⟩⟩
    · have hr2 : mp.isRecording = false := by simpa using hr
      simp only [hr2, Bool.false_eq_true, if_false]
      by_cases ht : mp.triggered + 1 < mp.triggerFrames
      · simp only [ht, if_true]
        exact ⟨_, rfl, Or.inl rfl, Or.inl ⟨rfl, hev0 _⟩⟩
      · simp only [ht, if_false]
        unfold canStartWriting
        by_cases hw : env.windowActive = true
        · simp only [hw, Bool.not_true, Bool.false_eq_true, if_false]
          by_cases hc : env.checkCanRecordOk = true
          · simp only [hc, Bool.not_true, Bool.false_eq_true, if_false]
            unfold startRecording
            by_cases hs : env.startRecordingOk = true
            · simp only [hs, Bool.not_true, Bool.false_eq_true, if_false,
                recordPreTriggerFrames, Option.map_map, FrameLoop.GetHistory_eq hwf,
                Option.map_some', Function.comp]
              obtain ⟨n, hn⟩ := writePreTrigger_written env mp.frameLoop.getFullHistory.2
                (FrameLoop.lastSlots N mp.frameLoop.currentIndex.toNat
                  mp.frameLoop.histLen).dropLast 0
              have hfr : mp.frameLoop.getFullHistory.2.frames = mp.frameLoop.frames := by
                rw [FrameLoop.getFullHistory_snd]
              rw [hfr] at hn
              refine ⟨_, rfl, ?_, Or.inr ⟨trivial, ?_, n, ?_⟩⟩
              · split
                · rw [(hlogs _ _).1]
                  exact Or.inr rfl
                · exact Or.inr rfl
              · split
                · rw [(hlogs _ _).2]
                · rfl
              · split
                · simp only [List.filterMap_append, hev0, hrs, hlog, List.filterMap_cons,
                    Event.written, List.filterMap_nil, List.append_nil, List.nil_append, hn]
                · simp only [List.filterMap_append, hev0, hrs, List.filterMap_cons,
                    Event.written, List.filterMap_nil, List.append_nil, List.nil_append, hn]
            · have hs2 : env.startRecordingOk = false := by simpa using hs
              simp only [hs2, Bool.not_false, if_true, Option.map_some']
              refine ⟨_, rfl, Or.inl (hlogs _ _).1, Or.inl ⟨(hlogs _ _).2, ?_⟩⟩
              simp only [List.filterMap_append, hev0, hlog, List.filterMap_cons,
                Event.written, List.filterMap_nil, List.append_nil]
          · have hc2 : env.checkCanRecordOk = false := by simpa using hc
            simp only [hc2, Bool.not_false, if_true]
            refine ⟨_, rfl, Or.inl (hlogs _ _).1, Or.inl ⟨(hlogs _ _).2, ?_⟩⟩
            simp only [List.filterMap_append, hev0, hlog, List.filterMap_cons,
              Event.written, List.filterMap_nil, List.append_nil]
        · have hw2 : env.windowActive = false := by simpa using hw
          simp only [hw2, Bool.not_false, if_true]
          refine ⟨_, rfl, Or.inl (hlogs _ _).1, Or.inl ⟨(hlogs _ _).2, ?_⟩⟩
          simp only [List.filterMap_append, hev0, hlog, List.filterMap_nil, List.append_nil]
  · have hm2 : env.motion = false := by simpa using hm
    simp only [hm2, Bool.false_eq_true, if_false]
    exact ⟨_, rfl, Or.inl rfl, Or.inl ⟨rfl, rfl⟩⟩

end MotionProcessor

namespace FrameLoop

theorem lastSlots_prefix (N c L n : Nat) :
    ((lastSlots N c L).dropLast.take n) =
      (List.range (min n (L - 1))).map (fun i => some ((c + 1 + N - L + i) % N)) := by
  unfold lastSlots
  rw [List.dropLast_eq_take, List.take_take, List.length_map, List.length_range, ← List.map_take,
    List.take_range]
  congr 2
  omega

theorem slot_of_capture (N k L i : Nat) (hL : L ≤ N) (hk : L ≤ k + 1) :
    (k % N + 1 + N - L + i) % N = (k + 1 - L + i) % N := by
  have e1 : k % N + 1 + N - L + i = k % N + (1 + N - L + i) := by omega
  have e2 : k + (1 + N - L + i) = (k + 1 - L + i) + N := by omega
  rw [e1, Nat.mod_add_mod, e2, Nat.add_mod_right]

theorem mod_diff (N p k : Nat) (hN : 0 < N) (h1 : p ≤ k) (h2 : k < p + N) :
    ((if ((p % N : Nat) : Int) ≤ ((k % N : Nat) : Int) then
        ((k % N : Nat) : Int) - ((p % N : Nat) : Int) + 1
      else ((k % N : Nat) : Int) - ((p % N : Nat) : Int) + (N : Int) + 1) : Int) =
      ((k - p + 1 : Nat) : Int) := by
  obtain ⟨q, rfl⟩ : ∃ q, k = p + q := ⟨k - p, by omega⟩
  have hq : q < N := by omega
  have hp := Nat.mod_lt p hN
  have e : (p + q) % N = (p % N + q) % N := by rw [Nat.add_mod, Nat.mod_eq_of_lt hq]
  by_cases hlt : p % N + q < N
  · rw [e, Nat.mod_eq_of_lt hlt]
    split <;> omega
  · have e2 : (p % N + q) % N = p % N + q - N := by
      rw [Nat.mod_eq_sub_mod (by omega), Nat.mod_eq_of_lt (by omega)]
    rw [e, e2]
    split <;> omega

end FrameLoop

namespace MotionProcessor

variable {α : Type}

/-- The rest of `internalProcess` after its `if` statement: the current frame
is written when the processor records, the loop moves, and a stop pins the
new current slot. -/
theorem internalProcess_written (mp : MotionProcessor α) (env : Env) (frame : Nat)
    (r0 : MotionProcessor α × List (Event α)) (hd : mp.detectBranch env = some r0) :
    ∃ r, mp.internalProcess env frame = some r ∧
      r.2.filterMap Event.written = r0.2.filterMap Event.written ++
        (if r0.1.isRecording = true then [(some frame, r0.1.frameLoop.frames[frame]?)]
         else []) ∧
      ((r.1.isRecording = r0.1.isRecording ∧ r.1.frameLoop = r0.1.frameLoop.Move) ∨
        (r.1.isRecording = false ∧ r.1.frameLoop = r0.1.frameLoop.Move.SetAsOldest)) := by
  unfold internalProcess
  rw [hd]
  simp only [Option.map_some']
  refine ⟨_, rfl, ?_, ?_⟩
  · by_cases hrec : r0.1.isRecording = true
    · simp only [hrec, if_true, true_and]
      split
      · cases r0.1.hasListener <;> cases env.writeOk <;> cases env.stopRecordingOk <;>
          simp [stopRecording, List.filterMap_append, Event.written]
      · cases env.writeOk <;> simp [List.filterMap_append, Event.written]
    · have hrec2 : r0.1.isRecording = false := by simpa using hrec
      simp [hrec2]
  · by_cases hrec : r0.1.isRecording = true
    · simp only [hrec, if_true, true_and]
      split
      · exact Or.inr ⟨rfl, rfl⟩
      · exact Or.inl ⟨rfl, rfl⟩
    · have hrec2 : r0.1.isRecording = false := by simpa using hrec
      simp only [hrec2, Bool.false_eq_true, if_false, false_and]
      exact Or.inl ⟨trivial, trivial⟩

theorem WriteInv_init (inputs : List (Env × α)) (zero : α) (motionConf : MotionConfig)
    (conf : RecorderConfig) (l : Bool) (N : Nat) (hN : 1 ≤ N)
    (hsize : conf.PreviewSecs * FramesHz + motionConf.TriggerFrames = (N : Int)) :
    WriteInv inputs N (NewMotionProcessor zero motionConf conf l) 0 0 where
  wf := WF_NewMotionProcessor zero motionConf conf l N hN hsize
  cur := by simp [NewMotionProcessor, FrameLoop.NewFrameLoop]
  full := by
    simp only [NewMotionProcessor, FrameLoop.NewFrameLoop]
    constructor
    · intro h; exact absurd h (by simp)
    · intro h; omega
  slots := fun j h => by omega
  wle := le_refl _
  pin := fun _ => Or.inr ⟨0, by simp [NewMotionProcessor, FrameLoop.NewFrameLoop], le_refl _,
    le_refl _, by omega⟩

end MotionProcessor

namespace MotionProcessor

variable {α : Type}

/-- The history of the loop at a start, in frame numbers: it begins at a
frame `a ≥ w` and ends at frame `k`. -/
theorem WriteInv_history {inputs : List (Env × α)} {N : Nat} {mp : MotionProcessor α}
    {k w : Nat} (hinv : WriteInv inputs N mp k w) (hrec : mp.isRecording = false) (f : α) :
    1 ≤ (mp.writeCurrent f).frameLoop.histLen ∧ (mp.writeCurrent f).frameLoop.histLen ≤ N ∧
    (mp.writeCurrent f).frameLoop.histLen ≤ k + 1 ∧
    w ≤ k + 1 - (mp.writeCurrent f).frameLoop.histLen := by
  have hww := WF_writeCurrent hinv.wf f
  have hpos := hinv.wf.pos
  obtain ⟨hl1, hl2, hl3⟩ := FrameLoop.histLen_bounds hww
  have hle := FrameLoop.histLen_le hww
  have hcur : (mp.writeCurrent f).frameLoop.currentIndex = ((k % N : Nat) : Int) := hinv.cur
  have hold : (mp.writeCurrent f).frameLoop.oldest = mp.frameLoop.oldest := rfl
  have hbf : (mp.writeCurrent f).frameLoop.bufferFull = mp.frameLoop.bufferFull := rfl
  have hmlt := Nat.mod_lt k hpos
  refine ⟨hl1, hle, ?_⟩
  rcases hinv.pin hrec with ⟨ho, hw⟩ | ⟨p, ho, hp1, hp2, hp3⟩
  · omega
  · have hne : (mp.writeCurrent f).frameLoop.oldest ≠ -1 := by
      rw [hold, ho]
      omega
    obtain ⟨e, _⟩ := hl3 hne
    rw [hold, ho, hcur, FrameLoop.mod_diff N p k hpos hp2 hp3] at e
    omega

/-- One call of `ProcessFrame` in a run: the frames it writes are numbered
increasingly from `w` on and end with the current frame, and the invariant
holds again with the bound moved past the current frame. -/
theorem WriteInv_step {inputs : List (Env × α)} {N : Nat} {mp : MotionProcessor α} {k w : Nat}
    (hinv : WriteInv inputs N mp k w) (x : Env × α) (hx : inputs[k]? = some x) :
    ∃ r, ∃ idx : List Nat, ∃ w2 : Nat,
      mp.ProcessFrame x.1 x.2 = some r ∧ WriteInv inputs N r.1 (k + 1) w2 ∧
      idx.Pairwise (fun a b => a < b) ∧ (∀ i ∈ idx, w ≤ i ∧ i < w2) ∧ w ≤ w2 ∧
      writtenFrames r.2 = idx.map (fun i => inputs[i]?.map Prod.snd) := by
  have hpos := hinv.wf.pos
  have hww := WF_writeCurrent hinv.wf x.2
  have hmlt := Nat.mod_lt k hpos
  have hcurN : mp.frameLoop.Current = k % N := by
    unfold FrameLoop.Current
    rw [hinv.cur]
    rfl
  -- the slots once the frame is copied into the current one
  have hslots : ∀ j, j ≤ k → k < j + N →
      (mp.writeCurrent x.2).frameLoop.frames[j % N]? = inputs[j]?.map Prod.snd := by
    intro j hj hjN
    show (mp.frameLoop.frames.set mp.frameLoop.Current x.2)[j % N]? = _
    rw [hcurN]
    by_cases hjk : j = k
    · rw [hjk, List.getElem?_set_self (by rw [hinv.wf.frames_len]; exact hmlt), hx]
      rfl
    · rw [List.getElem?_set_ne (Ne.symm (mod_ne_of_lt (by omega) (by omega)))]
      exact hinv.slots j (by omega) (by omega)
  obtain ⟨r0, hd, hloop, hwr⟩ := detectBranch_written hww x.1
  obtain ⟨r, hr, hwritten, hfin⟩ :=
    internalProcess_written (mp.writeCurrent x.2) x.1 mp.frameLoop.Current r0 hd
  -- the loop after the `if` statement has the fields of the loop before it
  have hLw : r0.1.frameLoop.WF N := by
    rcases hloop with e | e
    · rw [e]; exact hww
    · rw [e]; exact FrameLoop.WF_getFullHistory hww
  have hLc : r0.1.frameLoop.currentIndex = ((k % N : Nat) : Int) := by
    rcases hloop with e | e
    · rw [e]; exact hinv.cur
    · rw [e, FrameLoop.getFullHistory_snd]; exact hinv.cur
  have hLf : r0.1.frameLoop.frames = (mp.writeCurrent x.2).frameLoop.frames := by
    rcases hloop with e | e
    · rw [e]
    · rw [e, FrameLoop.getFullHistory_snd]
  have hLo : r0.1.frameLoop.oldest = mp.frameLoop.oldest := by
    rcases hloop with e | e
    · rw [e]; rfl
    · rw [e, FrameLoop.getFullHistory_snd]; rfl
  have hLb : r0.1.frameLoop.bufferFull = mp.frameLoop.bufferFull := by
    rcases hloop with e | e
    · rw [e]; rfl
    · rw [e, FrameLoop.getFullHistory_snd]; rfl
  have hMw := FrameLoop.WF_Move hLw
  have hMc := FrameLoop.Move_currentIndex_mod hLw hLc
  have hMf := FrameLoop.Move_frames hLw
  have hMo := FrameLoop.Move_oldest hLw
  have hMb : r0.1.frameLoop.Move.bufferFull =
      (if r0.1.frameLoop.currentIndex + 1 = (N : Int) then true
       else r0.1.frameLoop.bufferFull) := by
    rw [FrameLoop.Move_eq hLw]
  -- the fields of the loop the call leaves
  have hFw : r.1.frameLoop.WF N := by
    rcases hfin with ⟨_, e⟩ | ⟨_, e⟩
    · rw [e]; exact hMw
    · rw [e]; exact FrameLoop.WF_SetAsOldest hMw
  have hFc : r.1.frameLoop.currentIndex = (((k + 1) % N : Nat) : Int) := by
    rcases hfin with ⟨_, e⟩ | ⟨_, e⟩
    · rw [e]; exact hMc
    · rw [e]; exact hMc
  have hFf : r.1.frameLoop.frames = (mp.writeCurrent x.2).frameLoop.frames := by
    rcases hfin with ⟨_, e⟩ | ⟨_, e⟩
    · rw [e, hMf, hLf]
    · rw [e]
      show r0.1.frameLoop.Move.frames = _
      rw [hMf, hLf]
  have hFb : r.1.frameLoop.bufferFull = true ↔ N ≤ k + 1 := by
    have hb : r.1.frameLoop.bufferFull = r0.1.frameLoop.Move.bufferFull := by
      rcases hfin with ⟨_, e⟩ | ⟨_, e⟩
      · rw [e]
      · rw [e]; rfl
    rw [hb, hMb, hLc, hLb]
    by_cases hwrap : ((k % N : Nat) : Int) + 1 = (N : Int)
    · rw [if_pos hwrap]
      have := Nat.mod_le k N
      constructor
      · intro _; omega
      · intro _; rfl
    · rw [if_neg hwrap, hinv.full]
      constructor
      · intro h; omega
      · intro h
        by_contra hlt
        have hk : k < N := by omega
        rw [Nat.mod_eq_of_lt hk] at hwrap
        omega
  have hFs : ∀ j, j < k + 1 → k + 1 ≤ j + N →
      r.1.frameLoop.frames[j % N]? = inputs[j]?.map Prod.snd := by
    intro j hj hjN
    rw [hFf]
    exact hslots j (by omega) (by omega)
  -- the pin once the call has stopped a recording
  have hstop : r.1.frameLoop = r0.1.frameLoop.Move.SetAsOldest → ∀ w2, w2 ≤ k + 1 →
      (r.1.frameLoop.oldest = -1 ∧ w2 + N ≤ k + 1) ∨
      ∃ p : Nat, r.1.frameLoop.oldest = ((p % N : Nat) : Int) ∧ w2 ≤ p ∧ p ≤ k + 1 ∧
        k + 1 < p + N := by
    intro e w2 hw2
    right
    refine ⟨k + 1, ?_, hw2, le_refl _, by omega⟩
    rw [e]
    exact hMc
  -- the current frame as it is written
  have hcurData : r0.1.frameLoop.frames[mp.frameLoop.Current]? = inputs[k]?.map Prod.snd := by
    rw [hLf, hcurN]
    exact hslots k (le_refl _) (by omega)
  by_cases hrec0 : r0.1.isRecording = true
  · -- the current frame is written
    rw [if_pos hrec0] at hwritten
    have hpin2 : r.1.isRecording = false →
        (r.1.frameLoop.oldest = -1 ∧ k + 1 + N ≤ k + 1) ∨
        ∃ p : Nat, r.1.frameLoop.oldest = ((p % N : Nat) : Int) ∧ k + 1 ≤ p ∧ p ≤ k + 1 ∧
          k + 1 < p + N := by
      intro hr1
      rcases hfin with ⟨e1, _⟩ | ⟨_, e⟩
      · rw [e1, hrec0] at hr1
        exact absurd hr1 (by simp)
      · exact hstop e (k + 1) (le_refl _)
    have hinv2 : WriteInv inputs N r.1 (k + 1) (k + 1) :=
      ⟨hFw, hFc, hFb, hFs, le_refl _, hpin2⟩
    rcases hwr with ⟨_, hnone⟩ | ⟨hrecm, _, n, hpre⟩
    · refine ⟨r, [k], k + 1, hr, hinv2, List.pairwise_singleton _ _, ?_, by have := hinv.wle; omega,
        ?_⟩
      · intro i hi
        rw [List.mem_singleton] at hi
        have := hinv.wle
        omega
      · unfold writtenFrames
        rw [hwritten, hnone, List.nil_append, List.map_cons, List.map_nil, List.map_cons,
          List.map_nil, hcurData]
    · obtain ⟨hh1, hh2, hh3, hh4⟩ := WriteInv_history hinv hrecm x.2
      have hcw : (mp.writeCurrent x.2).frameLoop.currentIndex.toNat = k % N := hcurN
      rw [hcw, FrameLoop.lastSlots_prefix] at hpre
      refine ⟨r,
        (List.range (Min.min n ((mp.writeCurrent x.2).frameLoop.histLen - 1))).map
          (fun i => k + 1 - (mp.writeCurrent x.2).frameLoop.histLen + i) ++ [k],
        k + 1, hr, hinv2, ?_, ?_, by have := hinv.wle; omega, ?_⟩
      · rw [List.pairwise_append]
        refine ⟨?_, List.pairwise_singleton _ _, ?_⟩
        · rw [List.pairwise_map]
          exact (List.pairwise_lt_range _).imp (fun h => by omega)
        · intro a ha b hb
          rw [List.mem_singleton] at hb
          obtain ⟨i, hi, rfl⟩ := List.mem_map.mp ha
          rw [List.mem_range] at hi
          omega
      · intro i hi
        rcases List.mem_append.mp hi with h | h
        · obtain ⟨j, hj, rfl⟩ := List.mem_map.mp h
          rw [List.mem_range] at hj
          omega
        · rw [List.mem_singleton] at h
          have := hinv.wle
          omega
      · unfold writtenFrames
        rw [hwritten, hpre, List.map_append, List.map_append, List.map_cons, List.map_nil,
          List.map_cons, List.map_nil, hcurData, List.map_map, List.map_map, List.map_map]
        congr 1
        apply List.map_congr_left
        intro i hi
        rw [List.mem_range] at hi
        simp only [Function.comp, Option.bind_some]
        rw [FrameLoop.slot_of_capture N k _ i hh2 hh3]
        exact hslots _ (by omega) (by omega)
  · -- nothing is written
    have hrec2 : r0.1.isRecording = false := by simpa using hrec0
    rw [if_neg hrec0, List.append_nil] at hwritten
    have hnone : r0.2.filterMap Event.written = [] ∧ mp.isRecording = false := by
      rcases hwr with ⟨e, h⟩ | ⟨_, e, _⟩
      · exact ⟨h, by rw [← hrec2, e]; rfl⟩
      · rw [e] at hrec0
        exact absurd rfl hrec0
    have hpin2 : r.1.isRecording = false →
        (r.1.frameLoop.oldest = -1 ∧ w + N ≤ k + 1) ∨
        ∃ p : Nat, r.1.frameLoop.oldest = ((p % N : Nat) : Int) ∧ w ≤ p ∧ p ≤ k + 1 ∧
          k + 1 < p + N := by
      intro _
      rcases hfin with ⟨_, e⟩ | ⟨_, e⟩
      · rw [e, hMo, hMc, hLo]
        rcases hinv.pin hnone.2 with ⟨ho, hw⟩ | ⟨p, ho, hp1, hp2, hp3⟩
        · left
          rw [ho]
          refine ⟨?_, by omega⟩
          split <;> rfl
        · by_cases hreach : k + 1 = p + N
          · left
            rw [ho, hreach, Nat.add_mod_right, if_pos rfl]
            exact ⟨rfl, by omega⟩
          · right
            have hne : (k + 1) % N ≠ p % N :=
              Ne.symm (mod_ne_of_lt (by omega) (by omega))
            rw [ho, if_neg (by omega)]
            exact ⟨p, rfl, hp1, by omega, by omega⟩
      · exact hstop e w (by have := hinv.wle; omega)
    refine ⟨r, [], w, hr, ⟨hFw, hFc, hFb, hFs, by have := hinv.wle; omega, hpin2⟩,
      List.Pairwise.nil, ?_, le_refl _, ?_⟩
    · intro i hi
      exact absurd hi (List.not_mem_nil _)
    · unfold writtenFrames
      rw [hwritten, hnone.1]
      rfl

end MotionProcessor

namespace MotionProcessor

variable {α : Type}

theorem writtenFrames_cons (r : MotionProcessor α × List (Event α))
    (t : List (MotionProcessor α × List (Event α))) :
    writtenFrames (allEvents (r :: t)) = writtenFrames r.2 ++ writtenFrames (allEvents t) := by
  simp [writtenFrames, allEvents, List.filterMap_append]

/-- The frames a run writes, by number, from an invariant state on. -/
theorem processAll_written {inputs : List (Env × α)} {N : Nat} (rest : List (Env × α)) :
    ∀ (mp : MotionProcessor α) (k w : Nat), WriteInv inputs N mp k w → inputs.drop k = rest →
      ∃ tr, processAll mp rest = some tr ∧
        ∃ idx : List Nat, idx.Pairwise (fun a b => a < b) ∧
          (∀ i ∈ idx, w ≤ i ∧ i < inputs.length) ∧
          writtenFrames (allEvents tr) = idx.map (fun i => inputs[i]?.map Prod.snd) := by
  induction rest with
  | nil =>
    intro mp k w _ _
    exact ⟨[], rfl, [], List.Pairwise.nil, fun i hi => absurd hi (List.not_mem_nil _), rfl⟩
  | cons x rest ih =>
    intro mp k w hinv hdrop
    have hkl : k < inputs.length := by
      by_contra hge
      rw [List.drop_eq_nil_of_le (by omega)] at hdrop
      exact absurd hdrop (by simp)
    have hx : inputs[k]? = some x := by
      rw [← List.head?_drop, hdrop]
      rfl
    have hdrop2 : inputs.drop (k + 1) = rest := by
      rw [← List.drop_drop 1 k, hdrop]
      rfl
    obtain ⟨r, idx1, w2, hr, hinv2, hp1, hb1, hw2, hd1⟩ := WriteInv_step hinv x hx
    obtain ⟨tr, htr, idx2, hp2, hb2, hd2⟩ := ih r.1 (k + 1) w2 hinv2 hdrop2
    refine ⟨r :: tr, ?_, idx1 ++ idx2, ?_, ?_, ?_⟩
    · unfold processAll
      rw [hr]
      simp only [Option.some_bind, htr, Option.map_some']
    · rw [List.pairwise_append]
      refine ⟨hp1, hp2, ?_⟩
      intro a ha b hb
      have h1 := (hb1 a ha).2
      have h2 := (hb2 b hb).1
      omega
    · intro i hi
      rcases List.mem_append.mp hi with h | h
      · have h1 := hb1 i h
        have h3 := hinv2.wle
        omega
      · have h2 := hb2 i h
        omega
    · rw [writtenFrames_cons, hd1, hd2, List.map_append]

end MotionProcessor

/-- C19.  In every run of a fresh processor, whatever the detector, the window
and the recorder answer, the frames passed to `WriteFrame`, pre-trigger frames
included, are input frames taken in strictly increasing order of capture: the
pre-trigger frames of a recording were all captured after the last frame
written before (`stopRecording` pins the slot of the next capture as oldest of
the loop), so no captured frame is written twice; when the input frames are
pairwise different, so are the frames written. -/
theorem no_frame_written_twice {α : Type} (zero : α) (motionConf : MotionConfig)
    (conf : RecorderConfig) (l : Bool) (N : Nat) (hN : 1 ≤ N)
    (hsize : conf.PreviewSecs * FramesHz + motionConf.TriggerFrames = (N : Int))
    (inputs : List (Env × α)) :
    ∃ tr, processAll (MotionProcessor.NewMotionProcessor zero motionConf conf l) inputs =
        some tr ∧
      (∃ idx : List Nat, idx.Pairwise (fun a b => a < b) ∧ (∀ i ∈ idx, i < inputs.length) ∧
        writtenFrames (allEvents tr) = idx.map (fun i => inputs[i]?.map Prod.snd)) ∧
      ((inputs.map Prod.snd).Nodup → (writtenFrames (allEvents tr)).Nodup) := by
  obtain ⟨tr, htr, idx, hp, hb, hd⟩ := MotionProcessor.processAll_written inputs
    (MotionProcessor.NewMotionProcessor zero motionConf conf l) 0 0
    (MotionProcessor.WriteInv_init inputs zero motionConf conf l N hN hsize) rfl
  refine ⟨tr, htr, ⟨idx, hp, fun i hi => (hb i hi).2, hd⟩, ?_⟩
  intro hnd
  rw [hd]
  apply List.Nodup.map_on
  · intro i hi j hj hij
    have hi2 := (hb i hi).2
    have hj2 := (hb j hj).2
    rw [← List.getElem?_map, ← List.getElem?_map] at hij
    exact (List.getElem?_inj (by rw [List.length_map]; exact hi2) hnd hij)
  · exact hp.imp (fun h => Nat.ne_of_lt h)

/-- C19 at a concrete input: two recordings of one frame each, two frames
apart, with a loop of capacity 10. -/
theorem no_frame_written_twice_witness :
    (1 ≤ 10 ∧
      prerollConfig.PreviewSecs * FramesHz + oneFrameConfig.TriggerFrames = ((10 : Nat) : Int)) ∧
    ∃ tr, processAll (MotionProcessor.NewMotionProcessor 0 oneFrameConfig prerollConfig false)
        twoRecordings = some tr ∧
      (writtenFrames (allEvents tr)).Nodup :=
  ⟨⟨by decide, by decide⟩,
    (no_frame_written_twice 0 oneFrameConfig prerollConfig false 10 (by decide) (by decide)
      twoRecordings).imp (fun _ h => ⟨h.1, h.2.2 (by decide)⟩)⟩

/-- The run `twoRecordings` evaluated: the first recording writes frame 10 and
stops; the second writes the frames 11 and 12 captured since as pre-trigger
frames, then frame 13. -/
theorem twoRecordings_written :
    (processAll (MotionProcessor.NewMotionProcessor 0 oneFrameConfig prerollConfig false)
        twoRecordings).map
      (List.map (fun r => (writtenFrames r.2, r.2.filterMap Event.stoppedAt))) =
      some [([some 10], [1]), ([], []), ([], []), ([some 11, some 12, some 13], [1])] := by
  decide

/-! ### Two-diff against one-diff detection -/

namespace motionDetector

variable {rows cols : Nat}

/-- The counts of the two-diff loop against those of the one-diff loop. -/
theorem counts_two_vs_one (d : motionDetector rows cols) (f1 f2 : Frame rows cols)
    (m m2 : MotionState rows cols) :
    (d.CountPixelsTwoCompare f1 f2 m).deltaCount ≤ (d.CountPixels f1 m2).deltaCount ∧
    (d.CountPixels f1 m2).nonzeroCount ≤ (d.CountPixelsTwoCompare f1 f2 m).nonzeroCount ∧
    (d.CountPixelsTwoCompare f1 f1 m).deltaCount = (d.CountPixels f1 m2).deltaCount ∧
    (d.CountPixelsTwoCompare f1 f1 m).nonzeroCount = (d.CountPixels f1 m2).nonzeroCount := by
  obtain ⟨a1, a2⟩ := CountPixels_counts d f1 m2
  obtain ⟨b1, b2⟩ := CountPixelsTwoCompare_counts d f1 f2 m
  obtain ⟨c1, c2⟩ := CountPixelsTwoCompare_counts d f1 f1 m
  have h1 := pixelCount_mono rows cols
    (fun y x => d.deltaThresh < f1 y x ∧ d.deltaThresh < f2 y x)
    (fun y x => d.deltaThresh < f1 y x) (fun y x h => h.1)
  have h2 := pixelCount_mono rows cols (fun y x => 0 < f1 y x)
    (fun y x => 0 < f1 y x ∨ 0 < f2 y x) (fun y x h => Or.inl h)
  have h3 : pixelCount rows cols (fun y x => d.deltaThresh < f1 y x ∧ d.deltaThresh < f1 y x) =
      pixelCount rows cols (fun y x => d.deltaThresh < f1 y x) :=
    Nat.le_antisymm (pixelCount_mono _ _ _ _ (fun y x h => h.1))
      (pixelCount_mono _ _ _ _ (fun y x h => ⟨h, h⟩))
  have h4 : pixelCount rows cols (fun y x => 0 < f1 y x ∨ 0 < f1 y x) =
      pixelCount rows cols (fun y x => 0 < f1 y x) :=
    Nat.le_antisymm (pixelCount_mono _ _ _ _ (fun y x h => h.elim id id))
      (pixelCount_mono _ _ _ _ (fun y x h => Or.inl h))
  refine ⟨?_, ?_, ?_, ?_⟩
  · rw [a2, b2]
    exact_mod_cast h1
  · rw [a1, b1]
    exact_mod_cast h2
  · rw [a2, c2, h3]
  · rw [a1, c1, h4]

/-- C21.  For all diff frames `f1` and `f2` and every detector (so every
`deltaThresh`), `CountPixelsTwoCompare(f1, f2)` returns `deltas` at most and
`nonZeros` at least those of `CountPixels(f1)`, with both counts equal when
`f2 = f1`; and when `hasMotion` in two-diff mode reports motion for
`(f1, f2)`, `hasMotion` in one-diff mode on `f1`, with the same `deltaThresh`,
`countThresh` and `nonzeroLimit`, reports motion too. -/
theorem two_diff_not_more_permissive (d e : motionDetector rows cols) (f1 f2 : Frame rows cols)
    (m m2 : MotionState rows cols) :
    ((d.CountPixelsTwoCompare f1 f2 m).deltaCount ≤ (d.CountPixels f1 m2).deltaCount ∧
      (d.CountPixels f1 m2).nonzeroCount ≤ (d.CountPixelsTwoCompare f1 f2 m).nonzeroCount ∧
      (d.CountPixelsTwoCompare f1 f1 m).deltaCount = (d.CountPixels f1 m2).deltaCount ∧
      (d.CountPixelsTwoCompare f1 f1 m).nonzeroCount = (d.CountPixels f1 m2).nonzeroCount) ∧
    (d.useOneDiff = false → e.useOneDiff = true → e.deltaThresh = d.deltaThresh →
      e.countThresh = d.countThresh → e.nonzeroLimit = d.nonzeroLimit →
      (d.hasMotion f1 (some f2) m).map Result.movement = some true →
      (e.hasMotion f1 none m2).map Result.movement = some true) := by
  refine ⟨counts_two_vs_one d f1 f2 m m2, ?_⟩
  intro hd he hdt hct hnl hmotion
  obtain ⟨r, hr, h1, h2⟩ := hasMotion_spec d f1 f2 m
  obtain ⟨s, hs, k1, k2⟩ := hasMotion_spec e f1 f2 m2
  rw [hd] at hr h1 h2
  rw [he] at hs k1 k2
  simp only [Bool.false_eq_true, if_false] at hr
  simp only [if_true] at hs
  rw [hr] at hmotion
  simp only [Option.map_some', Option.some.injEq] at hmotion
  rw [hs]
  simp only [Option.map_some', Option.some.injEq]
  -- the two-diff counts are within the limit and reach the threshold
  have hlim : ¬ d.nonzeroLimit < (nonzeroPixels false f1 f2 : Int) := by
    intro hover
    rw [(h1 hover).1] at hmotion
    exact absurd hmotion (by simp)
  have hcnt : d.countThresh ≤ (deltaPixels false d.deltaThresh f1 f2 : Int) := by
    have := (h2 hlim).1
    rw [hmotion] at this
    exact of_decide_eq_true this.symm
  have hnz : nonzeroPixels true f1 f2 ≤ nonzeroPixels false f1 f2 := by
    unfold nonzeroPixels
    rw [if_pos rfl, if_neg (by simp)]
    exact pixelCount_mono _ _ _ _ (fun y x h => Or.inl h)
  have hdl : deltaPixels false d.deltaThresh f1 f2 ≤ deltaPixels true d.deltaThresh f1 f2 := by
    unfold deltaPixels
    rw [if_pos rfl, if_neg (by simp)]
    exact pixelCount_mono _ _ _ _ (fun y x h => h.1)
  have hlim2 : ¬ e.nonzeroLimit < (nonzeroPixels true f1 f2 : Int) := by
    rw [hnl]
    omega
  rw [(k2 hlim2).1, hdt, hct, decide_eq_true_iff]
  omega

end motionDetector

/-- C21 at a concrete input: the one-pixel diff frame 7 twice, under
`deltaThresh = 5`, `countThresh = 1` and a nonzero limit of one pixel. -/
theorem two_diff_not_more_permissive_witness :
    ((NewMotionDetector 1 1 permissiveConfig).hasMotion (uniformFrame 7)
        (some (uniformFrame 7)) emptyMask).map motionDetector.Result.movement = some true ∧
    ((NewMotionDetector 1 1 oneDiffConfig).hasMotion (uniformFrame 7) none emptyMask).map
      motionDetector.Result.movement = some true :=
  ⟨by decide,
    (motionDetector.two_diff_not_more_permissive (NewMotionDetector 1 1 permissiveConfig)
      (NewMotionDetector 1 1 oneDiffConfig) (uniformFrame 7) (uniformFrame 7) emptyMask
      emptyMask).2 rfl rfl rfl rfl rfl (by decide)⟩

/-! ### The marker `oldest` of a fresh loop -/

namespace motionDetector

variable {rows cols : Nat}

end motionDetector

namespace MotionProcessor

variable {α : Type}

theorem WriteInv_mono {inputs : List (Env × α)} {N : Nat} {mp : MotionProcessor α} {k w : Nat}
    (h : WriteInv inputs N mp k w) : WriteInv inputs N mp k 0 :=
  ⟨h.wf, h.cur, h.full, h.slots, Nat.zero_le _, fun hrec => by
    rcases h.pin hrec with ⟨ho, hw⟩ | ⟨p, ho, _, hp2, hp3⟩
    · exact Or.inl ⟨ho, by omega⟩
    · exact Or.inr ⟨p, ho, Nat.zero_le _, hp2, hp3⟩⟩

/-- The rest of `internalProcess` after its `if` statement and the marker of
the loop: the loop moves, and the new current slot is pinned exactly when
`StopRecording` is called. -/
theorem internalProcess_pin (mp : MotionProcessor α) (env : Env) (frame : Nat)
    (r0 : MotionProcessor α × List (Event α)) (hd : mp.detectBranch env = some r0) :
    ∃ r, mp.internalProcess env frame = some r ∧
      ((stopsRecording r = false ∧ r.1.frameLoop = r0.1.frameLoop.Move) ∨
        (stopsRecording r = true ∧ r.1.frameLoop = r0.1.frameLoop.Move.SetAsOldest)) := by
  have hns := detectBranch_no_stop mp env r0 hd
  unfold internalProcess
  rw [hd]
  simp only [Option.map_some']
  refine ⟨_, rfl, ?_⟩
  unfold stopsRecording
  by_cases hrec : r0.1.isRecording = true
  · simp only [hrec, if_true, true_and]
    split
    · right
      refine ⟨?_, rfl⟩
      cases r0.1.hasListener <;> cases env.writeOk <;> cases env.stopRecordingOk <;>
        simp [stopRecording, List.filterMap_append, Event.stoppedAt, hns]
    · left
      refine ⟨?_, rfl⟩
      cases env.writeOk <;> simp [List.filterMap_append, Event.stoppedAt, hns]
  · have hrec2 : r0.1.isRecording = false := by simpa using hrec
    simp only [hrec2, Bool.false_eq_true, if_false, false_and]
    left
    refine ⟨?_, trivial⟩
    simp [hns]

theorem HistInv_init (inputs : List (Env × α)) (zero : α) (motionConf : MotionConfig)
    (conf : RecorderConfig) (l : Bool) (N : Nat) (hN : 1 ≤ N)
    (hsize : conf.PreviewSecs * FramesHz + motionConf.TriggerFrames = (N : Int)) :
    HistInv inputs N (NewMotionProcessor zero motionConf conf l) 0 1 where
  base := WriteInv_init inputs zero motionConf conf l N hN hsize
  a_pos := le_refl _
  a_le := le_refl _
  pin := Or.inr ⟨by simp [NewMotionProcessor, FrameLoop.NewFrameLoop], hN⟩

/-- The history of the loop holds the frames available, up to the capacity. -/
theorem HistInv_histLen {inputs : List (Env × α)} {N : Nat} {mp : MotionProcessor α}
    {k a : Nat} (hinv : HistInv inputs N mp k a) (f : α) :
    (mp.writeCurrent f).frameLoop.histLen = Nat.min a N := by
  have hww := WF_writeCurrent hinv.base.wf f
  have hpos := hinv.base.wf.pos
  obtain ⟨hl1, hl2, hl3⟩ := FrameLoop.histLen_bounds hww
  have hcur : (mp.writeCurrent f).frameLoop.currentIndex = ((k % N : Nat) : Int) := hinv.base.cur
  have hold : (mp.writeCurrent f).frameLoop.oldest = mp.frameLoop.oldest := rfl
  have hbf : (mp.writeCurrent f).frameLoop.bufferFull = mp.frameLoop.bufferFull := rfl
  have hmlt := Nat.mod_lt k hpos
  have ha1 := hinv.a_pos
  have ha2 := hinv.a_le
  rcases hinv.pin with ⟨ho, ha⟩ | ⟨ho, ha⟩
  · have hfull : mp.frameLoop.bufferFull = true := hinv.base.full.mpr (by omega)
    unfold FrameLoop.histLen
    rw [hold, ho, hbf, hfull, hww.size_eq]
    simp only [NO_OLDEST_SET, if_true, or_true, Int.toNat_ofNat]
    have hm : Nat.min a N = N := Nat.min_eq_right (by omega)
    rw [hm]
  · have hne : (mp.writeCurrent f).frameLoop.oldest ≠ -1 := by
      rw [hold, ho]
      omega
    obtain ⟨e, _⟩ := hl3 hne
    rw [hold, ho, hcur, FrameLoop.mod_diff N (k + 1 - a) k hpos (by omega) (by omega)] at e
    have hm : Nat.min a N = a := Nat.min_eq_left ha
    rw [hm]
    omega

end MotionProcessor

namespace MotionProcessor

variable {α : Type}

/-- One call of `ProcessFrame` in a run keeps the invariant: a call that
calls `StopRecording` leaves one frame available to the next call, the one it
will capture, and any other call one frame more than it found. -/
theorem HistInv_step {inputs : List (Env × α)} {N : Nat} {mp : MotionProcessor α} {k a : Nat}
    (hinv : HistInv inputs N mp k a) (x : Env × α) (hx : inputs[k]? = some x) :
    ∃ r, mp.ProcessFrame x.1 x.2 = some r ∧
      HistInv inputs N r.1 (k + 1) (if stopsRecording r = true then 1 else a + 1) := by
  have hpos := hinv.base.wf.pos
  have hww := WF_writeCurrent hinv.base.wf x.2
  have ha1 := hinv.a_pos
  have ha2 := hinv.a_le
  obtain ⟨r, _, w2, hr, hinv2, _⟩ := WriteInv_step hinv.base x hx
  obtain ⟨r0, hd, hloop, _⟩ := detectBranch_written hww x.1
  obtain ⟨r1, hr1, hfin⟩ :=
    internalProcess_pin (mp.writeCurrent x.2) x.1 mp.frameLoop.Current r0 hd
  have hrr : r1 = r := by
    have e : mp.ProcessFrame x.1 x.2 = some r1 := hr1
    rw [hr] at e
    exact (Option.some.inj e).symm
  rw [hrr] at hfin
  have hLw : r0.1.frameLoop.WF N := by
    rcases hloop with e | e
    · rw [e]; exact hww
    · rw [e]; exact FrameLoop.WF_getFullHistory hww
  have hLc : r0.1.frameLoop.currentIndex = ((k % N : Nat) : Int) := by
    rcases hloop with e | e
    · rw [e]; exact hinv.base.cur
    · rw [e, FrameLoop.getFullHistory_snd]; exact hinv.base.cur
  have hLo : r0.1.frameLoop.oldest = mp.frameLoop.oldest := by
    rcases hloop with e | e
    · rw [e]; rfl
    · rw [e, FrameLoop.getFullHistory_snd]; rfl
  have hMc := FrameLoop.Move_currentIndex_mod hLw hLc
  have hMo := FrameLoop.Move_oldest hLw
  refine ⟨r, hr, ?_⟩
  rcases hfin with ⟨hs, e⟩ | ⟨hs, e⟩
  · rw [hs]
    simp only [Bool.false_eq_true, if_false]
    refine ⟨WriteInv_mono hinv2, by omega, by omega, ?_⟩
    rw [e, hMo, hMc, hLo]
    rcases hinv.pin with ⟨ho, ha⟩ | ⟨ho, ha⟩
    · left
      rw [ho]
      refine ⟨?_, by omega⟩
      split <;> rfl
    · by_cases hreach : a = N
      · left
        have e2 : k + 1 = (k + 1 - a) + N := by omega
        have hm : (k + 1 - a + N) % N = (k + 1 - a) % N := Nat.add_mod_right _ _
        rw [← e2] at hm
        rw [ho, hm, if_pos rfl]
        exact ⟨rfl, by omega⟩
      · right
        have hne : (k + 1) % N ≠ (k + 1 - a) % N :=
          Ne.symm (mod_ne_of_lt (by omega) (by omega))
        rw [ho, if_neg (by omega)]
        have e3 : k + 1 + 1 - (a + 1) = k + 1 - a := by omega
        rw [e3]
        exact ⟨rfl, by omega⟩
  · rw [hs]
    simp only [if_true]
    refine ⟨WriteInv_mono hinv2, le_refl _, by omega, Or.inr ⟨?_, hpos⟩⟩
    rw [e]
    have e3 : k + 1 + 1 - 1 = k + 1 := by omega
    rw [e3]
    exact hMc

/-- The frames written on a call that starts a recording, the recorder not
failing: the `min a N` frames captured last, in capture order, each from the
slot of the loop that holds it. -/
theorem HistInv_start {inputs : List (Env × α)} {N : Nat} {mp : MotionProcessor α} {k a : Nat}
    (hinv : HistInv inputs N mp k a) (x : Env × α) (hx : inputs[k]? = some x)
    (r : MotionProcessor α × List (Event α)) (hr : mp.ProcessFrame x.1 x.2 = some r)
    (hev : 0 < r.2.countP Event.isStartRecording)
    (hwin : x.1.windowActive = true) (hcheck : x.1.checkCanRecordOk = true)
    (hstart : x.1.startRecordingOk = true) (hpre : ∀ ii, x.1.preWriteOk ii = true)
    (hwrite : x.1.writeOk = true) :
    1 ≤ Nat.min a N ∧ Nat.min a N ≤ k + 1 ∧ Nat.min a N ≤ N ∧
    (mp.writeCurrent x.2).frameLoop.GetHistory =
      some ((List.range (Nat.min a N)).map (fun i => some ((k + 1 - Nat.min a N + i) % N)),
        (mp.writeCurrent x.2).frameLoop.getFullHistory.2) ∧
    r.2.filterMap Event.written =
      (List.range (Nat.min a N)).map (fun i =>
        (some ((k + 1 - Nat.min a N + i) % N),
          inputs[k + 1 - Nat.min a N + i]?.map Prod.snd)) := by
  have hpos := hinv.base.wf.pos
  have hww := WF_writeCurrent hinv.base.wf x.2
  have ha1 := hinv.a_pos
  have ha2 := hinv.a_le
  have hmlt := Nat.mod_lt k hpos
  have hL := HistInv_histLen hinv x.2
  have hL1 : 1 ≤ Nat.min a N := Nat.le_min.mpr ⟨ha1, hpos⟩
  have hL2 : Nat.min a N ≤ k + 1 := le_trans (Nat.min_le_left a N) ha2
  have hL3 : Nat.min a N ≤ N := Nat.min_le_right a N
  have hcurN : mp.frameLoop.Current = k % N := by
    unfold FrameLoop.Current
    rw [hinv.base.cur]
    rfl
  have hcw : (mp.writeCurrent x.2).frameLoop.currentIndex.toNat = k % N := hcurN
  have hslots : ∀ j, j ≤ k → k < j + N →
      (mp.writeCurrent x.2).frameLoop.frames[j % N]? = inputs[j]?.map Prod.snd := by
    intro j hj hjN
    show (mp.frameLoop.frames.set mp.frameLoop.Current x.2)[j % N]? = _
    rw [hcurN]
    by_cases hjk : j = k
    · rw [hjk, List.getElem?_set_self (by rw [hinv.base.wf.frames_len]; exact hmlt), hx]
      rfl
    · rw [List.getElem?_set_ne (Ne.symm (mod_ne_of_lt (by omega) (by omega)))]
      exact hinv.base.slots j (by omega) (by omega)
  have hslotsEq : FrameLoop.lastSlots N (k % N) (Nat.min a N) =
      (List.range (Nat.min a N)).map (fun i => some ((k + 1 - Nat.min a N + i) % N)) := by
    unfold FrameLoop.lastSlots
    apply List.map_congr_left
    intro i _
    rw [FrameLoop.slot_of_capture N k _ i hL3 hL2]
  obtain ⟨r1, hr1, hf⟩ := ProcessFrame_spec hinv.base.wf x.1 x.2
  have hrr : r1 = r := by
    rw [hr] at hr1
    exact (Option.some.inj hr1).symm
  rw [hrr] at hf
  obtain ⟨hmotion, hrec, htrig⟩ := hf.start (Or.inl hev)
  obtain ⟨r2, hr2, hw, _, _⟩ := internalProcess_start hww x.1 hrec hmotion hwin htrig hcheck hstart
    hpre hwrite
  have hrr2 : r2 = r := by
    have e : mp.ProcessFrame x.1 x.2 = some r2 := hr2
    rw [hr] at e
    exact (Option.some.inj e).symm
  rw [hrr2, hcw, hL, hslotsEq, List.map_map] at hw
  refine ⟨hL1, hL2, hL3, ?_, ?_⟩
  · rw [FrameLoop.GetHistory_eq hww, hcw, hL, hslotsEq]
  · rw [hw]
    apply List.map_congr_left
    intro i hi
    rw [List.mem_range] at hi
    simp only [Function.comp, Option.some_bind]
    rw [hslots (k + 1 - Nat.min a N + i) (by omega) (by omega)]

end MotionProcessor

namespace MotionProcessor

variable {α : Type}

theorem stateBefore_cons (mp : MotionProcessor α) (r : MotionProcessor α × List (Event α))
    (tr : List (MotionProcessor α × List (Event α))) (i : Nat) (hi : i < tr.length + 1) :
    stateBefore mp (r :: tr) (i + 1) = stateBefore r.1 tr i := by
  cases i with
  | zero => simp [stateBefore]
  | succ j =>
    have hj : j < tr.length := by omega
    simp [stateBefore, List.getElem?_eq_getElem hj]

/-- Along a run from an invariant state, every call finds the invariant, with
the count of the frames available. -/
theorem processAll_history {inputs : List (Env × α)} {N : Nat} (rest : List (Env × α)) :
    ∀ (mp : MotionProcessor α) (k a : Nat), HistInv inputs N mp k a → inputs.drop k = rest →
      ∃ tr, processAll mp rest = some tr ∧ tr.length = rest.length ∧
        ∀ i x r, rest[i]? = some x → tr[i]? = some r →
          inputs[k + i]? = some x ∧
          HistInv inputs N (stateBefore mp tr i) (k + i) (framesAvailableFrom a tr i) ∧
          (stateBefore mp tr i).ProcessFrame x.1 x.2 = some r := by
  induction rest with
  | nil =>
    intro mp k a _ _
    refine ⟨[], rfl, rfl, ?_⟩
    intro i x r hx
    simp at hx
  | cons x rest ih =>
    intro mp k a hinv hdrop
    have hx : inputs[k]? = some x := by
      rw [← List.head?_drop, hdrop]
      rfl
    have hdrop2 : inputs.drop (k + 1) = rest := by
      rw [← List.drop_drop 1 k, hdrop]
      rfl
    obtain ⟨r, hr, hinv2⟩ := HistInv_step hinv x hx
    obtain ⟨tr, htr, hlen, hall⟩ := ih r.1 (k + 1) _ hinv2 hdrop2
    refine ⟨r :: tr, ?_, by simp [hlen], ?_⟩
    · unfold processAll
      rw [hr]
      simp only [Option.some_bind, htr, Option.map_some']
    · intro i y s hy hs
      cases i with
      | zero =>
        simp only [List.getElem?_cons_zero, Option.some.injEq] at hy hs
        subst hy
        subst hs
        exact ⟨hx, hinv, hr⟩
      | succ i =>
        simp only [List.getElem?_cons_succ] at hy hs
        have hi : i < tr.length := by
          by_contra hge
          rw [List.getElem?_eq_none (by omega)] at hs
          exact absurd hs (by simp)
        obtain ⟨h1, h2, h3⟩ := hall i y s hy hs
        have e1 : k + (i + 1) = k + 1 + i := by omega
        rw [stateBefore_cons mp r tr i (by omega), e1]
        exact ⟨h1, h2, h3⟩

end MotionProcessor

/-- C8.  The frames available in the history at a call are the frames
captured since the processor was made or since the last call that called
`StopRecording`, the frame of the call included (`framesAvailable`).  In every
run of a fresh processor whose loop has the capacity `N = preRoll +
triggerFrames`, on every call `k` (counted from 0) on which `StartRecording`
is called, the window active and the recorder not failing, the frames passed
to `WriteFrame` are exactly the history that `GetHistory` returns, in its
order; they are the `L = min (frames available) N` frames captured last, the
frames `k + 1 - L, ..., k` of the input in capture order, each read from the
slot that holds it; the last one is the triggering frame, and the pointer of
the triggering frame is passed once. -/
theorem preroll_is_captured_history {α : Type} (zero : α) (motionConf : MotionConfig)
    (conf : RecorderConfig) (l : Bool) (N : Nat) (hN : 1 ≤ N)
    (hsize : conf.PreviewSecs * FramesHz + motionConf.TriggerFrames = (N : Int))
    (inputs : List (Env × α)) :
    ∃ tr, processAll (MotionProcessor.NewMotionProcessor zero motionConf conf l) inputs =
        some tr ∧ tr.length = inputs.length ∧
      ∀ k x r, inputs[k]? = some x → tr[k]? = some r →
        0 < r.2.countP Event.isStartRecording →
        x.1.windowActive = true → x.1.checkCanRecordOk = true →
        x.1.startRecordingOk = true → (∀ ii, x.1.preWriteOk ii = true) →
        x.1.writeOk = true →
        ∃ hist fl2, ∃ L : Nat,
          ((stateBefore (MotionProcessor.NewMotionProcessor zero motionConf conf l) tr
            k).writeCurrent x.2).frameLoop.GetHistory = some (hist, fl2) ∧
          L = Nat.min (framesAvailable tr k) N ∧ 1 ≤ L ∧ L ≤ k + 1 ∧
          hist.length = L ∧
          r.2.filterMap Event.written =
            hist.map (fun p => (p, p.bind (fun q => fl2.frames[q]?))) ∧
          writtenFrames r.2 =
            (List.range L).map (fun i => inputs[k + 1 - L + i]?.map Prod.snd) ∧
          (r.2.filterMap Event.written).getLast? =
            some (some (stateBefore (MotionProcessor.NewMotionProcessor zero motionConf conf l)
              tr k).frameLoop.Current, some x.2) ∧
          ((r.2.filterMap Event.written).map Prod.fst).countP
            (fun p => decide (p = some
              (stateBefore (MotionProcessor.NewMotionProcessor zero motionConf conf l) tr
                k).frameLoop.Current)) = 1 := by
  obtain ⟨tr, htr, hlen, hall⟩ := MotionProcessor.processAll_history inputs
    (MotionProcessor.NewMotionProcessor zero motionConf conf l) 0 1
    (MotionProcessor.HistInv_init inputs zero motionConf conf l N hN hsize) rfl
  refine ⟨tr, htr, hlen, ?_⟩
  intro k x r hx hr hev hwin hcheck hstart hpre hwrite
  obtain ⟨_, hinv, hpf⟩ := hall k x r hx hr
  rw [Nat.zero_add] at hinv
  obtain ⟨hL1, hL2, hL3, hg, hw⟩ :=
    MotionProcessor.HistInv_start hinv x hx r hpf hev hwin hcheck hstart hpre hwrite
  have hpos : 0 < N := hN
  have hcurN : (stateBefore (MotionProcessor.NewMotionProcessor zero motionConf conf l) tr
      k).frameLoop.Current = k % N := by
    unfold FrameLoop.Current
    rw [hinv.base.cur]
    rfl
  have hww := MotionProcessor.WF_writeCurrent hinv.base.wf x.2
  have hfr : ((stateBefore (MotionProcessor.NewMotionProcessor zero motionConf conf l) tr
      k).writeCurrent x.2).frameLoop.getFullHistory.2.frames =
      ((stateBefore (MotionProcessor.NewMotionProcessor zero motionConf conf l) tr
        k).writeCurrent x.2).frameLoop.frames := by
    rw [FrameLoop.getFullHistory_snd]
  have hfa : framesAvailableFrom 1 tr k = framesAvailable tr k := rfl
  rw [hfa] at hg hw hL1 hL2 hL3
  -- the slots of the frames written, as the loop holds them at the call
  have hslot : ∀ i, i < Nat.min (framesAvailable tr k) N →
      ((stateBefore (MotionProcessor.NewMotionProcessor zero motionConf conf l) tr
        k).writeCurrent x.2).frameLoop.frames[(k + 1 - Nat.min (framesAvailable tr k) N + i)
          % N]? = inputs[k + 1 - Nat.min (framesAvailable tr k) N + i]?.map Prod.snd := by
    intro i hi
    have hmlt := Nat.mod_lt k hpos
    show ((stateBefore (MotionProcessor.NewMotionProcessor zero motionConf conf l) tr
        k).frameLoop.frames.set _ x.2)[_]? = _
    rw [hcurN]
    by_cases hjk : k + 1 - Nat.min (framesAvailable tr k) N + i = k
    · rw [hjk, List.getElem?_set_self (by rw [hinv.base.wf.frames_len]; exact hmlt), hx]
      rfl
    · rw [List.getElem?_set_ne (Ne.symm (mod_ne_of_lt (by omega) (by omega)))]
      exact hinv.base.slots _ (by omega) (by omega)
  have hlastIdx : k + 1 - Nat.min (framesAvailable tr k) N +
      (Nat.min (framesAvailable tr k) N - 1) = k := by omega
  refine ⟨_, _, Nat.min (framesAvailable tr k) N, hg, rfl, hL1, hL2, ?_, ?_, ?_, ?_, ?_⟩
  · rw [List.length_map, List.length_range]
  · rw [hw, List.map_map]
    apply List.map_congr_left
    intro i hi
    rw [List.mem_range] at hi
    simp only [Function.comp, Option.some_bind]
    rw [hfr, hslot i hi]
  · unfold writtenFrames
    rw [hw, List.map_map]
    rfl
  · rw [hw, List.getLast?_eq_getElem?, List.length_map, List.length_range,
      List.getElem?_map, List.getElem?_range (by omega)]
    simp only [Option.map_some']
    rw [hlastIdx, hx, hcurN]
    rfl
  · rw [hw, List.map_map, hcurN]
    have hnd : ((List.range (Nat.min (framesAvailable tr k) N)).map
        (Prod.fst ∘ fun i => (some ((k + 1 - Nat.min (framesAvailable tr k) N + i) % N),
          inputs[k + 1 - Nat.min (framesAvailable tr k) N + i]?.map Prod.snd))).Nodup := by
      apply List.Nodup.map_on _ (List.nodup_range _)
      intro i hi j hj hij
      rw [List.mem_range] at hi hj
      simp only [Function.comp, Option.some.injEq] at hij
      by_contra hne
      rcases Nat.lt_or_gt_of_ne hne with hlt | hgt
      · exact mod_ne_of_lt
          (show k + 1 - Nat.min (framesAvailable tr k) N + i <
            k + 1 - Nat.min (framesAvailable tr k) N + j by omega) (by omega) hij
      · exact mod_ne_of_lt
          (show k + 1 - Nat.min (framesAvailable tr k) N + j <
            k + 1 - Nat.min (framesAvailable tr k) N + i by omega) (by omega) hij.symm
    apply MotionProcessor.countP_eq_one_of_nodup _ _ hnd
    rw [List.mem_map]
    refine ⟨Nat.min (framesAvailable tr k) N - 1, by rw [List.mem_range]; omega, ?_⟩
    simp only [Function.comp]
    rw [hlastIdx]

/-- The runs `twoRecordings` and `lateMotion` evaluated.  In `twoRecordings`, with a
loop of capacity 10, call 0 stops a recording and call 3 starts one: three
frames are available and call 3 writes them, 11, 12 and 13.  In `lateMotion`,
with `TriggerFrames = 2` and no pre-roll, a loop of capacity 2, call 2 starts
a recording: three frames are available and call 2 writes the last two, 21
and 22. -/
theorem preroll_runs_evaluated :
    (processAll (MotionProcessor.NewMotionProcessor 0 oneFrameConfig prerollConfig false)
        twoRecordings).map
      (fun tr => ((List.range 4).map (framesAvailable tr),
        tr.map (fun r => (r.2.countP Event.isStartRecording, stopsRecording r,
          writtenFrames r.2)))) =
      some ([1, 1, 2, 3],
        [(1, true, [some 10]), (0, false, []), (0, false, []),
          (1, true, [some 11, some 12, some 13])]) ∧
    (processAll (MotionProcessor.NewMotionProcessor 0 exampleConfig (s4Config 0) false)
        lateMotion).map
      (fun tr => ((List.range 3).map (framesAvailable tr),
        tr.map (fun r => (r.2.countP Event.isStartRecording, stopsRecording r,
          writtenFrames r.2)))) =
      some ([1, 2, 3],
        [(0, false, ([] : List (Option Nat))), (0, false, []),
          (1, false, [some 21, some 22])]) :=
  ⟨by decide, by decide⟩

/-- C8 at two concrete inputs: a recording that starts three frames after the
previous one has stopped writes the three frames captured since; a recording
that starts on the third frame with a loop of capacity 2 writes the last two
frames. -/
theorem preroll_is_captured_history_witness :
    ((1 ≤ 10 ∧
        prerollConfig.PreviewSecs * FramesHz + oneFrameConfig.TriggerFrames = ((10 : Nat) : Int)) ∧
      (1 ≤ 2 ∧ (s4Config 0).PreviewSecs * FramesHz + exampleConfig.TriggerFrames =
        ((2 : Nat) : Int))) ∧
    (∃ tr r, processAll (MotionProcessor.NewMotionProcessor 0 oneFrameConfig prerollConfig false)
        twoRecordings = some tr ∧ tr[3]? = some r ∧ framesAvailable tr 3 = 3 ∧
      writtenFrames r.2 = [some 11, some 12, some 13]) ∧
    (∃ tr r, processAll (MotionProcessor.NewMotionProcessor 0 exampleConfig (s4Config 0) false)
        lateMotion = some tr ∧ tr[2]? = some r ∧ framesAvailable tr 2 = 3 ∧
      writtenFrames r.2 = [some 21, some 22]) := by
  refine ⟨⟨⟨by decide, by decide⟩, ⟨by decide, by decide⟩⟩, ?_, ?_⟩
  · obtain ⟨tr, htr, hlen, hall⟩ := preroll_is_captured_history 0 oneFrameConfig prerollConfig
      false 10 (by decide) (by decide) twoRecordings
    have hlen2 : 3 < tr.length := by rw [hlen]; decide
    have hr := List.getElem?_eq_getElem hlen2
    have hfa : framesAvailable tr 3 = 3 ∧ 0 < (tr[3]).2.countP Event.isStartRecording := by
      have h := congrArg (Option.map (fun t : List (MotionProcessor Nat × List (Event Nat)) =>
        (framesAvailable t 3, t[3]?.map (fun r => r.2.countP Event.isStartRecording)))) htr
      rw [(by decide : (processAll
        (MotionProcessor.NewMotionProcessor 0 oneFrameConfig prerollConfig false)
          twoRecordings).map (fun t => (framesAvailable t 3,
            t[3]?.map (fun r => r.2.countP Event.isStartRecording))) = some (3, some 1))] at h
      simp only [Option.map_some', Option.some.injEq, Prod.mk.injEq, hr] at h
      exact ⟨h.1.symm, by rw [← h.2]; decide⟩
    obtain ⟨hist, fl2, L, _, hL, _, _, _, _, hw, _⟩ := hall 3 (Env.allOk true, 13) _ rfl hr hfa.2
      rfl rfl rfl (fun _ => rfl) rfl
    rw [hfa.1] at hL
    rw [hL] at hw
    exact ⟨tr, _, htr, hr, hfa.1, hw⟩
  · obtain ⟨tr, htr, hlen, hall⟩ := preroll_is_captured_history 0 exampleConfig (s4Config 0)
      false 2 (by decide) (by decide) lateMotion
    have hlen2 : 2 < tr.length := by rw [hlen]; decide
    have hr := List.getElem?_eq_getElem hlen2
    have hfa : framesAvailable tr 2 = 3 ∧ 0 < (tr[2]).2.countP Event.isStartRecording := by
      have h := congrArg (Option.map (fun t : List (MotionProcessor Nat × List (Event Nat)) =>
        (framesAvailable t 2, t[2]?.map (fun r => r.2.countP Event.isStartRecording)))) htr
      rw [(by decide : (processAll
        (MotionProcessor.NewMotionProcessor 0 exampleConfig (s4Config 0) false)
          lateMotion).map (fun t => (framesAvailable t 2,
            t[2]?.map (fun r => r.2.countP Event.isStartRecording))) = some (3, some 1))] at h
      simp only [Option.map_some', Option.some.injEq, Prod.mk.injEq, hr] at h
      exact ⟨h.1.symm, by rw [← h.2]; decide⟩
    obtain ⟨hist, fl2, L, _, hL, _, _, _, _, hw, _⟩ := hall 2 (Env.allOk true, 22) _ rfl hr hfa.2
      rfl rfl rfl (fun _ => rfl) rfl
    rw [hfa.1] at hL
    rw [hL] at hw
    exact ⟨tr, _, htr, hr, hfa.1, hw⟩

end motion
